import Mathlib

/-!
# libfs: a FAT-style filesystem on a virtual block device

A shallow embedding of `src/libfs/fs.c`.  The globals of the C file
(`diskStatus`, `Superblock`, `FAT`, `Root`, `fdTable`) together with the
block device form the record `FS`; every API function maps a state (and its
arguments) to a new state and the returned `int`.

Conventions of the embedding:

* C `int` values are `Int`; unsigned values are `Nat`, reduced modulo the
  width of their C type at every store or arithmetic operation of the source.
* Memory (the FAT array, the root table, the handle table, bounce buffers,
  caller buffers, disk blocks) is a total map from indices to values.  An
  access outside the C allocation is undefined behaviour in the source; in
  the model it reads or writes the map at that index.
* `while` loops that follow FAT links carry a fuel argument and return `none`
  when the fuel runs out.
-/

namespace LibFS

/-! ## Constants -/

/-- End-of-chain marker, `#define FAT_EOC 0xFFFF`. -/
abbrev FAT_EOC : Nat := 0xFFFF

/-- Modelled from the spec: `BLOCK_SIZE` comes from disk.h, which is not among
the sources; the block size is 4096 bytes. -/
abbrev BLOCK_SIZE : Nat := 4096

/-- Modelled from the spec: `FS_FILENAME_LEN` comes from fs.h, which is not
among the sources; the filename field has 16 bytes. -/
abbrev FS_FILENAME_LEN : Nat := 16

/-- Modelled from the spec: `FS_FILE_MAX_COUNT` comes from fs.h; the root
directory has 128 entries. -/
abbrev FS_FILE_MAX_COUNT : Nat := 128

/-- Modelled from the spec: `FS_OPEN_MAX_COUNT` comes from fs.h; the handle
table has 32 entries. -/
abbrev FS_OPEN_MAX_COUNT : Nat := 32

/-! ## Machine integers -/

/-- Conversion to `uint16_t`. -/
def u16 (n : Nat) : Nat := n % 65536

/-- Conversion to `uint32_t` (and `unsigned int`). -/
def u32 (n : Nat) : Nat := n % 4294967296

/-- Conversion to `size_t` (64 bit). -/
def u64 (n : Nat) : Nat := n % 18446744073709551616

/-- Conversion of an unsigned value to `int` (32-bit two's complement). -/
def toInt (n : Nat) : Int :=
  if n % 4294967296 < 2147483648 then ((n % 4294967296 : Nat) : Int)
  else ((n % 4294967296 : Nat) : Int) - 4294967296

/-- Conversion of an `int` to `size_t`: sign extension, modulo 2^64. -/
def sizeOfInt (i : Int) : Nat := (i % 18446744073709551616).toNat

/-- Conversion of an `int` to `unsigned int`, as in a comparison or an
arithmetic operation of an `int` with a `uint32_t`. -/
def u32OfInt (i : Int) : Nat := (i % 4294967296).toNat

/-! ## Data model -/

/-- The packed `struct superblock` (one 4096-byte block). -/
structure superblock where
  signature : List Nat
  numberOfBlocks : Nat
  rootBlockIndex : Nat
  dataBlockStartIndex : Nat
  numberOfDataBlocks : Nat
  numberOfFATBlocks : Nat
  unused : List Nat
deriving DecidableEq

/-- The packed `struct rootEntry` (32 bytes). -/
structure rootEntry where
  filename : List Nat
  fileSize : Nat
  firstDataBlockIndex : Nat
  unused : List Nat
deriving DecidableEq

/-- An entry of the handle table, `struct fileDescriptor`. -/
structure fileDescriptor where
  fileIndex : Int
  fileOffset : Int
deriving DecidableEq

/-- Modelled from the spec: the block device of disk.h, an external
collaborator that is not among the sources.  It is either closed or open on
an image of `count` blocks of `BLOCK_SIZE` bytes; `data b k` is byte `k` of
block `b`. -/
structure BlockDisk where
  opened : Bool
  count : Nat
  data : Nat → Nat → Nat

/-- The process-wide state: the globals of fs.c and the block device. -/
structure FS where
  diskStatus : Int
  Superblock : superblock
  FAT : Nat → Nat
  Root : Nat → rootEntry
  fdTable : Nat → fileDescriptor
  disk : BlockDisk

/-! ## Block device -/

/-- Modelled from the spec: `block_disk_open`.  It fails (-1) when a disk is
already open or when the named image cannot be opened (`img = none`);
otherwise the image becomes the open disk. -/
def block_disk_open (d : BlockDisk) (img : Option BlockDisk) : BlockDisk × Int :=
  if d.opened = true then (d, -1)
  else match img with
    | none => (d, -1)
    | some i => ({ i with opened := true }, 0)

/-- Modelled from the spec: `block_disk_close`.  It fails when no disk is
open. -/
def block_disk_close (d : BlockDisk) : BlockDisk × Int :=
  if d.opened = true then ({ d with opened := false }, 0) else (d, -1)

/-- Modelled from the spec: `block_disk_count`, the number of blocks of the
open disk, -1 when no disk is open. -/
def block_disk_count (d : BlockDisk) : Int :=
  if d.opened = true then (d.count : Int) else -1

/-- Modelled from the spec: `block_read`, the bytes of block `block`, or
`none` (return value -1, destination untouched) when no disk is open or the
block index is out of range. -/
def block_read (d : BlockDisk) (block : Nat) : Option (Nat → Nat) :=
  if d.opened = true ∧ block < d.count then some (d.data block) else none

/-- Modelled from the spec: `block_write` of the `BLOCK_SIZE` bytes
`src 0 .. src 4095` to block `block`; nothing is written (return value -1)
when no disk is open or the block index is out of range. -/
def block_write (d : BlockDisk) (block : Nat) (src : Nat → Nat) : BlockDisk :=
  if d.opened = true ∧ block < d.count then
    { d with data := fun b k => if b = block ∧ k < BLOCK_SIZE then src k else d.data b k }
  else d

/-- The effect of `block_read(block, mem + dst)` on a byte buffer `mem`. -/
def readInto (d : BlockDisk) (block : Nat) (mem : Nat → Nat) (dst : Nat) : Nat → Nat :=
  match block_read d block with
  | some b => fun p => if dst ≤ p ∧ p < dst + BLOCK_SIZE then b (p - dst) else mem p
  | none => mem

/-- The effect of `block_write(block, mem + src)` from a byte buffer `mem`. -/
def writeFrom (d : BlockDisk) (block : Nat) (mem : Nat → Nat) (src : Nat) : BlockDisk :=
  block_write d block (fun k => mem (src + k))

/-! ## Byte layout of the metadata blocks -/

/-- Little-endian 16-bit value at offset `o` of a byte buffer. -/
def le16At (mem : Nat → Nat) (o : Nat) : Nat := mem o + 256 * mem (o + 1)

/-- Little-endian 32-bit value at offset `o` of a byte buffer. -/
def le32At (mem : Nat → Nat) (o : Nat) : Nat :=
  mem o + 256 * mem (o + 1) + 65536 * mem (o + 2) + 16777216 * mem (o + 3)

/-- Byte `k` of the little-endian representation of `v`. -/
def leByte (v : Nat) (k : Nat) : Nat := v / 256 ^ k % 256

/-- The bytes `mem o .. mem (o + n - 1)` as a list. -/
def bytesAt (mem : Nat → Nat) (o n : Nat) : List Nat := (List.range n).map (fun k => mem (o + k))

/-- The 4096 bytes of the in-memory `Superblock`. -/
def superblockBytes (sb : superblock) : Nat → Nat := fun p =>
  if p < 8 then sb.signature.getD p 0
  else if p < 10 then leByte sb.numberOfBlocks (p - 8)
  else if p < 12 then leByte sb.rootBlockIndex (p - 10)
  else if p < 14 then leByte sb.dataBlockStartIndex (p - 12)
  else if p < 16 then leByte sb.numberOfDataBlocks (p - 14)
  else if p < 17 then leByte sb.numberOfFATBlocks 0
  else sb.unused.getD (p - 17) 0

/-- The `struct superblock` overlaid on the bytes of a block. -/
def superblockOfBytes (b : Nat → Nat) : superblock :=
  { signature := bytesAt b 0 8
    numberOfBlocks := le16At b 8
    rootBlockIndex := le16At b 10
    dataBlockStartIndex := le16At b 12
    numberOfDataBlocks := le16At b 14
    numberOfFATBlocks := b 16
    unused := bytesAt b 17 4079 }

/-- The bytes of the in-memory `FAT` array (16-bit little-endian entries). -/
def fatBytes (FAT : Nat → Nat) : Nat → Nat := fun p => leByte (FAT (p / 2)) (p % 2)

/-- The `uint16_t` array overlaid on a byte buffer. -/
def fatOfBytes (mem : Nat → Nat) : Nat → Nat := fun i => le16At mem (2 * i)

/-- The 32 bytes of a root entry. -/
def rootEntryBytes (e : rootEntry) : Nat → Nat := fun o =>
  if o < 16 then e.filename.getD o 0
  else if o < 20 then leByte e.fileSize (o - 16)
  else if o < 22 then leByte e.firstDataBlockIndex (o - 20)
  else e.unused.getD (o - 22) 0

/-- The 4096 bytes of the in-memory `Root` table. -/
def rootBytes (Root : Nat → rootEntry) : Nat → Nat := fun p => rootEntryBytes (Root (p / 32)) (p % 32)

/-- Entry `i` of the `struct rootEntry` array overlaid on the bytes of a
block. -/
def rootEntryOfBytes (b : Nat → Nat) (i : Nat) : rootEntry :=
  { filename := bytesAt b (32 * i) 16
    fileSize := le32At b (32 * i + 16)
    firstDataBlockIndex := le16At b (32 * i + 20)
    unused := bytesAt b (32 * i + 22) 10 }

/-! ## C strings -/

/-- The C string that starts at the head of a byte sequence: the bytes before
the first NUL. -/
def cstr (s : List Nat) : List Nat := s.takeWhile (fun c => c != 0)

/-- The C library `strlen`. -/
def strlen (s : List Nat) : Nat := (cstr s).length

/-- The test `strcmp(a, b) == 0`. -/
def streq (a b : List Nat) : Bool := decide (cstr a = cstr b)

/-- The bytes a `char*` to the `filename` field of a root entry points at:
the field, followed in the packed struct by the file size, the first block
index and the padding. -/
def nameBytes (e : rootEntry) : List Nat :=
  e.filename ++ (List.range 4).map (leByte e.fileSize)
    ++ (List.range 2).map (leByte e.firstDataBlockIndex) ++ e.unused

/-- The `filename` field after `strcpy(field, src)` with `strlen src` at most
`FS_FILENAME_LEN`: the string and its NUL are stored from the start of the
field and the bytes behind them are kept.  For a string of exactly 16 bytes
the NUL lands on the low byte of `fileSize`, which the caller sets to 0 right
afterwards. -/
def strcpyField (field src : List Nat) : List Nat :=
  (cstr src ++ [0] ++ field.drop (strlen src + 1)).take FS_FILENAME_LEN

/-! ## Helpers of fs.c -/

/-- The loop of `findEmptyFD`: `n` iterations left, at index `i`. -/
def findEmptyFD_loop (fdTable : Nat → fileDescriptor) : Nat → Nat → Int
  | 0, _ => -1
  | n + 1, i => if (fdTable i).fileIndex = -1 then (i : Int) else findEmptyFD_loop fdTable n (i + 1)

/-- `findEmptyFD`: the first handle whose `fileIndex` is -1, or -1. -/
def findEmptyFD (fdTable : Nat → fileDescriptor) : Int :=
  findEmptyFD_loop fdTable FS_OPEN_MAX_COUNT 0

/-- The loop of `findEmptyFAT`: `n` iterations left, at index `i`. -/
def findEmptyFAT_loop (FAT : Nat → Nat) : Nat → Nat → Nat
  | 0, _ => 0
  | n + 1, i => if FAT i = 0 then i else findEmptyFAT_loop FAT n (i + 1)

/-- `findEmptyFAT`: the first index in `[1, numberOfDataBlocks)` whose FAT
entry is 0, or 0. -/
def findEmptyFAT (FAT : Nat → Nat) (numberOfDataBlocks : Nat) : Nat :=
  findEmptyFAT_loop FAT (numberOfDataBlocks - 1) 1

/-- Assignment `a[i] = v` on a map. -/
def setAt {α : Type} (a : Nat → α) (i : Nat) (v : α) : Nat → α :=
  fun j => if j = i then v else a j

/-! ## Mount and unmount -/

/-- The signature `"ECS150FS"`. -/
def expectedSignature : List Nat := [69, 67, 83, 49, 53, 48, 70, 83]

/-- The FAT-loading loop of `fs_mount`: `n` iterations left, at `FATIndex = i`,
`block_read(FATIndex + 1, FAT + BLOCK_SIZE * FATIndex)`. -/
def loadFAT (d : BlockDisk) : Nat → Nat → (Nat → Nat) → (Nat → Nat)
  | 0, _, mem => mem
  | n + 1, i, mem => loadFAT d n (i + 1) (readInto d (i + 1) mem (BLOCK_SIZE * i))

/-- `fs_mount`; `img` is the disk image the name refers to, `none` when it
cannot be opened.  The buffer obtained from `malloc` for the FAT is taken to
be zero-filled. -/
def fs_mount (s : FS) (img : Option BlockDisk) : FS × Int :=
  if s.diskStatus = 1 then (s, -1)
  else
    let o := block_disk_open s.disk img
    if o.2 = -1 then ({ s with diskStatus := 0, disk := o.1 }, -1)
    else
      let d := o.1
      let sb := match block_read d 0 with
        | some b => superblockOfBytes b
        | none => s.Superblock
      let s1 : FS := { s with diskStatus := 1, disk := d, Superblock := sb }
      if sb.signature ≠ expectedSignature then (s1, -1)
      else if (sb.numberOfBlocks : Int) ≠ block_disk_count d then (s1, -1)
      else
        let FAT := fatOfBytes (loadFAT d sb.numberOfFATBlocks 0 (fun _ => 0))
        let s2 : FS := { s1 with FAT := FAT }
        if FAT 0 ≠ FAT_EOC then (s2, -1)
        else
          let Root := match block_read d sb.rootBlockIndex with
            | some b => fun i => if i < FS_FILE_MAX_COUNT then rootEntryOfBytes b i else s.Root i
            | none => s.Root
          ({ s2 with
              Root := Root
              fdTable := fun i =>
                if i < FS_OPEN_MAX_COUNT then { fileIndex := -1, fileOffset := 0 } else s.fdTable i },
            0)

/-- The handle scan of `fs_umount`: is some `fileIndex` among the `n` handles
from `i` on different from -1. -/
def anyOpenFD (fdTable : Nat → fileDescriptor) : Nat → Nat → Bool
  | 0, _ => false
  | n + 1, i => if (fdTable i).fileIndex ≠ -1 then true else anyOpenFD fdTable n (i + 1)

/-- The FAT-writing loop of `fs_umount`: `n` iterations left, at
`FATIndex = i`, `block_write(FATIndex + 1, FAT + BLOCK_SIZE * FATIndex)`. -/
def storeFAT (mem : Nat → Nat) : Nat → Nat → BlockDisk → BlockDisk
  | 0, _, d => d
  | n + 1, i, d => storeFAT mem n (i + 1) (writeFrom d (i + 1) mem (BLOCK_SIZE * i))

/-- `fs_umount`. -/
def fs_umount (s : FS) : FS × Int :=
  if s.diskStatus ≠ 1 then (s, -1)
  else if anyOpenFD s.fdTable FS_OPEN_MAX_COUNT 0 = true then (s, -1)
  else
    let d0 := block_write s.disk 0 (superblockBytes s.Superblock)
    let d1 := storeFAT (fatBytes s.FAT) s.Superblock.numberOfFATBlocks 0 d0
    let d2 := block_write d1 s.Superblock.rootBlockIndex (rootBytes s.Root)
    let c := block_disk_close d2
    if c.2 = -1 then ({ s with disk := c.1, diskStatus := -1 }, -1)
    else ({ s with disk := c.1, diskStatus := c.2 }, 0)

/-! ## Root directory -/

/-- The loop of `fs_create`: `n` iterations left, at `rootIndex = i`, with
the current `freeRootIndex`.  `none` stands for the `return -1` on a name
that already exists. -/
def fs_create_scan (Root : Nat → rootEntry) (filename : List Nat) : Nat → Nat → Int → Option Int
  | 0, _, freeRootIndex => some freeRootIndex
  | n + 1, i, freeRootIndex =>
    if streq (nameBytes (Root i)) filename = true then none
    else fs_create_scan Root filename n (i + 1)
      (if (Root i).filename.getD 0 0 = 0 ∧ freeRootIndex = -1 then (i : Int) else freeRootIndex)

/-- `fs_create`. -/
def fs_create (s : FS) (filename : List Nat) : FS × Int :=
  if strlen filename > FS_FILENAME_LEN ∨ s.diskStatus ≠ 1 then (s, -1)
  else match fs_create_scan s.Root filename FS_FILE_MAX_COUNT 0 (-1) with
    | none => (s, -1)
    | some freeRootIndex =>
      if freeRootIndex = -1 then (s, -1)
      else
        let e := s.Root freeRootIndex.toNat
        ({ s with
            Root := setAt s.Root freeRootIndex.toNat
              { e with
                filename := strcpyField e.filename filename
                fileSize := 0
                firstDataBlockIndex := FAT_EOC } },
          0)

/-- The file lookup loop of `fs_delete` and `fs_open`: `n` iterations left,
at `rootIndex = i`; the index of the first entry whose name compares equal,
or -1. -/
def findFile (Root : Nat → rootEntry) (filename : List Nat) : Nat → Nat → Int
  | 0, _ => -1
  | n + 1, i =>
    if streq (nameBytes (Root i)) filename = true then (i : Int)
    else findFile Root filename n (i + 1)

/-- The chain-clearing loop of `fs_delete`,
`while (FAT[nextFATBlock] != FAT_EOC)`, on the FAT, the disk and
`nextFATBlock`.  The block written is `FAT[clearedBlock] + dataBlockStartIndex`
read after `FAT[clearedBlock] = 0`. -/
def fs_delete_loop (dataBlockStartIndex : Nat) :
    Nat → (Nat → Nat) → BlockDisk → Nat → Option ((Nat → Nat) × BlockDisk × Nat)
  | 0, FAT, d, nextFATBlock => if FAT nextFATBlock = FAT_EOC then some (FAT, d, nextFATBlock) else none
  | fuel + 1, FAT, d, nextFATBlock =>
    if FAT nextFATBlock = FAT_EOC then some (FAT, d, nextFATBlock)
    else
      let clearedBlock := nextFATBlock
      let FAT1 := setAt FAT clearedBlock 0
      fs_delete_loop dataBlockStartIndex fuel FAT1
        (block_write d (FAT1 clearedBlock + dataBlockStartIndex) (fun _ => 0)) (FAT nextFATBlock)

/-- `fs_delete`. -/
def fs_delete (fuel : Nat) (s : FS) (filename : List Nat) : Option (FS × Int) :=
  if strlen filename > FS_FILENAME_LEN ∨ s.diskStatus ≠ 1 then some (s, -1)
  else
    let fileIndex := findFile s.Root filename FS_FILE_MAX_COUNT 0
    if fileIndex = -1 then some (s, -1)
    else
      let e := s.Root fileIndex.toNat
      let nextFATBlock := e.firstDataBlockIndex
      let s1 : FS := { s with
        Root := setAt s.Root fileIndex.toNat
          { e with
            filename := List.replicate FS_FILENAME_LEN 0
            fileSize := 0
            firstDataBlockIndex := 0 } }
      if nextFATBlock = FAT_EOC then some (s1, 0)
      else match fs_delete_loop s.Superblock.dataBlockStartIndex fuel s.FAT s.disk nextFATBlock with
        | none => none
        | some (FAT1, d1, last) =>
          let FAT2 := setAt FAT1 last 0
          some ({ s1 with
                  FAT := FAT2
                  disk := block_write d1 (FAT2 last + s.Superblock.dataBlockStartIndex) (fun _ => 0) },
                0)

/-! ## Handle table -/

/-- `fs_open`. -/
def fs_open (s : FS) (filename : List Nat) : FS × Int :=
  if strlen filename > FS_FILENAME_LEN ∨ s.diskStatus ≠ 1 then (s, -1)
  else
    let openFD := findEmptyFD s.fdTable
    if openFD = -1 then (s, -1)
    else
      let fileIndex := findFile s.Root filename FS_FILE_MAX_COUNT 0
      if fileIndex = -1 then (s, -1)
      else
        ({ s with
            fdTable := setAt s.fdTable openFD.toNat
              { s.fdTable openFD.toNat with fileIndex := fileIndex } },
          openFD)

/-- The test `fd >= FS_OPEN_MAX_COUNT || fd < 0 || fdTable[fd].fileIndex == -1`
of the handle operations, together with the mounted check. -/
def badHandle (s : FS) (fd : Int) : Prop :=
  s.diskStatus ≠ 1 ∨ fd ≥ FS_OPEN_MAX_COUNT ∨ fd < 0 ∨ (s.fdTable fd.toNat).fileIndex = -1

instance (s : FS) (fd : Int) : Decidable (badHandle s fd) := by
  unfold badHandle; infer_instance

/-- `fs_close`. -/
def fs_close (s : FS) (fd : Int) : FS × Int :=
  if badHandle s fd then (s, -1)
  else ({ s with fdTable := setAt s.fdTable fd.toNat { fileIndex := -1, fileOffset := 0 } }, 0)

/-- `fs_stat`. -/
def fs_stat (s : FS) (fd : Int) : Int :=
  if badHandle s fd then -1
  else toInt (s.Root (s.fdTable fd.toNat).fileIndex.toNat).fileSize

/-- `fs_lseek`; `offset` is a `size_t`. -/
def fs_lseek (s : FS) (fd : Int) (offset : Nat) : FS × Int :=
  if badHandle s fd ∨ offset > (s.Root (s.fdTable fd.toNat).fileIndex.toNat).fileSize then (s, -1)
  else
    ({ s with fdTable := setAt s.fdTable fd.toNat { s.fdTable fd.toNat with fileOffset := toInt offset } },
      0)

/-! ## Reading and writing -/

/-- The tail-finding loop of `fs_write`,
`while (nextBlock != FAT_EOC) { currentBlock = nextBlock; nextBlock = FAT[currentBlock]; }`,
on `currentBlock` and `nextBlock`; the result is the final `currentBlock`. -/
def walkToEnd (FAT : Nat → Nat) : Nat → Nat → Nat → Option Nat
  | 0, currentBlock, nextBlock => if nextBlock = FAT_EOC then some currentBlock else none
  | fuel + 1, currentBlock, nextBlock =>
    if nextBlock = FAT_EOC then some currentBlock
    else walkToEnd FAT fuel nextBlock (FAT nextBlock)

/-- The allocation loop of `fs_write`, `while (numberOfNewBlocks > 0)`, with
`numberOfNewBlocks = n`, on the FAT and `currentBlock`.  The second component
is `some numberOfNewBlocks` when the loop was left by `break` (no room left
on disk), `none` when it ran to its end. -/
def fs_write_alloc (numberOfDataBlocks : Nat) : Nat → (Nat → Nat) → Nat → (Nat → Nat) × Option Nat
  | 0, FAT, _ => (FAT, none)
  | n + 1, FAT, currentBlock =>
    let FAT1 := setAt FAT currentBlock (u16 (findEmptyFAT FAT numberOfDataBlocks))
    if FAT1 currentBlock = 0 then (setAt FAT1 currentBlock FAT_EOC, some (n + 1))
    else
      let currentBlock1 := FAT1 currentBlock
      fs_write_alloc numberOfDataBlocks n (setAt FAT1 currentBlock1 FAT_EOC) currentBlock1

/-- The outcome of the first part of `fs_write`: either the early `return 0`
of an empty file on a full disk, or the state and the (possibly reduced)
`count` with which the function goes on. -/
inductive Extended where
  | returned (s : FS) (r : Int)
  | goesOn (s : FS) (count : Nat)

/-- `numberOfFileDataBlocks` of `fs_write`, computed in `uint32_t`. -/
def fileBlocks (fileSize : Nat) : Nat := u32 (fileSize + (BLOCK_SIZE - 1)) / BLOCK_SIZE

/-- The block count `((fileOffset + count) + (BLOCK_SIZE-1)) / BLOCK_SIZE` of
`fs_write`, computed in `size_t`. -/
def neededBlocks (fileOffset : Int) (count : Nat) : Nat :=
  u64 (u64 (sizeOfInt fileOffset + count) + (BLOCK_SIZE - 1)) / BLOCK_SIZE

/-- The first part of `fs_write` (source lines 361 to 401): allocation of new
blocks when the write goes past the blocks of the file, and the update of
`fileSize`. -/
def fs_write_extend (fuel : Nat) (s : FS) (fd : Int) (count : Nat) : Option Extended :=
  let fileIndex := (s.fdTable fd.toNat).fileIndex.toNat
  let fileOffset := (s.fdTable fd.toNat).fileOffset
  let e := s.Root fileIndex
  let numberOfFileDataBlocks := fileBlocks e.fileSize
  if neededBlocks fileOffset count > numberOfFileDataBlocks then
    let numberOfNewBlocks : Int := toInt (neededBlocks fileOffset count - numberOfFileDataBlocks)
    let totalNumberOfNewBlocks := numberOfNewBlocks
    match walkToEnd s.FAT fuel 0 e.firstDataBlockIndex with
    | none => none
    | some currentBlock =>
      let finish (FAT : Nat → Nat) (first : Nat) (left : Option Nat) : Option Extended :=
        let count1 := match left with
          | some numberOfNewBlocks1 =>
            u32OfInt (((numberOfFileDataBlocks * BLOCK_SIZE : Nat) : Int) - (e.fileSize : Int)
              + (totalNumberOfNewBlocks - (numberOfNewBlocks1 : Int)) * (BLOCK_SIZE : Int))
          | none => count
        some (Extended.goesOn
          { s with
            FAT := FAT
            Root := setAt s.Root fileIndex
              { e with
                firstDataBlockIndex := first
                fileSize := u32 (u64 (sizeOfInt fileOffset + count1)) } }
          count1)
      if currentBlock = 0 then
        let first := u16 (findEmptyFAT s.FAT s.Superblock.numberOfDataBlocks)
        if first = 0 then
          some (Extended.returned
            { s with
              FAT := setAt s.FAT currentBlock FAT_EOC
              Root := setAt s.Root fileIndex { e with firstDataBlockIndex := FAT_EOC } }
            0)
        else
          let a := fs_write_alloc s.Superblock.numberOfDataBlocks (numberOfNewBlocks - 1).toNat
            (setAt s.FAT first FAT_EOC) first
          finish a.1 first a.2
      else
        let a := fs_write_alloc s.Superblock.numberOfDataBlocks numberOfNewBlocks.toNat
          s.FAT currentBlock
        finish a.1 e.firstDataBlockIndex a.2
  else some (Extended.goesOn s count)

/-- The loading loop of `fs_write`,
`while (nextDataBlock != FAT_EOC)` with
`block_read(currentDataBlock + dataBlockStartIndex, fullFile + dataIndex)`,
on `nextDataBlock`, `dataIndex` and the bounce buffer. -/
def loadChain (d : BlockDisk) (FAT : Nat → Nat) (dataBlockStartIndex : Nat) :
    Nat → Nat → Nat → (Nat → Nat) → Option (Nat → Nat)
  | 0, nextDataBlock, _, fullFile => if nextDataBlock = FAT_EOC then some fullFile else none
  | fuel + 1, nextDataBlock, dataIndex, fullFile =>
    if nextDataBlock = FAT_EOC then some fullFile
    else loadChain d FAT dataBlockStartIndex fuel (FAT nextDataBlock) (dataIndex + BLOCK_SIZE)
      (readInto d (nextDataBlock + dataBlockStartIndex) fullFile dataIndex)

/-- The write-back loop of `fs_write`,
`while (nextDataBlock != FAT_EOC)` with
`block_write(currentDataBlock + dataBlockStartIndex, fullFile + dataIndex)`,
on `nextDataBlock`, `dataIndex` and the disk. -/
def storeChain (FAT : Nat → Nat) (dataBlockStartIndex : Nat) (fullFile : Nat → Nat) :
    Nat → Nat → Nat → BlockDisk → Option BlockDisk
  | 0, nextDataBlock, _, d => if nextDataBlock = FAT_EOC then some d else none
  | fuel + 1, nextDataBlock, dataIndex, d =>
    if nextDataBlock = FAT_EOC then some d
    else storeChain FAT dataBlockStartIndex fullFile fuel (FAT nextDataBlock) (dataIndex + BLOCK_SIZE)
      (writeFrom d (nextDataBlock + dataBlockStartIndex) fullFile dataIndex)

/-- `memcpy(dst + at, src, count)` on byte buffers. -/
def memcpyInto (dst : Nat → Nat) (pos : Nat) (src : Nat → Nat) (count : Nat) : Nat → Nat :=
  fun p => if pos ≤ p ∧ p < pos + count then src (p - pos) else dst p

/-- The second part of `fs_write` (source lines 403 to 434): the whole file
is loaded into a bounce buffer, the caller's bytes are copied in at the
cursor, the cursor advances, and the buffer is written back along the chain.
The bounce buffer obtained from `malloc` is taken to be zero-filled, and it is
modelled without its bound: whether the accesses stay inside the allocated
`fullFileSize` bytes is what `fs_write_splice_inBounds` computes. -/
def fs_write_splice (fuel : Nat) (s : FS) (fd : Int) (buf : Nat → Nat) (count : Nat) :
    Option (FS × Int) :=
  let fileIndex := (s.fdTable fd.toNat).fileIndex.toNat
  let fileOffset := (s.fdTable fd.toNat).fileOffset
  let first := (s.Root fileIndex).firstDataBlockIndex
  match loadChain s.disk s.FAT s.Superblock.dataBlockStartIndex fuel first 0 (fun _ => 0) with
  | none => none
  | some fullFile =>
    let fullFile1 := memcpyInto fullFile fileOffset.toNat buf count
    let fdTable1 := setAt s.fdTable fd.toNat
      { s.fdTable fd.toNat with fileOffset := toInt (u64 (sizeOfInt fileOffset + count)) }
    match storeChain s.FAT s.Superblock.dataBlockStartIndex fullFile1 fuel first 0 s.disk with
    | none => none
    | some d => some ({ s with fdTable := fdTable1, disk := d }, toInt count)

/-- `fs_write`; `buf i` is byte `i` of the caller's buffer and `count` a
`size_t`.  `none` means that a loop following the FAT ran out of fuel. -/
def fs_write (fuel : Nat) (s : FS) (fd : Int) (buf : Nat → Nat) (count : Nat) : Option (FS × Int) :=
  if badHandle s fd ∨
      u32OfInt (s.fdTable fd.toNat).fileOffset > (s.Root (s.fdTable fd.toNat).fileIndex.toNat).fileSize then
    some (s, -1)
  else if count = 0 then some (s, 0)
  else match fs_write_extend fuel s fd count with
    | none => none
    | some (Extended.returned s1 r) => some (s1, r)
    | some (Extended.goesOn s1 count1) => fs_write_splice fuel s1 fd buf count1

/-- The loading loop of `fs_read`, `while (FAT[currentBlock] != FAT_EOC)`, on
`currentBlock`, `dataIndex` and the bounce buffer. -/
def readChain (d : BlockDisk) (FAT : Nat → Nat) (dataBlockStartIndex : Nat) :
    Nat → Nat → Nat → (Nat → Nat) → Option (Nat × Nat × (Nat → Nat))
  | 0, currentBlock, dataIndex, fullFile =>
    if FAT currentBlock = FAT_EOC then some (currentBlock, dataIndex, fullFile) else none
  | fuel + 1, currentBlock, dataIndex, fullFile =>
    if FAT currentBlock = FAT_EOC then some (currentBlock, dataIndex, fullFile)
    else readChain d FAT dataBlockStartIndex fuel (FAT currentBlock) (dataIndex + BLOCK_SIZE)
      (readInto d (currentBlock + dataBlockStartIndex) fullFile dataIndex)

/-- `fs_read`; `buf` is the caller's buffer before the call, the second
component of the result the buffer after it, and `count` a `size_t`.  The
bounce buffer obtained from `malloc` is taken to be zero-filled.  `none`
means that the loop following the FAT ran out of fuel. -/
def fs_read (fuel : Nat) (s : FS) (fd : Int) (buf : Nat → Nat) (count : Nat) :
    Option (FS × (Nat → Nat) × Int) :=
  if badHandle s fd ∨
      u32OfInt (s.fdTable fd.toNat).fileOffset > (s.Root (s.fdTable fd.toNat).fileIndex.toNat).fileSize then
    some (s, buf, -1)
  else
    let fileIndex := (s.fdTable fd.toNat).fileIndex.toNat
    let fileOffset := (s.fdTable fd.toNat).fileOffset
    let e := s.Root fileIndex
    let currentBlock := e.firstDataBlockIndex
    if currentBlock = FAT_EOC then some (s, buf, 0)
    else match readChain s.disk s.FAT s.Superblock.dataBlockStartIndex fuel currentBlock 0 (fun _ => 0) with
      | none => none
      | some (currentBlock1, dataIndex, fullFile) =>
        let fullFile1 := readInto s.disk (currentBlock1 + s.Superblock.dataBlockStartIndex) fullFile dataIndex
        let count1 :=
          if u64 (sizeOfInt fileOffset + count) > e.fileSize then
            let c := u32OfInt ((e.fileSize : Int) - fileOffset)
            if c > e.fileSize then e.fileSize else c
          else count
        some ({ s with
                fdTable := setAt s.fdTable fd.toNat
                  { s.fdTable fd.toNat with fileOffset := toInt (u64 (sizeOfInt fileOffset + count1)) } },
              memcpyInto buf 0 (fun p => fullFile1 (fileOffset.toNat + p)) count1,
              toInt count1)

/-! ## Specification vocabulary -/

/-- `IsChain FAT b cs`: following the FAT links from index `b` visits exactly
the indices `cs`, in this order, and then meets the end-of-chain marker. -/
inductive IsChain (FAT : Nat → Nat) : Nat → List Nat → Prop
  | nil : IsChain FAT FAT_EOC []
  | cons {b : Nat} {cs : List Nat} : b ≠ FAT_EOC → IsChain FAT (FAT b) cs → IsChain FAT b (b :: cs)

/-- The number of blocks `ceil(n / BLOCK_SIZE)` that `n` bytes occupy. -/
def ceilBlocks (n : Nat) : Nat := (n + (BLOCK_SIZE - 1)) / BLOCK_SIZE

/-- The number of zero FAT entries among the `n` indices from `i` on. -/
def freeFrom (FAT : Nat → Nat) : Nat → Nat → Nat
  | 0, _ => 0
  | n + 1, i => (if FAT i = 0 then 1 else 0) + freeFrom FAT n (i + 1)

/-- The number of zero FAT entries in `[1, numberOfDataBlocks)`. -/
def freeCount (FAT : Nat → Nat) (numberOfDataBlocks : Nat) : Nat :=
  freeFrom FAT (numberOfDataBlocks - 1) 1

/-- A root slot is in use: the first byte of its filename is not NUL. -/
def slotUsed (e : rootEntry) : Prop := e.filename.getD 0 0 ≠ 0

instance (e : rootEntry) : Decidable (slotUsed e) := by
  unfold slotUsed; infer_instance

/-- The layout invariants of the superblock, and the agreement of its block
count with the device. -/
def Layout (s : FS) : Prop :=
  1 + s.Superblock.numberOfFATBlocks + 1 + s.Superblock.numberOfDataBlocks = s.Superblock.numberOfBlocks
  ∧ s.Superblock.rootBlockIndex = 1 + s.Superblock.numberOfFATBlocks
  ∧ s.Superblock.dataBlockStartIndex = s.Superblock.rootBlockIndex + 1
  ∧ s.Superblock.numberOfBlocks = s.disk.count

/-- The file of root slot `idx` has the FAT chain `cs`: the chain starts at
its first block, ends in the end-of-chain marker, has
`ceil(fileSize / BLOCK_SIZE)` entries, all of them in
`[1, numberOfDataBlocks)`. -/
def FileChain (s : FS) (idx : Nat) (cs : List Nat) : Prop :=
  IsChain s.FAT (s.Root idx).firstDataBlockIndex cs
  ∧ cs.length = ceilBlocks (s.Root idx).fileSize
  ∧ ∀ c ∈ cs, 1 ≤ c ∧ c < s.Superblock.numberOfDataBlocks

/-- A mounted state with sound geometry: the disk is open, the layout
invariants hold, the number of data blocks fits its 16-bit field with the
end-of-chain marker left out, and FAT entry 0 is the end-of-chain marker. -/
def Mounted (s : FS) : Prop :=
  s.diskStatus = 1
  ∧ s.disk.opened = true
  ∧ Layout s
  ∧ s.Superblock.numberOfDataBlocks ≤ 65535
  ∧ s.FAT 0 = FAT_EOC

/-- A mounted, well-formed state: a mounted state with sound geometry in which
every used root entry has a well-formed chain. -/
def WellFormed (s : FS) : Prop :=
  Mounted s
  ∧ ∀ idx, idx < FS_FILE_MAX_COUNT → slotUsed (s.Root idx) → ∃ cs, FileChain s idx cs

/-- Handle `fd` is open on the used root slot `idx` with its cursor at
`off`. -/
def OpenHandle (s : FS) (fd idx off : Nat) : Prop :=
  fd < FS_OPEN_MAX_COUNT
  ∧ s.fdTable fd = { fileIndex := (idx : Int), fileOffset := (off : Int) }
  ∧ idx < FS_FILE_MAX_COUNT
  ∧ slotUsed (s.Root idx)

/-- Byte `p` of the content of a file with chain `cs`: the concatenation of
the data blocks `dataBlockStartIndex + c` along the chain. -/
def fileByte (d : BlockDisk) (dataBlockStartIndex : Nat) (cs : List Nat) (p : Nat) : Nat :=
  d.data (cs.getD (p / BLOCK_SIZE) 0 + dataBlockStartIndex) (p % BLOCK_SIZE)

/-- What the first part of `fs_write` does for a file with chain `cs` whose
write of `n` bytes at cursor `off` needs more blocks than the file has.
Either the file has no block and the disk no free entry, and the call returns
0 with the state unchanged; or the chain is extended by the free entries
`new`, all of the missing blocks when there are enough of them and `count`
stays `n`, otherwise every free entry of the disk and `count` becomes the
room up to the end of the last block. -/
def ExtendOutcome (s : FS) (idx off : Nat) (cs : List Nat) (n : Nat) (r : Option Extended) : Prop :=
  (cs = [] ∧ freeCount s.FAT s.Superblock.numberOfDataBlocks = 0
    ∧ r = some (Extended.returned s 0))
  ∨ ∃ (new : List Nat) (FAT1 : Nat → Nat) (first1 count1 : Nat),
      r = some (Extended.goesOn
            { s with
              FAT := FAT1
              Root := setAt s.Root idx
                { s.Root idx with firstDataBlockIndex := first1, fileSize := off + count1 } }
            count1)
      ∧ IsChain FAT1 first1 (cs ++ new)
      ∧ cs ++ new ≠ []
      ∧ (∀ c ∈ new, 1 ≤ c ∧ c < s.Superblock.numberOfDataBlocks)
      ∧ (∀ j, j ∉ cs ++ new → FAT1 j = s.FAT j)
      ∧ freeCount s.FAT s.Superblock.numberOfDataBlocks
          = freeCount FAT1 s.Superblock.numberOfDataBlocks + new.length
      ∧ ((new.length = ceilBlocks (off + n) - ceilBlocks (s.Root idx).fileSize ∧ count1 = n)
         ∨ (new.length < ceilBlocks (off + n) - ceilBlocks (s.Root idx).fileSize
            ∧ freeCount FAT1 s.Superblock.numberOfDataBlocks = 0
            ∧ count1 = ceilBlocks (s.Root idx).fileSize * BLOCK_SIZE - (s.Root idx).fileSize
                + new.length * BLOCK_SIZE))

/-- What `fs_write` does for a file with chain `cs` whose write of `n` bytes
at cursor `off` needs more blocks than the file has: `ExtendOutcome`, followed
by the splice of `count1` bytes of `buf` into the content along the extended
chain `cs ++ new`. -/
def WriteOutcome (s : FS) (fd idx off : Nat) (cs : List Nat) (buf : Nat → Nat) (n : Nat)
    (r : Option (FS × Int)) : Prop :=
  (cs = [] ∧ freeCount s.FAT s.Superblock.numberOfDataBlocks = 0 ∧ r = some (s, 0))
  ∨ ∃ (new : List Nat) (FAT1 : Nat → Nat) (first1 count1 : Nat) (d2 : BlockDisk),
      r = some
            ({ s with
                FAT := FAT1
                Root := setAt s.Root idx
                  { s.Root idx with firstDataBlockIndex := first1, fileSize := off + count1 }
                fdTable := setAt s.fdTable fd
                  { fileIndex := (idx : Int), fileOffset := ((off + count1 : Nat) : Int) }
                disk := d2 },
              (count1 : Int))
      ∧ IsChain FAT1 first1 (cs ++ new)
      ∧ cs ++ new ≠ []
      ∧ (∀ c ∈ new, 1 ≤ c ∧ c < s.Superblock.numberOfDataBlocks)
      ∧ (∀ j, j ∉ cs ++ new → FAT1 j = s.FAT j)
      ∧ freeCount s.FAT s.Superblock.numberOfDataBlocks
          = freeCount FAT1 s.Superblock.numberOfDataBlocks + new.length
      ∧ ((new.length = ceilBlocks (off + n) - ceilBlocks (s.Root idx).fileSize ∧ count1 = n)
         ∨ (new.length < ceilBlocks (off + n) - ceilBlocks (s.Root idx).fileSize
            ∧ freeCount FAT1 s.Superblock.numberOfDataBlocks = 0
            ∧ count1 = ceilBlocks (s.Root idx).fileSize * BLOCK_SIZE - (s.Root idx).fileSize
                + new.length * BLOCK_SIZE))
      ∧ d2.opened = true ∧ d2.count = s.disk.count
      ∧ (∀ blk, (∀ c ∈ cs ++ new, blk ≠ c + s.Superblock.dataBlockStartIndex) →
          d2.data blk = s.disk.data blk)
      ∧ ∀ q, q < BLOCK_SIZE * (cs ++ new).length →
          fileByte d2 s.Superblock.dataBlockStartIndex (cs ++ new) q
            = if off ≤ q ∧ q < off + count1 then buf (q - off)
              else fileByte s.disk s.Superblock.dataBlockStartIndex (cs ++ new) q

/-- A root slot holds the name `name`: the C string that starts at its
`filename` field equals the C string `name`, that is `strcmp` returns 0. -/
def slotHolds (e : rootEntry) (name : List Nat) : Prop := cstr (nameBytes e) = cstr name

instance (e : rootEntry) (name : List Nat) : Decidable (slotHolds e name) := by
  unfold slotHolds; infer_instance

/-- A root entry that was never used: all 32 bytes zero. -/
def zeroEntry : rootEntry :=
  { filename := List.replicate 16 0, fileSize := 0, firstDataBlockIndex := 0,
    unused := List.replicate 10 0 }

/-- A root entry for a file named `"f"`. -/
def fileEntry (fileSize first : Nat) : rootEntry :=
  { filename := 102 :: List.replicate 15 0, fileSize := fileSize, firstDataBlockIndex := first,
    unused := List.replicate 10 0 }

/-- A FAT given by its first entries; all further entries are 0. -/
def fatOfList (l : List Nat) : Nat → Nat := fun i => l.getD i 0

/-- A mounted filesystem on a zero-filled disk with `dbc` data blocks, one FAT
block, the root directory in block 2 and the data from block 3 on; root slot 0
holds `e`, all other slots are free; handle 0 is `h`, all other handles are
unused. -/
def exampleFS (dbc : Nat) (FAT : Nat → Nat) (e : rootEntry) (h : fileDescriptor) : FS :=
  { diskStatus := 1
    Superblock :=
      { signature := expectedSignature, numberOfBlocks := dbc + 3, rootBlockIndex := 2,
        dataBlockStartIndex := 3, numberOfDataBlocks := dbc, numberOfFATBlocks := 1,
        unused := List.replicate 4079 0 }
    FAT := FAT
    Root := fun i => if i = 0 then e else zeroEntry
    fdTable := fun i => if i = 0 then h else { fileIndex := -1, fileOffset := 0 }
    disk := { opened := true, count := dbc + 3, data := fun _ _ => 0 } }

/-- A freshly formatted and mounted filesystem with `dbc` data blocks: no
file, no open handle, only FAT entry 0 set. -/
def freshFS (dbc : Nat) : FS :=
  exampleFS dbc (fatOfList [FAT_EOC]) zeroEntry { fileIndex := -1, fileOffset := 0 }

/-- Four data blocks; the file `"f"` of 8192 bytes occupies blocks 1 and 2 and
is open on handle 0 with its cursor at 4090. -/
def twoBlockFS : FS :=
  exampleFS 4 (fatOfList [FAT_EOC, 2, FAT_EOC]) (fileEntry 8192 1) { fileIndex := 0, fileOffset := 4090 }

/-- A caller buffer holding the bytes of `l`. -/
def bufOfList (l : List Nat) : Nat → Nat := fun i => l.getD i 0

/-- Four data blocks, all free; the empty file `"f"` is open on handle 0 with
its cursor at 0. -/
def emptyFileFS : FS :=
  exampleFS 4 (fatOfList [FAT_EOC]) (fileEntry 0 FAT_EOC) { fileIndex := 0, fileOffset := 0 }

/-- Three data blocks (two of them usable, FAT entries 1 and 2), both free;
the empty file `"f"` is open on handle 0 with its cursor at 0. -/
def twoFreeFS : FS :=
  exampleFS 3 (fatOfList [FAT_EOC]) (fileEntry 0 FAT_EOC) { fileIndex := 0, fileOffset := 0 }

/-- Four data blocks; the file `"f"` of 5 bytes occupies block 1 and is open
on handle 0 with its cursor at the end of the file, 5. -/
def fiveByteFS : FS :=
  exampleFS 4 (fatOfList [FAT_EOC, FAT_EOC]) (fileEntry 5 1) { fileIndex := 0, fileOffset := 5 }

/-- Two data blocks, so that FAT entry 1 is the only usable one; the file
`"f"` of 4096 bytes occupies it, the disk is full, and the file is open on
handle 0 with its cursor at 4000. -/
def fullDiskFS : FS :=
  exampleFS 2 (fatOfList [FAT_EOC, FAT_EOC]) (fileEntry 4096 1) { fileIndex := 0, fileOffset := 4000 }

/-- The 16-byte name `"abcdefghijklmnop"`. -/
def name16 : List Nat := [97, 98, 99, 100, 101, 102, 103, 104, 105, 106, 107, 108, 109, 110, 111, 112]

/-- Four data blocks; the file `"f"` of 8192 bytes occupies blocks 1 and 2; no
handle is open. -/
def closedFS : FS :=
  exampleFS 4 (fatOfList [FAT_EOC, 2, FAT_EOC]) (fileEntry 8192 1) { fileIndex := -1, fileOffset := 0 }

/-! ## Reports -/

/-- The root-counting loop of `fs_info`: the number of entries, among the `n`
from `rootDirectoryIndex = i` on, whose filename starts with NUL. -/
def countFreeRoot (Root : Nat → rootEntry) : Nat → Nat → Nat
  | 0, _ => 0
  | n + 1, i => (if (Root i).filename.getD 0 0 = 0 then 1 else 0) + countFreeRoot Root n (i + 1)

/-- `fs_info`: the numbers it prints, in the order of the `printf` calls, and
its return value.  The FAT loop runs over the indices `[0, numberOfDataBlocks)`.
The function has no test of `diskStatus`. -/
def fs_info (s : FS) : List Nat × Int :=
  ([s.Superblock.numberOfBlocks, s.Superblock.numberOfFATBlocks, s.Superblock.rootBlockIndex,
    s.Superblock.dataBlockStartIndex, s.Superblock.numberOfDataBlocks,
    freeFrom s.FAT s.Superblock.numberOfDataBlocks 0, s.Superblock.numberOfDataBlocks,
    countFreeRoot s.Root FS_FILE_MAX_COUNT 0, FS_FILE_MAX_COUNT], 0)

/-- The loop of `fs_ls`: name, size (printed with `%d`) and first block of the
entries, among the `n` from `rootIndex = i` on, whose filename does not start
with NUL. -/
def fs_ls_loop (Root : Nat → rootEntry) : Nat → Nat → List (List Nat × Int × Nat)
  | 0, _ => []
  | n + 1, i =>
    if (Root i).filename.getD 0 0 ≠ 0 then
      (cstr (nameBytes (Root i)), toInt (Root i).fileSize, (Root i).firstDataBlockIndex)
        :: fs_ls_loop Root n (i + 1)
    else fs_ls_loop Root n (i + 1)

/-- `fs_ls`: the lines it prints after the header, and its return value. -/
def fs_ls (s : FS) : List (List Nat × Int × Nat) × Int :=
  if s.diskStatus ≠ 1 then ([], -1) else (fs_ls_loop s.Root FS_FILE_MAX_COUNT 0, 0)

/-! ## Sequences of API calls -/

/-- One API call takes the state `s` to the state `s2`.  `fs_info`, `fs_ls`
and `fs_stat` leave the state as it is. -/
inductive Step : FS → FS → Prop
  | mount (s : FS) (img : Option BlockDisk) : Step s (fs_mount s img).1
  | umount (s : FS) : Step s (fs_umount s).1
  | query (s : FS) : Step s s
  | create (s : FS) (filename : List Nat) : Step s (fs_create s filename).1
  | delete {fuel : Nat} {s s2 : FS} {filename : List Nat} {r : Int} :
      fs_delete fuel s filename = some (s2, r) → Step s s2
  | openFile (s : FS) (filename : List Nat) : Step s (fs_open s filename).1
  | close (s : FS) (fd : Int) : Step s (fs_close s fd).1
  | lseek (s : FS) (fd : Int) (offset : Nat) : Step s (fs_lseek s fd offset).1
  | write {fuel : Nat} {s s2 : FS} {fd : Int} {buf : Nat → Nat} {count : Nat} {r : Int} :
      fs_write fuel s fd buf count = some (s2, r) → Step s s2
  | read {fuel : Nat} {s s2 : FS} {fd : Int} {buf out : Nat → Nat} {count : Nat} {r : Int} :
      fs_read fuel s fd buf count = some (s2, out, r) → Step s s2

/-- The states reachable from a successful `fs_mount` by a sequence of API
calls. -/
inductive Reachable : FS → Prop
  | mounted (s0 : FS) (img : Option BlockDisk) :
      (fs_mount s0 img).2 = 0 → Reachable (fs_mount s0 img).1
  | step {s s2 : FS} : Reachable s → Step s s2 → Reachable s2

/-! ## Further example states -/

/-- The globals of fs.c and the block device before any call: everything
zero, no FAT buffer, no disk open. -/
def initialFS : FS :=
  { diskStatus := 0
    Superblock :=
      { signature := List.replicate 8 0, numberOfBlocks := 0, rootBlockIndex := 0,
        dataBlockStartIndex := 0, numberOfDataBlocks := 0, numberOfFATBlocks := 0,
        unused := List.replicate 4079 0 }
    FAT := fun _ => 0
    Root := fun _ => zeroEntry
    fdTable := fun _ => { fileIndex := 0, fileOffset := 0 }
    disk := { opened := false, count := 0, data := fun _ _ => 0 } }

/-- A freshly formatted disk image with `dbc` data blocks: the superblock in
block 0, one FAT block with entry 0 set to `0xFFFF`, an empty root directory in
block 2, zero-filled data blocks from block 3 on. -/
def formattedDisk (dbc : Nat) : BlockDisk :=
  { opened := false
    count := dbc + 3
    data := fun b k =>
      if b = 0 then superblockBytes (freshFS dbc).Superblock k
      else if b = 1 then fatBytes (fatOfList [FAT_EOC]) k
      else 0 }

/-- A zero-filled disk image of 7 blocks: it does not carry the signature. -/
def blankDisk : BlockDisk := { opened := false, count := 7, data := fun _ _ => 0 }

/-- The state `closedFS` (file `"f"` of 8192 bytes in blocks 1 and 2, no open
handle) on a disk whose every byte is 7. -/
def filledFS : FS :=
  { closedFS with disk := { opened := true, count := 7, data := fun _ _ => 7 } }

/-- Three data blocks, FAT entries 1 and 2 the only usable ones; the file
`"f"` of 8192 bytes occupies both, the disk is full, and the file is open on
handle 0 with its cursor at 0. -/
def fullTwoBlockFS : FS :=
  exampleFS 3 (fatOfList [FAT_EOC, 2, FAT_EOC]) (fileEntry 8192 1) { fileIndex := 0, fileOffset := 0 }

/-- The names of the root directory are well formed: every filename field has
16 bytes and holds a NUL, and two used slots never carry the same name. -/
def RootNamesOK (s : FS) : Prop :=
  (∀ i, i < FS_FILE_MAX_COUNT →
      (s.Root i).filename.length = FS_FILENAME_LEN ∧ 0 ∈ (s.Root i).filename)
  ∧ ∀ i j, i < FS_FILE_MAX_COUNT → j < FS_FILE_MAX_COUNT →
      slotUsed (s.Root i) → slotUsed (s.Root j) →
      cstr (s.Root i).filename = cstr (s.Root j).filename → i = j

/-- Every unused handle of the table has its cursor at 0. -/
def HandlesTidy (s : FS) : Prop :=
  ∀ i, i < FS_OPEN_MAX_COUNT → (s.fdTable i).fileIndex = -1 → (s.fdTable i).fileOffset = 0

/-- The state after mounting a freshly formatted disk with 4 data blocks from
the initial state and creating the file `"f"`. -/
def createdFS : FS := (fs_create (fs_mount initialFS (some (formattedDisk 4))).1 [102]).1

/-! ## Ownership of blocks -/

/-- The FAT chains of all used root entries are well formed: each ends in the
end-of-chain marker (so it has no cycle) and has all its entries in
`[1, numberOfDataBlocks)`. -/
def ChainsOK (s : FS) : Prop :=
  ∀ idx, idx < FS_FILE_MAX_COUNT → slotUsed (s.Root idx) →
    ∃ cs, IsChain s.FAT (s.Root idx).firstDataBlockIndex cs
      ∧ ∀ c ∈ cs, 1 ≤ c ∧ c < s.Superblock.numberOfDataBlocks

/-- No aliasing: the FAT chains of distinct used root entries are disjoint. -/
def NoAliasing (s : FS) : Prop :=
  ∀ i j, i < FS_FILE_MAX_COUNT → j < FS_FILE_MAX_COUNT → i ≠ j →
    slotUsed (s.Root i) → slotUsed (s.Root j) →
    ∀ cs ds, IsChain s.FAT (s.Root i).firstDataBlockIndex cs →
      IsChain s.FAT (s.Root j).firstDataBlockIndex ds → ∀ c, c ∈ cs → c ∉ ds

/-- State `s2` comes from `s` by extending the chain `cs` of root slot `A` with
the entries `new`, which were free in `s`: the superblock, the other root
entries and the name of slot `A` are those of `s`, the FAT differs from that of
`s` at most at entry 0 and on `cs` and `new`, and the disk at most at the data
blocks of `cs` and `new`. -/
def Grown (s s2 : FS) (A : Nat) (cs new : List Nat) : Prop :=
  s2.Superblock = s.Superblock ∧ s2.diskStatus = s.diskStatus
  ∧ (∀ j, j ≠ A → s2.Root j = s.Root j)
  ∧ (s2.Root A).filename = (s.Root A).filename
  ∧ IsChain s2.FAT (s2.Root A).firstDataBlockIndex (cs ++ new)
  ∧ (∀ c ∈ new, 1 ≤ c ∧ c < s.Superblock.numberOfDataBlocks ∧ s.FAT c = 0)
  ∧ (∀ j, j ≠ 0 → j ∉ cs → j ∉ new → s2.FAT j = s.FAT j)
  ∧ (∀ blk, (∀ c ∈ cs ++ new, blk ≠ c + s.Superblock.dataBlockStartIndex) →
      s2.disk.data blk = s.disk.data blk)

/-- Five data blocks and two files: `"f"` of 8192 bytes in blocks 1 and 2,
open on handle 0 with its cursor at the end, and `"g"` of 100 bytes in block 3;
block 4 is free. -/
def twoFilesFS : FS :=
  { exampleFS 5 (fatOfList [FAT_EOC, 2, FAT_EOC, FAT_EOC]) (fileEntry 8192 1)
      { fileIndex := 0, fileOffset := 8192 } with
    Root := fun i =>
      if i = 0 then fileEntry 8192 1
      else if i = 1 then { fileEntry 100 3 with filename := 103 :: List.replicate 15 0 }
      else zeroEntry }

/-! ## The bounds of the bounce buffer -/

/-- The size in bytes of the bounce buffer `fullFile` of `fs_write`, the
argument `((fileSize + (BLOCK_SIZE - 1)) / BLOCK_SIZE) * BLOCK_SIZE` of
`malloc`, computed in `uint32_t`. -/
def fullFileSize (fileSize : Nat) : Nat :=
  u32 (u32 (fileSize + (BLOCK_SIZE - 1)) / BLOCK_SIZE * BLOCK_SIZE)

/-- The value of `dataIndex` at the end of the loading loop of `fs_write`
(and of its write-back loop, which walks the same chain): the number of bytes
the loop stores into `fullFile`, `BLOCK_SIZE` for every block of the chain. -/
def loadChainEnd (FAT : Nat → Nat) : Nat → Nat → Nat → Option Nat
  | 0, nextDataBlock, dataIndex => if nextDataBlock = FAT_EOC then some dataIndex else none
  | fuel + 1, nextDataBlock, dataIndex =>
    if nextDataBlock = FAT_EOC then some dataIndex
    else loadChainEnd FAT fuel (FAT nextDataBlock) (dataIndex + BLOCK_SIZE)

/-- The accesses of the second part of `fs_write` (source lines 403 to 434) to
`fullFile` stay inside the allocated buffer: the bytes stored by the loading
loop and the range `[fileOffset, fileOffset + count)` of the `memcpy` both end
within `fullFileSize`, and the buffer is not empty, so that the
`sizeof(fullFile)` bytes of the final `memset` lie inside it. -/
def fs_write_splice_inBounds (fuel : Nat) (s : FS) (fd : Int) (count : Nat) : Bool :=
  let fileIndex := (s.fdTable fd.toNat).fileIndex.toNat
  let fileOffset := (s.fdTable fd.toNat).fileOffset
  let first := (s.Root fileIndex).firstDataBlockIndex
  match loadChainEnd s.FAT fuel first 0 with
  | none => false
  | some dataIndex =>
    decide (dataIndex ≤ fullFileSize (s.Root fileIndex).fileSize
      ∧ (count = 0 ∨ fileOffset.toNat + count ≤ fullFileSize (s.Root fileIndex).fileSize)
      ∧ 0 < fullFileSize (s.Root fileIndex).fileSize)

/-- The accesses of a call of `fs_write` to its bounce buffer stay inside the
buffer; the calls that return before the buffer is allocated have none. -/
def fs_write_inBounds (fuel : Nat) (s : FS) (fd : Int) (count : Nat) : Bool :=
  if badHandle s fd ∨
      u32OfInt (s.fdTable fd.toNat).fileOffset > (s.Root (s.fdTable fd.toNat).fileIndex.toNat).fileSize then
    true
  else if count = 0 then true
  else match fs_write_extend fuel s fd count with
    | none => false
    | some (Extended.returned _ _) => true
    | some (Extended.goesOn s1 count1) => fs_write_splice_inBounds fuel s1 fd count1

/-- Four data blocks and two files on a full disk: `"f"` of 8192 bytes in
blocks 1 and 2, open on handle 0 with its cursor at 0, and `"g"` of 100 bytes
in block 3. -/
def fullTwoFilesFS : FS :=
  { exampleFS 4 (fatOfList [FAT_EOC, 2, FAT_EOC, FAT_EOC]) (fileEntry 8192 1)
      { fileIndex := 0, fileOffset := 0 } with
    Root := fun i =>
      if i = 0 then fileEntry 8192 1
      else if i = 1 then { fileEntry 100 3 with filename := 103 :: List.replicate 15 0 }
      else zeroEntry }

/-! # Properties -/

/-! ## Machine integers within their range -/

theorem u16_of_lt {n : Nat} (h : n < 65536) : u16 n = n := Nat.mod_eq_of_lt h

theorem u32_of_lt {n : Nat} (h : n < 4294967296) : u32 n = n := Nat.mod_eq_of_lt h

theorem u64_of_lt {n : Nat} (h : n < 18446744073709551616) : u64 n = n := Nat.mod_eq_of_lt h

theorem toInt_of_lt {n : Nat} (h : n < 2147483648) : toInt n = (n : Int) := by
  have h1 : n % 4294967296 = n := Nat.mod_eq_of_lt (by omega)
  simp [toInt, h1, h]

theorem sizeOfInt_natCast {n : Nat} (h : n < 18446744073709551616) : sizeOfInt (n : Int) = n := by
  unfold sizeOfInt
  omega

theorem u32OfInt_natCast {n : Nat} (h : n < 4294967296) : u32OfInt (n : Int) = n := by
  unfold u32OfInt
  omega

theorem fileBlocks_eq {n : Nat} (h : n < 4294963200) : fileBlocks n = ceilBlocks n := by
  unfold fileBlocks ceilBlocks
  rw [u32_of_lt (by simp only [BLOCK_SIZE]; omega)]

theorem neededBlocks_eq {off count : Nat} (h : off + count < 18446744073709547520) :
    neededBlocks (off : Int) count = ceilBlocks (off + count) := by
  unfold neededBlocks ceilBlocks
  rw [sizeOfInt_natCast (by omega), u64_of_lt (show off + count < 18446744073709551616 by omega),
    u64_of_lt (show off + count + (4096 - 1) < 18446744073709551616 by omega)]

theorem ceilBlocks_le_iff (n b : Nat) : ceilBlocks n ≤ b ↔ n ≤ b * BLOCK_SIZE := by
  unfold ceilBlocks
  simp only [BLOCK_SIZE]
  omega

theorem ceilBlocks_mul (b : Nat) : ceilBlocks (b * BLOCK_SIZE) = b := by
  unfold ceilBlocks
  simp only [BLOCK_SIZE]
  omega

/-! ## Map updates -/

@[simp] theorem setAt_same {α : Type} (a : Nat → α) (i : Nat) (v : α) : setAt a i v i = v := by
  simp [setAt]

theorem setAt_other {α : Type} (a : Nat → α) {i j : Nat} (v : α) (h : j ≠ i) :
    setAt a i v j = a j := by
  simp [setAt, h]

theorem setAt_setAt {α : Type} (a : Nat → α) (i : Nat) (v w : α) :
    setAt (setAt a i v) i w = setAt a i w := by
  funext j
  by_cases h : j = i <;> simp [setAt, h]

theorem setAt_eq_self {α : Type} (a : Nat → α) (i : Nat) (v : α) (h : a i = v) :
    setAt a i v = a := by
  funext j
  by_cases hj : j = i
  · subst hj; simp [setAt, h]
  · simp [setAt, hj]

/-! ## FAT chains -/

theorem IsChain.nil_iff {FAT : Nat → Nat} {b : Nat} : IsChain FAT b [] ↔ b = FAT_EOC := by
  constructor
  · intro h; cases h; rfl
  · intro h; subst h; exact IsChain.nil

theorem IsChain.cons_iff {FAT : Nat → Nat} {b c : Nat} {cs : List Nat} :
    IsChain FAT b (c :: cs) ↔ c = b ∧ b ≠ FAT_EOC ∧ IsChain FAT (FAT b) cs := by
  constructor
  · intro h; cases h with
    | cons hb ht => exact ⟨rfl, hb, ht⟩
  · rintro ⟨rfl, hb, ht⟩; exact IsChain.cons hb ht

theorem IsChain.eoc_nil {FAT : Nat → Nat} {cs : List Nat} (h : IsChain FAT FAT_EOC cs) : cs = [] := by
  cases h with
  | nil => rfl
  | cons hb _ => exact absurd rfl hb

theorem IsChain.unique {FAT : Nat → Nat} {b : Nat} {cs cs2 : List Nat}
    (h : IsChain FAT b cs) (h2 : IsChain FAT b cs2) : cs = cs2 := by
  induction h generalizing cs2 with
  | nil => exact (IsChain.eoc_nil h2).symm
  | cons hb _ ih =>
    cases h2 with
    | nil => exact absurd rfl hb
    | cons _ ht2 => rw [ih ht2]

theorem IsChain.ne_eoc {FAT : Nat → Nat} {b : Nat} {cs : List Nat} (h : IsChain FAT b cs) :
    ∀ c ∈ cs, c ≠ FAT_EOC := by
  induction h with
  | nil => simp
  | cons hb _ ih =>
    intro c hc
    rcases List.mem_cons.mp hc with rfl | hc
    · exact hb
    · exact ih c hc

theorem IsChain.suffix {FAT : Nat → Nat} {b c : Nat} {l1 l2 : List Nat}
    (h : IsChain FAT b (l1 ++ c :: l2)) : IsChain FAT c (c :: l2) := by
  induction l1 generalizing b with
  | nil =>
    obtain ⟨rfl, hb, ht⟩ := IsChain.cons_iff.mp h
    exact IsChain.cons hb ht
  | cons a l1 ih =>
    obtain ⟨_, _, ht⟩ := IsChain.cons_iff.mp h
    exact ih ht

theorem IsChain.nodup {FAT : Nat → Nat} {b : Nat} {cs : List Nat} (h : IsChain FAT b cs) :
    cs.Nodup := by
  induction h with
  | nil => exact List.nodup_nil
  | @cons b cs hb ht ih =>
    refine List.nodup_cons.mpr ⟨?_, ih⟩
    intro hmem
    obtain ⟨l1, l2, rfl⟩ := List.append_of_mem hmem
    have h1 : IsChain FAT b (b :: l2) := IsChain.suffix ht
    have h2 : IsChain FAT b (b :: (l1 ++ b :: l2)) := IsChain.cons hb ht
    have h3 := congrArg List.length (IsChain.unique h1 h2)
    simp at h3
    omega

theorem IsChain.congr {FAT FAT2 : Nat → Nat} {b : Nat} {cs : List Nat} (h : IsChain FAT b cs)
    (heq : ∀ c ∈ cs, FAT2 c = FAT c) : IsChain FAT2 b cs := by
  induction h with
  | nil => exact IsChain.nil
  | @cons b cs hb _ ih =>
    refine IsChain.cons hb ?_
    rw [heq b (List.mem_cons_self _ _)]
    exact ih (fun c hc => heq c (List.mem_cons_of_mem _ hc))

theorem IsChain.last_eoc {FAT : Nat → Nat} {b c : Nat} {pre : List Nat}
    (h : IsChain FAT b (pre ++ [c])) : FAT c = FAT_EOC := by
  have h1 : IsChain FAT c (c :: []) := IsChain.suffix h
  obtain ⟨_, _, ht⟩ := IsChain.cons_iff.mp h1
  exact IsChain.nil_iff.mp ht

theorem IsChain.snoc {FAT : Nat → Nat} {b cur new : Nat} {pre : List Nat}
    (h : IsChain FAT b (pre ++ [cur])) (hnew : new ∉ pre ++ [cur]) (hne : new ≠ FAT_EOC) :
    IsChain (setAt (setAt FAT cur new) new FAT_EOC) b (pre ++ [cur] ++ [new]) := by
  have hnd := h.nodup
  induction pre generalizing b with
  | nil =>
    obtain ⟨rfl, hb, _⟩ := IsChain.cons_iff.mp h
    have hcn : cur ≠ new := by
      intro e; apply hnew; simp [e]
    refine IsChain.cons hb ?_
    rw [setAt_other _ _ hcn, setAt_same]
    refine IsChain.cons hne ?_
    rw [setAt_same]
    exact IsChain.nil
  | cons p pre ih =>
    obtain ⟨rfl, hb, ht⟩ := IsChain.cons_iff.mp h
    have hpn : p ≠ new := by
      intro e; apply hnew; simp [e]
    have hpc : p ≠ cur := by
      intro e
      have hp := (List.nodup_cons.mp hnd).1
      apply hp; simp [e]
    refine IsChain.cons hb ?_
    rw [setAt_other _ _ hpn, setAt_other _ _ hpc]
    exact ih ht (fun hm => hnew (List.mem_cons_of_mem _ hm)) (List.nodup_cons.mp hnd).2

theorem IsChain.entry_ne_zero {FAT : Nat → Nat} {b : Nat} {cs : List Nat} (h : IsChain FAT b cs)
    (hz : ∀ c ∈ cs, c ≠ 0) : ∀ c ∈ cs, FAT c ≠ 0 := by
  induction h with
  | nil => simp
  | @cons b cs hb ht ih =>
    intro c hc
    rcases List.mem_cons.mp hc with rfl | hc
    · cases cs with
      | nil => rw [IsChain.nil_iff.mp ht]; simp
      | cons c cs =>
        obtain ⟨hc, _, _⟩ := IsChain.cons_iff.mp ht
        rw [← hc]
        exact hz _ (List.mem_cons_of_mem _ (List.mem_cons_self _ _))
    · exact ih (fun c hc => hz c (List.mem_cons_of_mem _ hc)) c hc

theorem walkToEnd_chain {FAT : Nat → Nat} {b : Nat} {cs : List Nat} (h : IsChain FAT b cs) :
    ∀ fuel cur, cs.length ≤ fuel → walkToEnd FAT fuel cur b = some (cs.getLastD cur) := by
  induction h with
  | nil =>
    intro fuel cur _
    cases fuel <;> simp [walkToEnd]
  | @cons b cs hb _ ih =>
    intro fuel cur hf
    cases fuel with
    | zero => simp at hf
    | succ f =>
      simp only [walkToEnd, if_neg hb]
      rw [ih f b (by simpa using hf), List.getLastD_cons]

/-! ## The free-block search -/

theorem findEmptyFAT_loop_spec (FAT : Nat → Nat) (n : Nat) :
    ∀ i, 1 ≤ i →
      (findEmptyFAT_loop FAT n i = 0 ∧ ∀ j, i ≤ j → j < i + n → FAT j ≠ 0)
      ∨ (i ≤ findEmptyFAT_loop FAT n i ∧ findEmptyFAT_loop FAT n i < i + n
          ∧ FAT (findEmptyFAT_loop FAT n i) = 0
          ∧ ∀ j, i ≤ j → j < findEmptyFAT_loop FAT n i → FAT j ≠ 0) := by
  induction n with
  | zero =>
    intro i _
    left
    refine ⟨rfl, ?_⟩
    intro j h1 h2
    omega
  | succ n ih =>
    intro i hi
    by_cases hz : FAT i = 0
    · right
      simp only [findEmptyFAT_loop, if_pos hz]
      refine ⟨le_refl _, by omega, hz, ?_⟩
      intro j h1 h2
      omega
    · simp only [findEmptyFAT_loop, if_neg hz]
      rcases ih (i + 1) (by omega) with ⟨h0, hall⟩ | ⟨h1, h2, h3, h4⟩
      · left
        refine ⟨h0, ?_⟩
        intro j hj1 hj2
        by_cases hji : j = i
        · subst hji; exact hz
        · exact hall j (by omega) (by omega)
      · right
        refine ⟨by omega, by omega, h3, ?_⟩
        intro j hj1 hj2
        by_cases hji : j = i
        · subst hji; exact hz
        · exact h4 j (by omega) hj2

theorem freeFrom_eq_zero_iff (FAT : Nat → Nat) (n : Nat) :
    ∀ i, freeFrom FAT n i = 0 ↔ ∀ j, i ≤ j → j < i + n → FAT j ≠ 0 := by
  induction n with
  | zero =>
    intro i
    simp only [freeFrom, true_iff]
    intro j h1 h2
    omega
  | succ n ih =>
    intro i
    simp only [freeFrom]
    constructor
    · intro h j hj1 hj2
      have h1 : (if FAT i = 0 then 1 else 0) = 0 := by omega
      have h2 : freeFrom FAT n (i + 1) = 0 := by omega
      by_cases hji : j = i
      · subst hji
        intro hz
        simp [hz] at h1
      · exact (ih (i + 1)).mp h2 j (by omega) (by omega)
    · intro h
      have h1 : FAT i ≠ 0 := h i (le_refl _) (by omega)
      have h2 : freeFrom FAT n (i + 1) = 0 :=
        (ih (i + 1)).mpr (fun j hj1 hj2 => h j (by omega) (by omega))
      simp [h1, h2]

theorem freeFrom_congr {FAT FAT2 : Nat → Nat} (n : Nat) :
    ∀ i, (∀ j, i ≤ j → j < i + n → (FAT2 j = 0 ↔ FAT j = 0)) →
      freeFrom FAT2 n i = freeFrom FAT n i := by
  induction n with
  | zero => intro i _; rfl
  | succ n ih =>
    intro i h
    simp only [freeFrom]
    rw [ih (i + 1) (fun j hj1 hj2 => h j (by omega) (by omega))]
    have hi := h i (le_refl _) (by omega)
    by_cases hz : FAT i = 0
    · simp [hz, hi.mpr hz]
    · have hz2 : FAT2 i ≠ 0 := fun e => hz (hi.mp e)
      simp [hz, hz2]

theorem freeFrom_take {FAT : Nat → Nat} {j v : Nat} (hz : FAT j = 0) (hv : v ≠ 0) (n : Nat) :
    ∀ i, i ≤ j → j < i + n → freeFrom FAT n i = freeFrom (setAt FAT j v) n i + 1 := by
  induction n with
  | zero => intro i h1 h2; omega
  | succ n ih =>
    intro i h1 h2
    simp only [freeFrom]
    by_cases hji : j = i
    · subst hji
      have hrest : freeFrom (setAt FAT j v) n (j + 1) = freeFrom FAT n (j + 1) := by
        apply freeFrom_congr
        intro k hk1 _
        rw [setAt_other _ _ (by omega)]
      rw [hrest]
      simp [hz, hv]
      omega
    · rw [ih (i + 1) (by omega) (by omega), setAt_other _ _ (Ne.symm hji)]
      omega

theorem freeCount_take {FAT : Nat → Nat} {dbc j v : Nat} (hz : FAT j = 0) (hv : v ≠ 0)
    (h1 : 1 ≤ j) (h2 : j < dbc) : freeCount FAT dbc = freeCount (setAt FAT j v) dbc + 1 := by
  unfold freeCount
  exact freeFrom_take hz hv _ 1 h1 (by omega)

theorem freeCount_keep {FAT : Nat → Nat} {dbc j v : Nat} (hz : FAT j ≠ 0) (hv : v ≠ 0) :
    freeCount (setAt FAT j v) dbc = freeCount FAT dbc := by
  unfold freeCount
  apply freeFrom_congr
  intro k _ _
  by_cases hk : k = j
  · subst hk; simp [hz, hv]
  · rw [setAt_other _ _ hk]

theorem findEmptyFAT_spec (FAT : Nat → Nat) (dbc : Nat) :
    (findEmptyFAT FAT dbc = 0 ∧ freeCount FAT dbc = 0)
    ∨ (1 ≤ findEmptyFAT FAT dbc ∧ findEmptyFAT FAT dbc < dbc ∧ FAT (findEmptyFAT FAT dbc) = 0
        ∧ ∀ j, 1 ≤ j → j < findEmptyFAT FAT dbc → FAT j ≠ 0) := by
  unfold findEmptyFAT freeCount
  rcases findEmptyFAT_loop_spec FAT (dbc - 1) 1 (le_refl _) with ⟨h0, hall⟩ | ⟨h1, h2, h3, h4⟩
  · left
    exact ⟨h0, (freeFrom_eq_zero_iff FAT _ 1).mpr hall⟩
  · right
    exact ⟨h1, by omega, h3, h4⟩

theorem freeCount_zero_iff (FAT : Nat → Nat) (dbc : Nat) :
    freeCount FAT dbc = 0 ↔ ∀ j, 1 ≤ j → j < dbc → FAT j ≠ 0 := by
  unfold freeCount
  rw [freeFrom_eq_zero_iff]
  constructor
  · intro h j h1 h2; exact h j h1 (by omega)
  · intro h j h1 h2; exact h j h1 (by omega)

/-! ## The allocation loop -/

theorem fs_write_alloc_full {FAT : Nat → Nat} {dbc cur : Nat} (n : Nat)
    (h0 : findEmptyFAT FAT dbc = 0) (hcur : FAT cur = FAT_EOC) :
    fs_write_alloc dbc (n + 1) FAT cur = (FAT, some (n + 1)) := by
  simp only [fs_write_alloc, h0, u16, Nat.zero_mod, setAt_same, if_true, setAt_setAt]
  rw [setAt_eq_self _ _ _ hcur]

theorem fs_write_alloc_step {FAT : Nat → Nat} {dbc cur : Nat} (n : Nat)
    (h1 : findEmptyFAT FAT dbc ≠ 0) (h2 : findEmptyFAT FAT dbc < 65536) :
    fs_write_alloc dbc (n + 1) FAT cur
      = fs_write_alloc dbc n
          (setAt (setAt FAT cur (findEmptyFAT FAT dbc)) (findEmptyFAT FAT dbc) FAT_EOC)
          (findEmptyFAT FAT dbc) := by
  simp only [fs_write_alloc, u16, Nat.mod_eq_of_lt h2, setAt_same, if_neg h1]

theorem fs_write_alloc_spec (dbc : Nat) (hdbc : dbc ≤ 65535) (n : Nat) :
    ∀ (FAT : Nat → Nat) (first cur : Nat) (pre : List Nat),
      IsChain FAT first (pre ++ [cur]) → (∀ c ∈ pre ++ [cur], c ≠ 0) →
      ∃ new : List Nat,
        IsChain (fs_write_alloc dbc n FAT cur).1 first (pre ++ [cur] ++ new)
        ∧ (∀ c ∈ new, 1 ≤ c ∧ c < dbc)
        ∧ (∀ j, j ≠ cur → j ∉ new → (fs_write_alloc dbc n FAT cur).1 j = FAT j)
        ∧ freeCount FAT dbc = freeCount (fs_write_alloc dbc n FAT cur).1 dbc + new.length
        ∧ (((fs_write_alloc dbc n FAT cur).2 = none ∧ new.length = n)
           ∨ (∃ k, (fs_write_alloc dbc n FAT cur).2 = some k ∧ 0 < k ∧ new.length + k = n
                ∧ freeCount (fs_write_alloc dbc n FAT cur).1 dbc = 0)) := by
  induction n with
  | zero =>
    intro FAT first cur pre h _
    refine ⟨[], ?_, ?_, ?_, ?_, ?_⟩
    · simpa [fs_write_alloc] using h
    · simp
    · intro j _ _; rfl
    · simp [fs_write_alloc]
    · left; exact ⟨rfl, rfl⟩
  | succ n ih =>
    intro FAT first cur pre h hz
    have hcur : FAT cur = FAT_EOC := h.last_eoc
    rcases findEmptyFAT_spec FAT dbc with ⟨h0, hfree⟩ | ⟨h1, h2, h3, _⟩
    · rw [fs_write_alloc_full n h0 hcur]
      refine ⟨[], ?_, ?_, ?_, ?_, ?_⟩
      · simpa using h
      · simp
      · intro j _ _; rfl
      · simp
      · right; exact ⟨n + 1, rfl, by omega, by simp, hfree⟩
    · rw [fs_write_alloc_step n (by omega) (by omega)]
      generalize hf : findEmptyFAT FAT dbc = f at h1 h2 h3
      have hfz : f ≠ 0 := by omega
      have hfe : f ≠ FAT_EOC := by simp only [FAT_EOC]; omega
      have hnot : f ∉ pre ++ [cur] := fun hm => h.entry_ne_zero hz f hm h3
      have hfc : f ≠ cur := by
        intro e; apply hnot; simp [e]
      have hchain := h.snoc hnot hfe
      have hz2 : ∀ c ∈ pre ++ [cur] ++ [f], c ≠ 0 := by
        intro c hc
        rcases List.mem_append.mp hc with hc | hc
        · exact hz c hc
        · rw [List.mem_singleton.mp hc]; exact hfz
      obtain ⟨new, hc1, hc2, hc3, hc4, hc5⟩ := ih _ first f (pre ++ [cur]) hchain hz2
      refine ⟨f :: new, ?_, ?_, ?_, ?_, ?_⟩
      · simpa using hc1
      · intro c hc
        rcases List.mem_cons.mp hc with rfl | hc
        · exact ⟨h1, h2⟩
        · exact hc2 c hc
      · intro j hj1 hj2
        have hjf : j ≠ f := fun e => hj2 (by simp [e])
        have hjn : j ∉ new := fun hm => hj2 (List.mem_cons_of_mem _ hm)
        rw [hc3 j hjf hjn, setAt_other _ _ hjf, setAt_other _ _ hj1]
      · have e1 : freeCount (setAt FAT cur f) dbc = freeCount FAT dbc :=
          freeCount_keep (by rw [hcur]; simp) hfz
        have e2 : freeCount (setAt FAT cur f) dbc
            = freeCount (setAt (setAt FAT cur f) f FAT_EOC) dbc + 1 :=
          freeCount_take (by rw [setAt_other _ _ hfc]; exact h3) (by simp) h1 h2
        rw [List.length_cons]
        omega
      · rcases hc5 with ⟨e, hl⟩ | ⟨k, e, hk, hl, hfull⟩
        · left; exact ⟨e, by simp [hl]⟩
        · right; exact ⟨k, e, hk, by simp; omega, hfull⟩

/-! ## Bounce buffers along a chain -/

theorem fileByte_head (d : BlockDisk) (ds b : Nat) (cs : List Nat) {q : Nat} (hq : q < BLOCK_SIZE) :
    fileByte d ds (b :: cs) q = d.data (b + ds) q := by
  unfold fileByte
  rw [Nat.div_eq_of_lt hq, Nat.mod_eq_of_lt hq]
  rfl

theorem fileByte_tail (d : BlockDisk) (ds b : Nat) (cs : List Nat) (q : Nat) :
    fileByte d ds (b :: cs) (BLOCK_SIZE + q) = fileByte d ds cs q := by
  unfold fileByte
  have h1 : (BLOCK_SIZE + q) / BLOCK_SIZE = q / BLOCK_SIZE + 1 := by
    simp only [BLOCK_SIZE]; omega
  have h2 : (BLOCK_SIZE + q) % BLOCK_SIZE = q % BLOCK_SIZE := by
    simp only [BLOCK_SIZE]; omega
  rw [h1, h2]
  rfl

theorem readInto_ok {d : BlockDisk} {block : Nat} (hop : d.opened = true) (hb : block < d.count)
    (mem : Nat → Nat) (dst : Nat) :
    readInto d block mem dst
      = fun p => if dst ≤ p ∧ p < dst + BLOCK_SIZE then d.data block (p - dst) else mem p := by
  simp [readInto, block_read, hop, hb]

theorem loadChain_chain {d : BlockDisk} {FAT : Nat → Nat} {ds b : Nat} {cs : List Nat}
    (h : IsChain FAT b cs) (hop : d.opened = true) (hr : ∀ c ∈ cs, c + ds < d.count) :
    ∀ fuel di mem, cs.length ≤ fuel →
      ∃ mem2, loadChain d FAT ds fuel b di mem = some mem2
        ∧ (∀ p, p < di → mem2 p = mem p)
        ∧ ∀ q, q < BLOCK_SIZE * cs.length → mem2 (di + q) = fileByte d ds cs q := by
  induction h with
  | nil =>
    intro fuel di mem _
    refine ⟨mem, ?_, fun _ _ => rfl, ?_⟩
    · cases fuel <;> simp [loadChain]
    · intro q hq; simp at hq
  | @cons b cs hb _ ih =>
    intro fuel di mem hf
    cases fuel with
    | zero => simp at hf
    | succ f =>
      have hbr : b + ds < d.count := hr b (List.mem_cons_self _ _)
      obtain ⟨mem2, e, hlow, hdata⟩ :=
        ih (fun c hc => hr c (List.mem_cons_of_mem _ hc)) f (di + BLOCK_SIZE)
          (readInto d (b + ds) mem di) (by simpa using hf)
      refine ⟨mem2, ?_, ?_, ?_⟩
      · simp only [loadChain, if_neg hb]
        exact e
      · intro p hp
        rw [hlow p (by omega), readInto_ok hop hbr]
        simp only
        rw [if_neg (by omega)]
      · intro q hq
        by_cases hq1 : q < BLOCK_SIZE
        · rw [hlow (di + q) (by omega), readInto_ok hop hbr, fileByte_head _ _ _ _ hq1]
          simp only
          rw [if_pos ⟨by omega, by omega⟩]
          congr 1
          omega
        · obtain ⟨q2, rfl⟩ : ∃ q2, q = BLOCK_SIZE + q2 := ⟨q - BLOCK_SIZE, by omega⟩
          rw [fileByte_tail, ← hdata q2 (by simp only [List.length_cons] at hq; simp only [BLOCK_SIZE] at hq ⊢; omega)]
          congr 1
          omega

theorem block_write_opened (d : BlockDisk) (block : Nat) (src : Nat → Nat) :
    (block_write d block src).opened = d.opened := by
  unfold block_write
  split <;> rfl

theorem block_write_count (d : BlockDisk) (block : Nat) (src : Nat → Nat) :
    (block_write d block src).count = d.count := by
  unfold block_write
  split <;> rfl

theorem block_write_other (d : BlockDisk) {block blk : Nat} (src : Nat → Nat) (h : blk ≠ block) :
    (block_write d block src).data blk = d.data blk := by
  unfold block_write
  split
  · funext k; simp [h]
  · rfl

theorem block_write_same {d : BlockDisk} {block : Nat} (hop : d.opened = true)
    (hb : block < d.count) (src : Nat → Nat) {k : Nat} (hk : k < BLOCK_SIZE) :
    (block_write d block src).data block k = src k := by
  simp [block_write, hop, hb, hk]

theorem block_write_high (d : BlockDisk) (block blk : Nat) (src : Nat → Nat) {k : Nat}
    (hk : BLOCK_SIZE ≤ k) : (block_write d block src).data blk k = d.data blk k := by
  unfold block_write
  split
  · have : ¬ k < BLOCK_SIZE := by omega
    simp [this]
  · rfl

theorem storeChain_chain {FAT : Nat → Nat} {ds b : Nat} {cs : List Nat} (h : IsChain FAT b cs)
    (mem : Nat → Nat) :
    ∀ fuel di (d : BlockDisk), d.opened = true → (∀ c ∈ cs, c + ds < d.count) → cs.length ≤ fuel →
      ∃ d2, storeChain FAT ds mem fuel b di d = some d2
        ∧ d2.opened = d.opened ∧ d2.count = d.count
        ∧ (∀ blk, (∀ c ∈ cs, blk ≠ c + ds) → d2.data blk = d.data blk)
        ∧ (∀ blk k, BLOCK_SIZE ≤ k → d2.data blk k = d.data blk k)
        ∧ ∀ q, q < BLOCK_SIZE * cs.length → fileByte d2 ds cs q = mem (di + q) := by
  have hnd := h.nodup
  induction h with
  | nil =>
    intro fuel di d _ _ _
    refine ⟨d, ?_, rfl, rfl, fun _ _ => rfl, fun _ _ _ => rfl, ?_⟩
    · cases fuel <;> simp [storeChain]
    · intro q hq; simp at hq
  | @cons b cs hb _ ih =>
    intro fuel di d hop hr hf
    cases fuel with
    | zero => simp at hf
    | succ f =>
      have hbr : b + ds < d.count := hr b (List.mem_cons_self _ _)
      have hbn : b ∉ cs := (List.nodup_cons.mp hnd).1
      obtain ⟨d2, e, ho, hc, hother, hhigh, hdata⟩ :=
        ih (List.nodup_cons.mp hnd).2 f (di + BLOCK_SIZE) (writeFrom d (b + ds) mem di)
          (by rw [writeFrom, block_write_opened]; exact hop)
          (by
            intro c hc
            rw [writeFrom, block_write_count]
            exact hr c (List.mem_cons_of_mem _ hc))
          (by simpa using hf)
      refine ⟨d2, ?_, ?_, ?_, ?_, ?_, ?_⟩
      · simp only [storeChain, if_neg hb]
        exact e
      · rw [ho, writeFrom, block_write_opened]
      · rw [hc, writeFrom, block_write_count]
      · intro blk hblk
        rw [hother blk (fun c hc => hblk c (List.mem_cons_of_mem _ hc)), writeFrom,
          block_write_other _ _ (hblk b (List.mem_cons_self _ _))]
      · intro blk k hk
        rw [hhigh blk k hk, writeFrom, block_write_high _ _ _ _ hk]
      · intro q hq
        by_cases hq1 : q < BLOCK_SIZE
        · rw [fileByte_head _ _ _ _ hq1, hother (b + ds), writeFrom, block_write_same hop hbr _ hq1]
          intro c hc e
          apply hbn
          have : b = c := by omega
          rw [this]; exact hc
        · obtain ⟨q2, rfl⟩ : ∃ q2, q = BLOCK_SIZE + q2 := ⟨q - BLOCK_SIZE, by omega⟩
          rw [fileByte_tail, hdata q2 (by simp only [List.length_cons] at hq; simp only [BLOCK_SIZE] at hq ⊢; omega)]
          congr 1
          omega

theorem readChain_chain {d : BlockDisk} {FAT : Nat → Nat} {ds : Nat} (cs : List Nat) :
    ∀ b fuel di mem, IsChain FAT b (b :: cs) → cs.length ≤ fuel →
      ∃ l di2 mem2, readChain d FAT ds fuel b di mem = some (l, di2, mem2)
        ∧ loadChain d FAT ds (fuel + 1) b di mem = some (readInto d (l + ds) mem2 di2) := by
  induction cs with
  | nil =>
    intro b fuel di mem h _
    obtain ⟨_, hb, ht⟩ := IsChain.cons_iff.mp h
    have hfb : FAT b = FAT_EOC := IsChain.nil_iff.mp ht
    refine ⟨b, di, mem, ?_, ?_⟩
    · cases fuel <;> simp [readChain, hfb]
    · simp only [loadChain, if_neg hb]
      rw [hfb]
      cases fuel <;> simp [loadChain]
  | cons c cs ih =>
    intro b fuel di mem h hf
    obtain ⟨_, hb, ht⟩ := IsChain.cons_iff.mp h
    obtain ⟨hc, hc2, _⟩ := IsChain.cons_iff.mp ht
    cases fuel with
    | zero => simp at hf
    | succ f =>
      have hne : FAT b ≠ FAT_EOC := hc2
      obtain ⟨l, di2, mem2, e1, e2⟩ :=
        ih (FAT b) f (di + BLOCK_SIZE) (readInto d (b + ds) mem di) (by rw [← hc] at ht ⊢; exact ht)
          (by simpa using hf)
      refine ⟨l, di2, mem2, ?_, ?_⟩
      · simp only [readChain, if_neg hne]
        exact e1
      · rw [loadChain, if_neg hb]
        exact e2

/-! ## The two halves of a write, and a read, on a file with a known chain -/

theorem u32OfInt_sub {a b : Nat} (h : b ≤ a) (ha : a < 4294967296) :
    u32OfInt ((a : Int) - (b : Int)) = a - b := by
  unfold u32OfInt
  omega

theorem badHandle_open {s : FS} {fd idx off : Nat} (hst : s.diskStatus = 1)
    (hlt : fd < FS_OPEN_MAX_COUNT)
    (hfd : s.fdTable fd = { fileIndex := (idx : Int), fileOffset := (off : Int) }) :
    ¬ badHandle s (fd : Int) := by
  unfold badHandle
  simp only [Int.toNat_ofNat, hfd, hst]
  simp only [FS_OPEN_MAX_COUNT] at hlt ⊢
  omega

theorem fs_write_splice_chain {s : FS} {fd idx off : Nat} {cs : List Nat} (buf : Nat → Nat)
    (count fuel : Nat)
    (hfd : s.fdTable fd = { fileIndex := (idx : Int), fileOffset := (off : Int) })
    (hch : IsChain s.FAT (s.Root idx).firstDataBlockIndex cs)
    (hop : s.disk.opened = true)
    (hr : ∀ c ∈ cs, c + s.Superblock.dataBlockStartIndex < s.disk.count)
    (hfuel : cs.length ≤ fuel) (hoc : off + count < 2147483648) :
    ∃ d2, fs_write_splice fuel s (fd : Int) buf count
        = some ({ s with
                  fdTable := setAt s.fdTable fd
                    { fileIndex := (idx : Int), fileOffset := ((off + count : Nat) : Int) }
                  disk := d2 }, (count : Int))
      ∧ d2.opened = true ∧ d2.count = s.disk.count
      ∧ (∀ blk, (∀ c ∈ cs, blk ≠ c + s.Superblock.dataBlockStartIndex) →
          d2.data blk = s.disk.data blk)
      ∧ (∀ blk k, BLOCK_SIZE ≤ k → d2.data blk k = s.disk.data blk k)
      ∧ ∀ q, q < BLOCK_SIZE * cs.length →
          fileByte d2 s.Superblock.dataBlockStartIndex cs q
            = if off ≤ q ∧ q < off + count then buf (q - off)
              else fileByte s.disk s.Superblock.dataBlockStartIndex cs q := by
  obtain ⟨mem, eload, _, hmem⟩ := loadChain_chain hch hop hr fuel 0 (fun _ => 0) hfuel
  obtain ⟨d2, estore, ho, hc, hother, hhigh, hdata⟩ :=
    storeChain_chain hch (memcpyInto mem off buf count) fuel 0 s.disk hop hr hfuel
  refine ⟨d2, ?_, by rw [ho, hop], hc, hother, hhigh, ?_⟩
  · unfold fs_write_splice
    simp only [Int.toNat_ofNat, hfd, eload, estore]
    rw [sizeOfInt_natCast (by omega), u64_of_lt (by omega), toInt_of_lt (by omega),
      toInt_of_lt (by omega)]
  · intro q hq
    rw [hdata q hq]
    simp only [memcpyInto, Nat.zero_add]
    have := hmem q hq
    simp only [Nat.zero_add] at this
    rw [this]

theorem fs_read_chain {s : FS} {fd idx off : Nat} {cs : List Nat} (buf : Nat → Nat)
    (n fuel : Nat) (hst : s.diskStatus = 1) (hlt : fd < FS_OPEN_MAX_COUNT)
    (hfd : s.fdTable fd = { fileIndex := (idx : Int), fileOffset := (off : Int) })
    (hch : IsChain s.FAT (s.Root idx).firstDataBlockIndex cs)
    (hlen : cs.length = ceilBlocks (s.Root idx).fileSize)
    (hop : s.disk.opened = true)
    (hr : ∀ c ∈ cs, c + s.Superblock.dataBlockStartIndex < s.disk.count)
    (hfuel : cs.length ≤ fuel) (hoff : off ≤ (s.Root idx).fileSize)
    (hfs : (s.Root idx).fileSize < 2147483648) (hn : off + n < 18446744073709551616) :
    ∃ out, fs_read fuel s (fd : Int) buf n
        = some ({ s with
                  fdTable := setAt s.fdTable fd
                    { fileIndex := (idx : Int)
                      fileOffset := ((off + min n ((s.Root idx).fileSize - off) : Nat) : Int) } },
                out, ((min n ((s.Root idx).fileSize - off) : Nat) : Int))
      ∧ (∀ p, p < min n ((s.Root idx).fileSize - off) →
          out p = fileByte s.disk s.Superblock.dataBlockStartIndex cs (off + p))
      ∧ ∀ p, min n ((s.Root idx).fileSize - off) ≤ p → out p = buf p := by
  have hbad := badHandle_open hst hlt hfd
  have hoff32 : ¬ u32OfInt (off : Int) > (s.Root idx).fileSize := by
    rw [u32OfInt_natCast (by omega)]; omega
  cases cs with
  | nil =>
    have hfirst : (s.Root idx).firstDataBlockIndex = FAT_EOC := IsChain.nil_iff.mp hch
    have hfs0 : (s.Root idx).fileSize = 0 := by
      have h1 : ceilBlocks (s.Root idx).fileSize ≤ 0 := by rw [← hlen]; simp
      have h2 := (ceilBlocks_le_iff _ _).mp h1
      omega
    have hoff0 : off = 0 := by omega
    refine ⟨buf, ?_, ?_, fun _ _ => rfl⟩
    · unfold fs_read
      simp only [Int.toNat_ofNat, hfd, hbad, hoff32, false_or, if_false, hfirst, if_true]
      have hm : min n ((s.Root idx).fileSize - off) = 0 := by rw [hfs0]; simp
      rw [hm, hoff0]
      have hfd0 : s.fdTable fd = { fileIndex := (idx : Int), fileOffset := ((0 + 0 : Nat) : Int) } := by
        rw [hfd, hoff0]
      rw [setAt_eq_self _ _ _ hfd0]
      rfl
    · intro p hp
      rw [hfs0] at hp
      simp at hp
  | cons b cs =>
    obtain ⟨hb1, hb2, _⟩ := IsChain.cons_iff.mp hch
    have hfirst : (s.Root idx).firstDataBlockIndex ≠ FAT_EOC := hb2
    obtain ⟨l, di2, mem2, eread, eload⟩ :=
      @readChain_chain s.disk s.FAT s.Superblock.dataBlockStartIndex cs
        (s.Root idx).firstDataBlockIndex fuel 0 (fun _ => 0) (by rw [hb1] at hch; exact hch)
        (by simp at hfuel; omega)
    obtain ⟨mem, eload2, _, hmem⟩ :=
      loadChain_chain hch hop hr (fuel + 1) 0 (fun _ => 0) (by omega)
    rw [eload] at eload2
    have emem : readInto s.disk (l + s.Superblock.dataBlockStartIndex) mem2 di2 = mem :=
      Option.some.inj eload2
    have hcap : (s.Root idx).fileSize ≤ BLOCK_SIZE * (b :: cs).length := by
      have := (ceilBlocks_le_iff (s.Root idx).fileSize (b :: cs).length).mp (by rw [hlen])
      rw [Nat.mul_comm]; exact this
    have hcount : (if u64 (sizeOfInt (off : Int) + n) > (s.Root idx).fileSize then
          (if u32OfInt (((s.Root idx).fileSize : Int) - (off : Int)) > (s.Root idx).fileSize
            then (s.Root idx).fileSize
            else u32OfInt (((s.Root idx).fileSize : Int) - (off : Int)))
        else n) = min n ((s.Root idx).fileSize - off) := by
      rw [sizeOfInt_natCast (by omega), u64_of_lt hn, u32OfInt_sub hoff (by omega)]
      split
      · rw [if_neg (by omega)]; omega
      · omega
    refine ⟨memcpyInto buf 0 (fun p => mem (off + p)) (min n ((s.Root idx).fileSize - off)),
      ?_, ?_, ?_⟩
    · unfold fs_read
      simp only [Int.toNat_ofNat, hfd, hbad, hoff32, false_or, if_false, hfirst, eread, emem,
        hcount]
      rw [sizeOfInt_natCast (by omega), u64_of_lt (by omega), toInt_of_lt (by omega),
        toInt_of_lt (by omega)]
    · intro p hp
      simp only [memcpyInto, Nat.zero_add, Nat.sub_zero]
      rw [if_pos ⟨Nat.zero_le _, hp⟩]
      have := hmem (off + p) (by omega)
      simp only [Nat.zero_add] at this
      exact this
    · intro p hp
      simp only [memcpyInto, Nat.zero_add]
      rw [if_neg (by omega)]

/-! ## Consequences of well-formedness -/

theorem chain_length_le {cs : List Nat} {dbc : Nat} (hnd : cs.Nodup)
    (hr : ∀ c ∈ cs, 1 ≤ c ∧ c < dbc) : cs.length ≤ dbc - 1 := by
  have hsub : cs ⊆ List.range' 1 (dbc - 1) := by
    intro c hc
    have := hr c hc
    rw [List.mem_range'_1]
    omega
  have := (List.subperm_of_subset hnd hsub).length_le
  simpa using this

theorem Mounted.block_lt {s : FS} (h : Mounted s) {c : Nat}
    (hc : c < s.Superblock.numberOfDataBlocks) :
    c + s.Superblock.dataBlockStartIndex < s.disk.count := by
  obtain ⟨_, _, ⟨h1, h2, h3, h4⟩, _⟩ := h
  omega

theorem FileChain.blocks_lt {s : FS} {idx : Nat} {cs : List Nat} (hwf : Mounted s)
    (h : FileChain s idx cs) : ∀ c ∈ cs, c + s.Superblock.dataBlockStartIndex < s.disk.count :=
  fun c hc => hwf.block_lt (h.2.2 c hc).2

theorem FileChain.length_le {s : FS} {idx : Nat} {cs : List Nat} (hwf : Mounted s)
    (h : FileChain s idx cs) : cs.length ≤ 65534 := by
  have h1 := chain_length_le h.1.nodup h.2.2
  have h2 := hwf.2.2.2.1
  omega

theorem FileChain.size_le {s : FS} {idx : Nat} {cs : List Nat} (hwf : Mounted s)
    (h : FileChain s idx cs) : (s.Root idx).fileSize ≤ 268431360 := by
  have h1 := h.length_le hwf
  have h2 := (ceilBlocks_le_iff (s.Root idx).fileSize cs.length).mp (by rw [h.2.1])
  simp only [BLOCK_SIZE] at h2
  omega

theorem FileChain.fuel_le {s : FS} {idx : Nat} {cs : List Nat} (h : FileChain s idx cs)
    {fuel : Nat} (hf : s.Superblock.numberOfDataBlocks ≤ fuel) : cs.length ≤ fuel := by
  have h1 := chain_length_le h.1.nodup h.2.2
  omega

theorem freeFrom_le (FAT : Nat → Nat) (n : Nat) : ∀ i, freeFrom FAT n i ≤ n := by
  induction n with
  | zero => intro i; simp [freeFrom]
  | succ n ih =>
    intro i
    simp only [freeFrom]
    have := ih (i + 1)
    split <;> omega

theorem freeCount_le (FAT : Nat → Nat) (dbc : Nat) : freeCount FAT dbc ≤ dbc - 1 :=
  freeFrom_le FAT _ 1

theorem ceilBlocks_gap (n : Nat) : ceilBlocks n * BLOCK_SIZE < n + BLOCK_SIZE := by
  unfold ceilBlocks
  simp only [BLOCK_SIZE]
  omega

theorem count_on_break (B fs need k : Nat) (hB : fs ≤ B * BLOCK_SIZE) (hk : k ≤ need)
    (hlt : B * BLOCK_SIZE - fs + (need - k) * BLOCK_SIZE < 4294967296) :
    u32OfInt (((B * BLOCK_SIZE : Nat) : Int) - (fs : Int)
        + ((need : Int) - (k : Int)) * (BLOCK_SIZE : Int))
      = B * BLOCK_SIZE - fs + (need - k) * BLOCK_SIZE := by
  unfold u32OfInt
  simp only [BLOCK_SIZE] at *
  push_cast
  omega

theorem fs_write_extend_nonempty {s : FS} {fd idx off : Nat} {pre : List Nat} {cur : Nat}
    (n fuel : Nat) (hwf : Mounted s)
    (hfd : s.fdTable fd = { fileIndex := (idx : Int), fileOffset := (off : Int) })
    (hfc : FileChain s idx (pre ++ [cur])) (hoff : off ≤ (s.Root idx).fileSize)
    (hn : n < 4398046511104) (hfuel : s.Superblock.numberOfDataBlocks ≤ fuel)
    (hneed : ceilBlocks (s.Root idx).fileSize < ceilBlocks (off + n)) :
    ExtendOutcome s idx off (pre ++ [cur]) n (fs_write_extend fuel s (fd : Int) n) := by
  have hsize := hfc.size_le hwf
  have hdbc : s.Superblock.numberOfDataBlocks ≤ 65535 := hwf.2.2.2.1
  obtain ⟨hch, hlen, hrange⟩ := hfc
  have hcur : cur ≠ 0 := by
    have := hrange cur (by simp)
    omega
  have hwalk := walkToEnd_chain hch fuel 0 (FileChain.fuel_le ⟨hch, hlen, hrange⟩ hfuel)
  rw [List.getLastD_concat] at hwalk
  have hnz : ∀ c ∈ pre ++ [cur], c ≠ 0 := by
    intro c hc
    have := hrange c hc
    omega
  have hB : (s.Root idx).fileSize ≤ ceilBlocks (s.Root idx).fileSize * BLOCK_SIZE :=
    (ceilBlocks_le_iff _ _).mp (le_refl _)
  have hgap := ceilBlocks_gap (s.Root idx).fileSize
  have hBle : ceilBlocks (s.Root idx).fileSize ≤ 65534 := by
    rw [← hlen]; exact FileChain.length_le hwf ⟨hch, hlen, hrange⟩
  have hneedlt : ceilBlocks (off + n) - ceilBlocks (s.Root idx).fileSize < 2147483648 := by
    have : ceilBlocks (off + n) ≤ 2147483647 := by
      rw [ceilBlocks_le_iff]; simp only [BLOCK_SIZE]; omega
    omega
  obtain ⟨new, hc1, hc2, hc3, hc4, hc5⟩ :=
    fs_write_alloc_spec s.Superblock.numberOfDataBlocks hdbc
      (ceilBlocks (off + n) - ceilBlocks (s.Root idx).fileSize) s.FAT
      (s.Root idx).firstDataBlockIndex cur pre hch hnz
  right
  unfold fs_write_extend
  simp only [Int.toNat_ofNat, hfd]
  rw [fileBlocks_eq (by omega), neededBlocks_eq (by omega), if_pos hneed, hwalk]
  simp only [if_neg hcur, toInt_of_lt hneedlt, Int.toNat_ofNat]
  generalize fs_write_alloc s.Superblock.numberOfDataBlocks
    (ceilBlocks (off + n) - ceilBlocks (s.Root idx).fileSize) s.FAT cur = a at hc1 hc3 hc4 hc5 ⊢
  obtain ⟨FAT1, left⟩ := a
  simp only at hc1 hc3 hc4 hc5 ⊢
  have hagree : ∀ j, j ∉ pre ++ [cur] ++ new → FAT1 j = s.FAT j := by
    intro j hj
    apply hc3 j
    · intro e; apply hj; simp [e]
    · intro hm; apply hj; simp [hm]
  have hlenle : new.length ≤ 65535 := by
    have := (freeCount_le s.FAT s.Superblock.numberOfDataBlocks)
    omega
  rcases hc5 with ⟨e, hl⟩ | ⟨k, e, hk, hl, hfull⟩
  · subst e
    have hsum : off + n ≤ 536858624 := by
      have h1 : ceilBlocks (off + n) ≤ 131069 := by omega
      have h2 := (ceilBlocks_le_iff _ _).mp h1
      simp only [BLOCK_SIZE] at h2
      omega
    refine ⟨new, FAT1, (s.Root idx).firstDataBlockIndex, n, ?_, hc1, by simp, hc2, hagree, hc4,
      Or.inl ⟨hl, rfl⟩⟩
    simp only
    rw [sizeOfInt_natCast (by omega), u64_of_lt (by omega), u32_of_lt (by omega)]
  · subst e
    have hnk : ceilBlocks (off + n) - ceilBlocks (s.Root idx).fileSize - k = new.length := by omega
    have hcnt := count_on_break (ceilBlocks (s.Root idx).fileSize) (s.Root idx).fileSize
      (ceilBlocks (off + n) - ceilBlocks (s.Root idx).fileSize) k hB (by omega)
      (by rw [hnk]; simp only [BLOCK_SIZE] at hB hgap ⊢; omega)
    rw [hnk] at hcnt
    refine ⟨new, FAT1, (s.Root idx).firstDataBlockIndex,
      ceilBlocks (s.Root idx).fileSize * BLOCK_SIZE - (s.Root idx).fileSize
        + new.length * BLOCK_SIZE, ?_, hc1, by simp, hc2, hagree, hc4,
      Or.inr ⟨by omega, hfull, rfl⟩⟩
    simp only
    rw [hcnt, sizeOfInt_natCast (by omega),
      u64_of_lt (by simp only [BLOCK_SIZE] at hB hgap ⊢; omega),
      u32_of_lt (by simp only [BLOCK_SIZE] at hB hgap ⊢; omega)]

theorem fs_write_extend_empty {s : FS} {fd idx off : Nat} (n fuel : Nat) (hwf : Mounted s)
    (hfd : s.fdTable fd = { fileIndex := (idx : Int), fileOffset := (off : Int) })
    (hfc : FileChain s idx []) (hoff : off ≤ (s.Root idx).fileSize)
    (hn : n < 4398046511104)
    (hneed : ceilBlocks (s.Root idx).fileSize < ceilBlocks (off + n)) :
    ExtendOutcome s idx off [] n (fs_write_extend fuel s (fd : Int) n) := by
  have hdbc : s.Superblock.numberOfDataBlocks ≤ 65535 := hwf.2.2.2.1
  have hfat0 : s.FAT 0 = FAT_EOC := hwf.2.2.2.2
  obtain ⟨hch, hlen, _⟩ := hfc
  have hfirst : (s.Root idx).firstDataBlockIndex = FAT_EOC := IsChain.nil_iff.mp hch
  have hB0 : ceilBlocks (s.Root idx).fileSize = 0 := by rw [← hlen]; rfl
  have hfs0 : (s.Root idx).fileSize = 0 := by
    have := (ceilBlocks_le_iff (s.Root idx).fileSize 0).mp (by omega)
    omega
  have hoff0 : off = 0 := by omega
  have hwalk : walkToEnd s.FAT fuel 0 (s.Root idx).firstDataBlockIndex = some 0 := by
    rw [hfirst]; cases fuel <;> simp [walkToEnd]
  have hneedlt : ceilBlocks (off + n) - ceilBlocks (s.Root idx).fileSize < 2147483648 := by
    have : ceilBlocks (off + n) ≤ 2147483647 := by
      rw [ceilBlocks_le_iff]; simp only [BLOCK_SIZE]; omega
    omega
  have hfle := freeCount_le s.FAT s.Superblock.numberOfDataBlocks
  unfold fs_write_extend
  simp only [Int.toNat_ofNat, hfd]
  rw [fileBlocks_eq (by omega), neededBlocks_eq (by omega), if_pos hneed, hwalk]
  simp only [if_true, toInt_of_lt hneedlt]
  rcases findEmptyFAT_spec s.FAT s.Superblock.numberOfDataBlocks with ⟨h0, hfree⟩ | ⟨h1, h2, h3, _⟩
  · left
    refine ⟨rfl, hfree, ?_⟩
    simp only [h0, u16, Nat.zero_mod, if_true]
    rw [setAt_eq_self _ _ _ hfat0, setAt_eq_self s.Root idx _ (by rw [← hfirst])]
  · right
    generalize hf : findEmptyFAT s.FAT s.Superblock.numberOfDataBlocks = f at h1 h2 h3
    have hfz : f ≠ 0 := by omega
    have hfe : f ≠ FAT_EOC := by simp only [FAT_EOC]; omega
    have hu : u16 f = f := u16_of_lt (by omega)
    have hchain : IsChain (setAt s.FAT f FAT_EOC) f ([] ++ [f]) := by
      refine IsChain.cons hfe ?_
      rw [setAt_same]
      exact IsChain.nil
    have htoNat : ((↑(ceilBlocks (off + n) - ceilBlocks (s.Root idx).fileSize) : Int) - 1).toNat
        = ceilBlocks (off + n) - ceilBlocks (s.Root idx).fileSize - 1 := by omega
    obtain ⟨new, hc1, hc2, hc3, hc4, hc5⟩ :=
      fs_write_alloc_spec s.Superblock.numberOfDataBlocks hdbc
        (ceilBlocks (off + n) - ceilBlocks (s.Root idx).fileSize - 1) (setAt s.FAT f FAT_EOC)
        f f [] hchain (by simpa using hfz)
    have hfc1 : freeCount s.FAT s.Superblock.numberOfDataBlocks
        = freeCount (setAt s.FAT f FAT_EOC) s.Superblock.numberOfDataBlocks + 1 :=
      freeCount_take h3 (by simp) h1 h2
    simp only [hu, if_neg hfz, htoNat]
    generalize fs_write_alloc s.Superblock.numberOfDataBlocks
      (ceilBlocks (off + n) - ceilBlocks (s.Root idx).fileSize - 1) (setAt s.FAT f FAT_EOC) f
      = a at hc1 hc3 hc4 hc5 ⊢
    obtain ⟨FAT1, left⟩ := a
    simp only at hc1 hc3 hc4 hc5 ⊢
    have hagree : ∀ j, j ∉ [] ++ (f :: new) → FAT1 j = s.FAT j := by
      intro j hj
      have hjf : j ≠ f := fun e => hj (by simp [e])
      rw [hc3 j hjf (fun hm => hj (by simp [hm])), setAt_other _ _ hjf]
    have hrange : ∀ c ∈ f :: new, 1 ≤ c ∧ c < s.Superblock.numberOfDataBlocks := by
      intro c hc
      rcases List.mem_cons.mp hc with rfl | hc
      · exact ⟨h1, h2⟩
      · exact hc2 c hc
    rcases hc5 with ⟨e, hl⟩ | ⟨k, e, hk, hl, hfull⟩
    · subst e
      have hsum : off + n ≤ 536858624 := by
        have h1 : ceilBlocks (off + n) ≤ 131069 := by omega
        have h2 := (ceilBlocks_le_iff _ _).mp h1
        simp only [BLOCK_SIZE] at h2
        omega
      refine ⟨f :: new, FAT1, f, n, ?_, by simpa using hc1, by simp, hrange, hagree,
        by rw [List.length_cons]; omega, Or.inl ⟨by rw [List.length_cons]; omega, rfl⟩⟩
      simp only
      rw [sizeOfInt_natCast (by omega), u64_of_lt (by omega), u32_of_lt (by omega)]
    · subst e
      have hnk : ceilBlocks (off + n) - ceilBlocks (s.Root idx).fileSize - k = new.length + 1 := by
        omega
      have hcnt := count_on_break (ceilBlocks (s.Root idx).fileSize) (s.Root idx).fileSize
        (ceilBlocks (off + n) - ceilBlocks (s.Root idx).fileSize) k
        (by rw [hfs0]; exact Nat.zero_le _) (by omega)
        (by rw [hnk, hB0, hfs0]; simp only [BLOCK_SIZE]; omega)
      rw [hnk] at hcnt
      refine ⟨f :: new, FAT1, f,
        ceilBlocks (s.Root idx).fileSize * BLOCK_SIZE - (s.Root idx).fileSize
          + (f :: new).length * BLOCK_SIZE, ?_, by simpa using hc1, by simp, hrange, hagree,
        by rw [List.length_cons]; omega,
        Or.inr ⟨by rw [List.length_cons]; omega, hfull, rfl⟩⟩
      simp only [List.length_cons]
      rw [hcnt, sizeOfInt_natCast (by omega),
        u64_of_lt (by rw [hB0, hfs0]; simp only [BLOCK_SIZE]; omega),
        u32_of_lt (by rw [hB0, hfs0]; simp only [BLOCK_SIZE]; omega)]

theorem fs_write_extend_spec {s : FS} {fd idx off : Nat} {cs : List Nat} (n fuel : Nat)
    (hwf : Mounted s)
    (hfd : s.fdTable fd = { fileIndex := (idx : Int), fileOffset := (off : Int) })
    (hfc : FileChain s idx cs) (hoff : off ≤ (s.Root idx).fileSize)
    (hn : n < 4398046511104) (hfuel : s.Superblock.numberOfDataBlocks ≤ fuel)
    (hneed : ceilBlocks (s.Root idx).fileSize < ceilBlocks (off + n)) :
    ExtendOutcome s idx off cs n (fs_write_extend fuel s (fd : Int) n) := by
  rcases List.eq_nil_or_concat cs with rfl | ⟨pre, cur, h⟩
  · exact fs_write_extend_empty n fuel hwf hfd hfc hoff hn hneed
  · rw [List.concat_eq_append] at h
    subst h
    exact fs_write_extend_nonempty n fuel hwf hfd hfc hoff hn hfuel hneed

theorem fs_write_extend_none {s : FS} {fd idx off : Nat} {cs : List Nat} (n fuel : Nat)
    (hwf : Mounted s)
    (hfd : s.fdTable fd = { fileIndex := (idx : Int), fileOffset := (off : Int) })
    (hfc : FileChain s idx cs) (hoff : off ≤ (s.Root idx).fileSize)
    (hn : n < 4398046511104)
    (hneed : ¬ ceilBlocks (s.Root idx).fileSize < ceilBlocks (off + n)) :
    fs_write_extend fuel s (fd : Int) n = some (Extended.goesOn s n) := by
  have hsize := hfc.size_le hwf
  unfold fs_write_extend
  simp only [Int.toNat_ofNat, hfd]
  rw [fileBlocks_eq (by omega), neededBlocks_eq (by omega), if_neg hneed]

theorem fs_write_enter {s : FS} {fd idx off : Nat} (buf : Nat → Nat) {n : Nat} (fuel : Nat)
    (hst : s.diskStatus = 1) (hlt : fd < FS_OPEN_MAX_COUNT)
    (hfd : s.fdTable fd = { fileIndex := (idx : Int), fileOffset := (off : Int) })
    (hoff : off ≤ (s.Root idx).fileSize) (hfs : (s.Root idx).fileSize < 4294967296)
    (hn : 0 < n) :
    fs_write fuel s (fd : Int) buf n
      = match fs_write_extend fuel s (fd : Int) n with
        | none => none
        | some (Extended.returned s1 r) => some (s1, r)
        | some (Extended.goesOn s1 count1) => fs_write_splice fuel s1 (fd : Int) buf count1 := by
  have hbad := badHandle_open hst hlt hfd
  have hoff32 : ¬ u32OfInt (off : Int) > (s.Root idx).fileSize := by
    rw [u32OfInt_natCast (by omega)]; omega
  unfold fs_write
  simp only [Int.toNat_ofNat, hfd, hbad, hoff32, false_or, if_false]
  rw [if_neg (by omega)]

/-! ## Example states are well formed -/

theorem exampleFS_wellFormed (dbc : Nat) (FAT : Nat → Nat) (e : rootEntry) (h : fileDescriptor)
    (hdbc : dbc ≤ 65535) (h0 : FAT 0 = FAT_EOC)
    (hfile : slotUsed e → ∃ cs, FileChain (exampleFS dbc FAT e h) 0 cs) :
    WellFormed (exampleFS dbc FAT e h) := by
  refine ⟨⟨rfl, rfl, ⟨?_, rfl, rfl, rfl⟩, hdbc, h0⟩, ?_⟩
  · simp only [exampleFS]; omega
  · intro idx _ hu
    by_cases hi : idx = 0
    · subst hi; exact hfile hu
    · have hz : (exampleFS dbc FAT e h).Root idx = zeroEntry := by
        simp only [exampleFS, if_neg hi]
      rw [hz] at hu
      exact absurd hu (by decide)

theorem twoBlockFS_chain : FileChain twoBlockFS 0 [1, 2] := by
  refine ⟨IsChain.cons (by decide) (IsChain.cons (by decide) IsChain.nil), by decide, ?_⟩
  intro c hc
  simp only [List.mem_cons, List.mem_singleton, List.not_mem_nil, or_false] at hc
  rcases hc with rfl | rfl <;> decide

theorem twoBlockFS_wellFormed : WellFormed twoBlockFS :=
  exampleFS_wellFormed _ _ _ _ (by decide) (by decide) (fun _ => ⟨_, twoBlockFS_chain⟩)

theorem twoBlockFS_handle : OpenHandle twoBlockFS 0 0 4090 :=
  ⟨by decide, rfl, by decide, by decide⟩

/-! ## Overwriting and reading -/

/-- C3 (overwrite in place).  In a mounted, well-formed state, for a handle
`fd` open on a file with chain `cs` and cursor `off`, a write of `n > 0` bytes
with `off + n ≤ fileSize` returns `n`, leaves the FAT and the root directory
(hence the file size and the chain) unchanged, moves the cursor of `fd` to
`off + n` and leaves the other handles alone; afterwards byte `p` of the
file content is `buf (p - off)` for `p` in `[off, off + n)` and the old byte
everywhere else, and no block outside the chain is touched. -/
theorem fs_write_overwrite_in_place (s : FS) (fd idx off : Nat) (cs : List Nat)
    (buf : Nat → Nat) (n fuel : Nat)
    (hwf : WellFormed s) (hh : OpenHandle s fd idx off) (hfc : FileChain s idx cs)
    (hn : 0 < n) (hle : off + n ≤ (s.Root idx).fileSize)
    (hfuel : s.Superblock.numberOfDataBlocks ≤ fuel) :
    ∃ s2, fs_write fuel s (fd : Int) buf n = some (s2, (n : Int))
      ∧ s2.FAT = s.FAT ∧ s2.Root = s.Root ∧ s2.Superblock = s.Superblock
      ∧ s2.fdTable fd = { fileIndex := (idx : Int), fileOffset := ((off + n : Nat) : Int) }
      ∧ (∀ j, j ≠ fd → s2.fdTable j = s.fdTable j)
      ∧ (∀ p, p < (s.Root idx).fileSize →
          fileByte s2.disk s.Superblock.dataBlockStartIndex cs p
            = if off ≤ p ∧ p < off + n then buf (p - off)
              else fileByte s.disk s.Superblock.dataBlockStartIndex cs p)
      ∧ ∀ blk, (∀ c ∈ cs, blk ≠ c + s.Superblock.dataBlockStartIndex) →
          s2.disk.data blk = s.disk.data blk := by
  obtain ⟨hlt, hfd, _, _⟩ := hh
  have hsize := hfc.size_le hwf.1
  have hnone : ¬ ceilBlocks (s.Root idx).fileSize < ceilBlocks (off + n) := by
    have h1 : ceilBlocks (off + n) ≤ ceilBlocks (s.Root idx).fileSize := by
      rw [ceilBlocks_le_iff]
      exact le_trans hle ((ceilBlocks_le_iff _ _).mp (le_refl _))
    omega
  obtain ⟨d2, e, _, _, hother, _, hdata⟩ :=
    fs_write_splice_chain buf n fuel hfd hfc.1 hwf.1.2.1 (hfc.blocks_lt hwf.1) (hfc.fuel_le hfuel)
      (by omega)
  refine ⟨{ s with
      fdTable := setAt s.fdTable fd
        { fileIndex := (idx : Int), fileOffset := ((off + n : Nat) : Int) }
      disk := d2 }, ?_, rfl, rfl, rfl, ?_, ?_, ?_, hother⟩
  · rw [fs_write_enter buf fuel hwf.1.1 hlt hfd (by omega) (by omega) hn,
      fs_write_extend_none n fuel hwf.1 hfd hfc (by omega) (by omega) hnone]
    exact e
  · simp
  · intro j hj
    simp only
    rw [setAt_other _ _ hj]
  · intro p hp
    apply hdata
    have := (ceilBlocks_le_iff (s.Root idx).fileSize cs.length).mp (by rw [hfc.2.1])
    rw [Nat.mul_comm]
    omega

theorem fs_write_overwrite_in_place_witness :
    WellFormed twoBlockFS ∧ OpenHandle twoBlockFS 0 0 4090 ∧ FileChain twoBlockFS 0 [1, 2]
    ∧ ∃ s2, fs_write 4 twoBlockFS ((0 : Nat) : Int) (bufOfList [65, 66, 67, 68, 69, 70, 71, 72]) 8
          = some (s2, ((8 : Nat) : Int))
      ∧ s2.FAT = twoBlockFS.FAT ∧ s2.Root = twoBlockFS.Root
      ∧ s2.Superblock = twoBlockFS.Superblock
      ∧ s2.fdTable 0 = { fileIndex := ((0 : Nat) : Int), fileOffset := ((4090 + 8 : Nat) : Int) }
      ∧ (∀ j, j ≠ 0 → s2.fdTable j = twoBlockFS.fdTable j)
      ∧ (∀ p, p < (twoBlockFS.Root 0).fileSize →
          fileByte s2.disk twoBlockFS.Superblock.dataBlockStartIndex [1, 2] p
            = if 4090 ≤ p ∧ p < 4090 + 8 then bufOfList [65, 66, 67, 68, 69, 70, 71, 72] (p - 4090)
              else fileByte twoBlockFS.disk twoBlockFS.Superblock.dataBlockStartIndex [1, 2] p)
      ∧ ∀ blk, (∀ c ∈ [1, 2], blk ≠ c + twoBlockFS.Superblock.dataBlockStartIndex) →
          s2.disk.data blk = twoBlockFS.disk.data blk :=
  ⟨twoBlockFS_wellFormed, twoBlockFS_handle, twoBlockFS_chain,
    fs_write_overwrite_in_place twoBlockFS 0 0 4090 [1, 2] _ 8 4 twoBlockFS_wellFormed
      twoBlockFS_handle twoBlockFS_chain (by decide) (by decide) (by decide)⟩

/-- C6 (read clamps to the end of file).  In a mounted, well-formed state, for
a handle `fd` open on a file with chain `cs` and cursor `off ≤ fileSize`, and
a count `n` for which `off + n` does not wrap in `size_t`, `fs_read` returns
`m = min n (fileSize - off)`, puts bytes `[off, off + m)` of the file content
into `out[0, m)` and leaves the rest of the caller's buffer as it was,
advances the cursor of `fd` by `m`, and changes neither the FAT, the root
directory, the superblock, the disk nor any other handle. -/
theorem fs_read_clamps (s : FS) (fd idx off : Nat) (cs : List Nat) (buf : Nat → Nat)
    (n fuel : Nat)
    (hwf : WellFormed s) (hh : OpenHandle s fd idx off) (hfc : FileChain s idx cs)
    (hoff : off ≤ (s.Root idx).fileSize) (hn : off + n < 18446744073709551616)
    (hfuel : s.Superblock.numberOfDataBlocks ≤ fuel) :
    ∃ s2 out, fs_read fuel s (fd : Int) buf n
        = some (s2, out, ((min n ((s.Root idx).fileSize - off) : Nat) : Int))
      ∧ (∀ p, p < min n ((s.Root idx).fileSize - off) →
          out p = fileByte s.disk s.Superblock.dataBlockStartIndex cs (off + p))
      ∧ (∀ p, min n ((s.Root idx).fileSize - off) ≤ p → out p = buf p)
      ∧ s2.fdTable fd
          = { fileIndex := (idx : Int)
              fileOffset := ((off + min n ((s.Root idx).fileSize - off) : Nat) : Int) }
      ∧ (∀ j, j ≠ fd → s2.fdTable j = s.fdTable j)
      ∧ s2.FAT = s.FAT ∧ s2.Root = s.Root ∧ s2.Superblock = s.Superblock ∧ s2.disk = s.disk
      ∧ s2.diskStatus = s.diskStatus := by
  obtain ⟨hlt, hfd, _, _⟩ := hh
  have hsize := hfc.size_le hwf.1
  obtain ⟨out, e, h1, h2⟩ :=
    fs_read_chain buf n fuel hwf.1.1 hlt hfd hfc.1 hfc.2.1 hwf.1.2.1 (hfc.blocks_lt hwf.1)
      (hfc.fuel_le hfuel) hoff (by omega) hn
  refine ⟨{ s with
      fdTable := setAt s.fdTable fd
        { fileIndex := (idx : Int)
          fileOffset := ((off + min n ((s.Root idx).fileSize - off) : Nat) : Int) } },
    out, e, h1, h2, ?_, ?_, rfl, rfl, rfl, rfl, rfl⟩
  · simp
  · intro j hj
    simp only
    rw [setAt_other _ _ hj]

theorem fs_read_clamps_witness :
    WellFormed twoBlockFS ∧ OpenHandle twoBlockFS 0 0 4090 ∧ FileChain twoBlockFS 0 [1, 2]
    ∧ ∃ s2 out, fs_read 4 twoBlockFS ((0 : Nat) : Int) (fun _ => 7) 10000
        = some (s2, out, ((min 10000 ((twoBlockFS.Root 0).fileSize - 4090) : Nat) : Int))
      ∧ (∀ p, p < min 10000 ((twoBlockFS.Root 0).fileSize - 4090) →
          out p = fileByte twoBlockFS.disk twoBlockFS.Superblock.dataBlockStartIndex [1, 2] (4090 + p))
      ∧ (∀ p, min 10000 ((twoBlockFS.Root 0).fileSize - 4090) ≤ p → out p = (fun _ => 7) p)
      ∧ s2.fdTable 0
          = { fileIndex := ((0 : Nat) : Int)
              fileOffset := ((4090 + min 10000 ((twoBlockFS.Root 0).fileSize - 4090) : Nat) : Int) }
      ∧ (∀ j, j ≠ 0 → s2.fdTable j = twoBlockFS.fdTable j)
      ∧ s2.FAT = twoBlockFS.FAT ∧ s2.Root = twoBlockFS.Root
      ∧ s2.Superblock = twoBlockFS.Superblock ∧ s2.disk = twoBlockFS.disk
      ∧ s2.diskStatus = twoBlockFS.diskStatus :=
  ⟨twoBlockFS_wellFormed, twoBlockFS_handle, twoBlockFS_chain,
    fs_read_clamps twoBlockFS 0 0 4090 [1, 2] (fun _ => 7) 10000 4 twoBlockFS_wellFormed
      twoBlockFS_handle twoBlockFS_chain (by decide) (by decide) (by decide)⟩

/-! ## A write that needs more blocks -/

theorem fs_write_grow {s : FS} {fd idx off : Nat} {cs : List Nat} (buf : Nat → Nat)
    (n fuel : Nat) (hwf : Mounted s) (hlt : fd < FS_OPEN_MAX_COUNT)
    (hfd : s.fdTable fd = { fileIndex := (idx : Int), fileOffset := (off : Int) })
    (hfc : FileChain s idx cs) (hoff : off ≤ (s.Root idx).fileSize)
    (hn0 : 0 < n) (hn : n < 4398046511104) (hfuel : s.Superblock.numberOfDataBlocks ≤ fuel)
    (hneed : ceilBlocks (s.Root idx).fileSize < ceilBlocks (off + n)) :
    WriteOutcome s fd idx off cs buf n (fs_write fuel s (fd : Int) buf n) := by
  have hsize := hfc.size_le hwf
  have hdbc : s.Superblock.numberOfDataBlocks ≤ 65535 := hwf.2.2.2.1
  have hB : (s.Root idx).fileSize ≤ ceilBlocks (s.Root idx).fileSize * BLOCK_SIZE :=
    (ceilBlocks_le_iff _ _).mp (le_refl _)
  rw [fs_write_enter buf fuel hwf.1 hlt hfd hoff (by omega) hn0]
  rcases fs_write_extend_spec n fuel hwf hfd hfc hoff hn hfuel hneed with
    ⟨h1, h2, h3⟩ | ⟨new, FAT1, first1, count1, e, hc1, hc2, hc3, hc4, hc5, hc6⟩
  · left
    rw [h3]
    exact ⟨h1, h2, rfl⟩
  · right
    rw [e]
    simp only
    have hrange : ∀ c ∈ cs ++ new, 1 ≤ c ∧ c < s.Superblock.numberOfDataBlocks := by
      intro c hc
      rcases List.mem_append.mp hc with hc | hc
      · exact hfc.2.2 c hc
      · exact hc3 c hc
    have hlen : (cs ++ new).length ≤ s.Superblock.numberOfDataBlocks - 1 :=
      chain_length_le hc1.nodup hrange
    have hlen2 : (cs ++ new).length = ceilBlocks (s.Root idx).fileSize + new.length := by
      rw [List.length_append, hfc.2.1]
    have hcount : off + count1 ≤ 268431360 := by
      rcases hc6 with ⟨hl, hcn⟩ | ⟨_, _, hcn⟩
      · have h1 : ceilBlocks (off + n) ≤ 65534 := by omega
        have h2 := (ceilBlocks_le_iff _ _).mp h1
        simp only [BLOCK_SIZE] at h2
        omega
      · simp only [BLOCK_SIZE] at hcn hB
        omega
    obtain ⟨d2, e2, ho, hc, hother, _, hdata⟩ :=
      @fs_write_splice_chain
        { s with
          FAT := FAT1
          Root := setAt s.Root idx
            { s.Root idx with firstDataBlockIndex := first1, fileSize := off + count1 } }
        fd idx off (cs ++ new) buf count1 fuel hfd (by simpa using hc1) hwf.2.1
        (fun c hc => hwf.block_lt (hrange c hc).2) (by omega) (by omega)
    exact ⟨new, FAT1, first1, count1, d2, e2, hc1, hc2, hc3, hc4, hc5, hc6, ho, hc, hother, hdata⟩

/-! ## Writing to an empty file and reading it back -/

theorem emptyFileFS_wellFormed : WellFormed emptyFileFS :=
  exampleFS_wellFormed _ _ _ _ (by decide) (by decide)
    (fun _ => ⟨[], IsChain.nil, by decide, by simp⟩)

theorem emptyFileFS_handle : OpenHandle emptyFileFS 0 0 0 :=
  ⟨by decide, rfl, by decide, by decide⟩

/-- C2 (write to an empty file and read it back).  In a mounted, well-formed
state, for a handle `fd` open with cursor 0 on a used root entry with
`fileSize = 0` and `firstDataBlockIndex = 0xFFFF`, a count `n > 0` and at
least `ceil(n / 4096)` zero FAT entries in `[1, numberOfDataBlocks)`:
`fs_write` returns `n`; `fs_stat` then returns `n`; the file has a chain of
exactly `ceil(n / 4096)` entries that ends in `0xFFFF`; `fs_lseek(fd, 0)`
returns 0 and a following `fs_read` of `m ≥ n` bytes (`m` a `size_t`) returns
`n` with `out[0, n) = buf[0, n)`. -/
theorem fs_write_empty_file_read_back (s : FS) (fd idx : Nat) (buf out0 : Nat → Nat)
    (n m fuel : Nat)
    (hwf : WellFormed s) (hh : OpenHandle s fd idx 0)
    (hsize : (s.Root idx).fileSize = 0)
    (hfirst : (s.Root idx).firstDataBlockIndex = FAT_EOC)
    (hn : 0 < n)
    (hfree : ceilBlocks n ≤ freeCount s.FAT s.Superblock.numberOfDataBlocks)
    (hm : n ≤ m) (hm64 : m < 18446744073709551616)
    (hfuel : s.Superblock.numberOfDataBlocks ≤ fuel) :
    ∃ s1, fs_write fuel s (fd : Int) buf n = some (s1, (n : Int))
      ∧ fs_stat s1 (fd : Int) = (n : Int)
      ∧ (∃ cs, FileChain s1 idx cs ∧ cs.length = ceilBlocks n)
      ∧ ∃ s2, fs_lseek s1 (fd : Int) 0 = (s2, 0)
        ∧ ∃ s3 out, fs_read fuel s2 (fd : Int) out0 m = some (s3, out, (n : Int))
          ∧ ∀ p, p < n → out p = buf p := by
  obtain ⟨hlt, hfd, _, _⟩ := hh
  have hmt := hwf.1
  have hdbc : s.Superblock.numberOfDataBlocks ≤ 65535 := hmt.2.2.2.1
  have hfle := freeCount_le s.FAT s.Superblock.numberOfDataBlocks
  have hnle : n ≤ 268431360 := by
    have h1 : ceilBlocks n ≤ 65534 := by omega
    have h2 := (ceilBlocks_le_iff _ _).mp h1
    simp only [BLOCK_SIZE] at h2
    omega
  have hfc : FileChain s idx [] := by
    refine ⟨by rw [hfirst]; exact IsChain.nil, ?_, by simp⟩
    rw [hsize]; rfl
  have hc0 : ceilBlocks 0 = 0 := rfl
  have hpos : 0 < ceilBlocks n := by
    by_contra h
    have h1 := (ceilBlocks_le_iff n 0).mp (by omega)
    omega
  have hneed : ceilBlocks (s.Root idx).fileSize < ceilBlocks (0 + n) := by
    rw [hsize, Nat.zero_add, hc0]; exact hpos
  rcases fs_write_grow buf n fuel hmt hlt hfd hfc (Nat.zero_le _) hn (by omega) hfuel hneed with
    ⟨_, h2, _⟩ | ⟨new, FAT1, first1, count1, d2, e, hc1, hc2, hc3, hc4, hc5, hc6, ho, hc, _, hdata⟩
  · omega
  · rw [hsize, Nat.zero_add, hc0, Nat.sub_zero] at hc6
    rcases hc6 with ⟨hl, hcn⟩ | ⟨hl, hfull, _⟩
    swap
    · omega
    subst hcn
    rw [List.nil_append] at hc1 hc2 hdata
    rw [Nat.zero_add] at e hdata
    have hS1 : ∃ S1 : FS, S1 = { s with
          FAT := FAT1
          Root := setAt s.Root idx
            { s.Root idx with firstDataBlockIndex := first1, fileSize := count1 }
          fdTable := setAt s.fdTable fd
            { fileIndex := (idx : Int), fileOffset := ((count1 : Nat) : Int) }
          disk := d2 } := ⟨_, rfl⟩
    obtain ⟨S1, hS1⟩ := hS1
    rw [← hS1] at e
    have hS1fd : S1.fdTable fd = { fileIndex := (idx : Int), fileOffset := ((count1 : Nat) : Int) } := by
      rw [hS1]; exact setAt_same _ _ _
    have hS1root : S1.Root idx
        = { s.Root idx with firstDataBlockIndex := first1, fileSize := count1 } := by
      rw [hS1]; exact setAt_same _ _ _
    have hS1st : S1.diskStatus = 1 := by rw [hS1]; exact hmt.1
    have hbad1 : ¬ badHandle S1 (fd : Int) := badHandle_open hS1st hlt hS1fd
    have hS2 : ∃ S2 : FS, S2 = { S1 with
          fdTable := setAt S1.fdTable fd { S1.fdTable fd with fileOffset := toInt 0 } } :=
      ⟨_, rfl⟩
    obtain ⟨S2, hS2⟩ := hS2
    have hS2fd : S2.fdTable fd = { fileIndex := (idx : Int), fileOffset := ((0 : Nat) : Int) } := by
      rw [hS2]
      simp only [setAt_same, hS1fd]
      rfl
    have hS2chain : IsChain S2.FAT (S2.Root idx).firstDataBlockIndex new := by
      rw [hS2]
      simp only [hS1root]
      rw [hS1]
      exact hc1
    have hS2size : (S2.Root idx).fileSize = count1 := by
      rw [hS2]
      simp only [hS1root]
    have hS2disk : S2.disk = d2 := by rw [hS2, hS1]
    have hS2ds : S2.Superblock = s.Superblock := by rw [hS2, hS1]
    refine ⟨S1, e, ?_, ⟨new, ⟨?_, ?_, ?_⟩, hl⟩, S2, ?_, ?_⟩
    · unfold fs_stat
      rw [if_neg hbad1]
      simp only [Int.toNat_ofNat, hS1fd, hS1root]
      exact toInt_of_lt (by omega)
    · rw [hS1root, hS1]; exact hc1
    · rw [hS1root]; exact hl
    · rw [hS1]; exact hc3
    · unfold fs_lseek
      simp only [Int.toNat_ofNat, hbad1, false_or]
      rw [if_neg (by omega), hS2]
    · have hrange : ∀ c ∈ new, c + S2.Superblock.dataBlockStartIndex < S2.disk.count := by
        intro c hcm
        rw [hS2disk, hS2ds, hc]
        exact hmt.block_lt (hc3 c hcm).2
      obtain ⟨out, er, h1, _⟩ :=
        fs_read_chain out0 m fuel (by rw [hS2]; exact hS1st) hlt hS2fd hS2chain
          (by rw [hS2size]; exact hl) (by rw [hS2disk]; exact ho) hrange
          (by
            have := chain_length_le hc1.nodup hc3
            omega)
          (Nat.zero_le _) (by rw [hS2size]; omega) (by omega)
      simp only [hS2size, Nat.sub_zero, Nat.zero_add] at er h1
      rw [Nat.min_eq_right hm] at er h1
      refine ⟨_, out, er, ?_⟩
      intro p hp
      rw [h1 p hp, hS2disk, hS2ds, hdata p ?_, if_pos ⟨Nat.zero_le _, hp⟩, Nat.sub_zero]
      have := (ceilBlocks_le_iff count1 new.length).mp (by omega)
      rw [Nat.mul_comm]
      omega

theorem fs_write_empty_file_read_back_witness :
    WellFormed emptyFileFS ∧ OpenHandle emptyFileFS 0 0 0
    ∧ (emptyFileFS.Root 0).fileSize = 0 ∧ (emptyFileFS.Root 0).firstDataBlockIndex = FAT_EOC
    ∧ ceilBlocks 9000 ≤ freeCount emptyFileFS.FAT emptyFileFS.Superblock.numberOfDataBlocks
    ∧ ∃ s1, fs_write 4 emptyFileFS ((0 : Nat) : Int) (fun i => i % 251) 9000
          = some (s1, ((9000 : Nat) : Int))
      ∧ fs_stat s1 ((0 : Nat) : Int) = ((9000 : Nat) : Int)
      ∧ (∃ cs, FileChain s1 0 cs ∧ cs.length = ceilBlocks 9000)
      ∧ ∃ s2, fs_lseek s1 ((0 : Nat) : Int) 0 = (s2, 0)
        ∧ ∃ s3 out, fs_read 4 s2 ((0 : Nat) : Int) (fun _ => 0) 10000
              = some (s3, out, ((9000 : Nat) : Int))
          ∧ ∀ p, p < 9000 → out p = (fun i => i % 251) p :=
  ⟨emptyFileFS_wellFormed, emptyFileFS_handle, rfl, rfl, by decide,
    fs_write_empty_file_read_back emptyFileFS 0 0 (fun i => i % 251) (fun _ => 0) 9000 10000 4
      emptyFileFS_wellFormed emptyFileFS_handle rfl rfl (by decide) (by decide) (by decide)
      (by decide) (by decide)⟩

/-! ## Writing on a full disk -/

theorem twoFreeFS_wellFormed : WellFormed twoFreeFS :=
  exampleFS_wellFormed _ _ _ _ (by decide) (by decide)
    (fun _ => ⟨[], IsChain.nil, by decide, by simp⟩)

theorem twoFreeFS_handle : OpenHandle twoFreeFS 0 0 (twoFreeFS.Root 0).fileSize :=
  ⟨by decide, rfl, by decide, by decide⟩

theorem twoFreeFS_chain : FileChain twoFreeFS 0 [] :=
  ⟨IsChain.nil, by decide, by simp⟩

/-- C4 (disk-full partial write).  In a mounted, well-formed state, for a
handle `fd` whose cursor is at the end of a file with chain `cs`, with
`B = ceil(fileSize / 4096)`, exactly `k` zero FAT entries in
`[1, numberOfDataBlocks)` and a count `0 < n < 2^42` (so that the number of
missing blocks fits the `int numberOfNewBlocks`) that needs more than `k` new
blocks: `fs_write` returns
`(B * 4096 - fileSize) + k * 4096`, the file size becomes `(B + k) * 4096`,
no zero FAT entry is left in `[1, numberOfDataBlocks)`, and a following
`fs_write` of one byte returns 0. -/
theorem fs_write_disk_full (s : FS) (fd idx : Nat) (cs : List Nat) (buf buf2 : Nat → Nat)
    (n k fuel : Nat)
    (hwf : WellFormed s) (hh : OpenHandle s fd idx (s.Root idx).fileSize)
    (hfc : FileChain s idx cs)
    (hk : freeCount s.FAT s.Superblock.numberOfDataBlocks = k)
    (hn : 0 < n) (hnlt : n < 4398046511104)
    (hneed : k < ceilBlocks ((s.Root idx).fileSize + n) - ceilBlocks (s.Root idx).fileSize)
    (hfuel : s.Superblock.numberOfDataBlocks ≤ fuel) :
    ∃ s1, fs_write fuel s (fd : Int) buf n
        = some (s1, ((ceilBlocks (s.Root idx).fileSize * BLOCK_SIZE - (s.Root idx).fileSize
                      + k * BLOCK_SIZE : Nat) : Int))
      ∧ (s1.Root idx).fileSize = (ceilBlocks (s.Root idx).fileSize + k) * BLOCK_SIZE
      ∧ (∀ i, 1 ≤ i → i < s.Superblock.numberOfDataBlocks → s1.FAT i ≠ 0)
      ∧ ∃ s2, fs_write fuel s1 (fd : Int) buf2 1 = some (s2, 0) := by
  obtain ⟨hlt, hfd, _, _⟩ := hh
  have hmt := hwf.1
  have hB : (s.Root idx).fileSize ≤ ceilBlocks (s.Root idx).fileSize * BLOCK_SIZE :=
    (ceilBlocks_le_iff _ _).mp (le_refl _)
  have hstep : ∀ b : Nat, ceilBlocks (b * BLOCK_SIZE) < ceilBlocks (b * BLOCK_SIZE + 1) := by
    intro b
    unfold ceilBlocks
    simp only [BLOCK_SIZE]
    omega
  rcases fs_write_grow buf n fuel hmt hlt hfd hfc (le_refl _) hn hnlt hfuel (by omega) with
    ⟨h1, h2, h3⟩ | ⟨new, FAT1, first1, count1, d2, e, hc1, hc2, hc3, hc4, hc5, hc6, ho, hc, _, _⟩
  · -- an empty file on a full disk: the state does not change
    subst h1
    have hk0 : k = 0 := by omega
    have hB0 : ceilBlocks (s.Root idx).fileSize = 0 := by rw [← hfc.2.1]; rfl
    have hfs0 : (s.Root idx).fileSize = 0 := by
      have := (ceilBlocks_le_iff (s.Root idx).fileSize 0).mp (by omega)
      omega
    refine ⟨s, ?_, ?_, (freeCount_zero_iff _ _).mp h2, s, ?_⟩
    · rw [h3, hk0, hB0, hfs0]; rfl
    · rw [hk0, hB0, hfs0]
      rfl
    · rcases fs_write_grow buf2 1 fuel hmt hlt hfd hfc (le_refl _) (by omega) (by omega) hfuel
          (by rw [hfs0]; exact hstep 0) with
        ⟨_, _, h3⟩ | ⟨new, _, _, _, _, _, _, hc2, _, _, hc5, _⟩
      · exact h3
      · exfalso
        apply hc2
        have : new.length = 0 := by omega
        simpa using this
  · -- the chain grows by every free entry of the disk
    have hlen : new.length = k ∧ freeCount FAT1 s.Superblock.numberOfDataBlocks = 0
        ∧ count1 = ceilBlocks (s.Root idx).fileSize * BLOCK_SIZE - (s.Root idx).fileSize
            + k * BLOCK_SIZE := by
      rcases hc6 with ⟨hl, _⟩ | ⟨_, hfull, hcn⟩
      · omega
      · have : new.length = k := by omega
        rw [this] at hcn
        exact ⟨this, hfull, hcn⟩
    obtain ⟨hl, hfull, hcn⟩ := hlen
    have hsz : (s.Root idx).fileSize + count1
        = (ceilBlocks (s.Root idx).fileSize + k) * BLOCK_SIZE := by
      rw [hcn]
      simp only [BLOCK_SIZE] at hB ⊢
      omega
    have hS1 : ∃ S1 : FS, S1 = { s with
          FAT := FAT1
          Root := setAt s.Root idx
            { s.Root idx with
              firstDataBlockIndex := first1
              fileSize := (s.Root idx).fileSize + count1 }
          fdTable := setAt s.fdTable fd
            { fileIndex := (idx : Int)
              fileOffset := (((s.Root idx).fileSize + count1 : Nat) : Int) }
          disk := d2 } := ⟨_, rfl⟩
    obtain ⟨S1, hS1⟩ := hS1
    rw [← hS1] at e
    have hS1root : S1.Root idx
        = { s.Root idx with
            firstDataBlockIndex := first1
            fileSize := (s.Root idx).fileSize + count1 } := by
      rw [hS1]; exact setAt_same _ _ _
    have hS1size : (S1.Root idx).fileSize
        = (ceilBlocks (s.Root idx).fileSize + k) * BLOCK_SIZE := by
      rw [hS1root]; exact hsz
    have hS1fd : S1.fdTable fd
        = { fileIndex := (idx : Int), fileOffset := (((S1.Root idx).fileSize : Nat) : Int) } := by
      rw [hS1root, hS1]; exact setAt_same _ _ _
    have hS1sb : S1.Superblock = s.Superblock := by rw [hS1]
    have hS1fat : S1.FAT = FAT1 := by rw [hS1]
    have h0 : (0 : Nat) ∉ cs ++ new := by
      intro hm
      rcases List.mem_append.mp hm with hm | hm
      · have := hfc.2.2 0 hm; omega
      · have := hc3 0 hm; omega
    have hS1mt : Mounted S1 := by
      obtain ⟨m1, _, ⟨l1, l2, l3, l4⟩, m4, m5⟩ := hmt
      refine ⟨by rw [hS1]; exact m1, by rw [hS1]; exact ho, ⟨?_, ?_, ?_, ?_⟩, ?_, ?_⟩
      · rw [hS1sb]; exact l1
      · rw [hS1sb]; exact l2
      · rw [hS1sb]; exact l3
      · rw [hS1sb, l4, hS1, hc]
      · rw [hS1sb]; exact m4
      · rw [hS1fat, hc4 0 h0]; exact m5
    have hS1chain : FileChain S1 idx (cs ++ new) := by
      refine ⟨by rw [hS1fat, hS1root]; exact hc1, ?_, ?_⟩
      · rw [hS1size, ceilBlocks_mul, List.length_append, hfc.2.1, hl]
      · intro c hcm
        rw [hS1sb]
        rcases List.mem_append.mp hcm with hcm | hcm
        · exact hfc.2.2 c hcm
        · exact hc3 c hcm
    refine ⟨S1, ?_, hS1size, ?_, ?_⟩
    · rw [e, hcn]
    · rw [hS1fat]; exact (freeCount_zero_iff _ _).mp hfull
    · rcases fs_write_grow buf2 1 fuel hS1mt hlt hS1fd hS1chain (le_refl _) (by omega) (by omega)
          (by rw [hS1sb]; exact hfuel) (by rw [hS1size]; exact hstep _) with
        ⟨_, _, h3⟩ | ⟨new2, FAT2, first2, count2, d3, e2, _, _, _, _, hd5, hd6, _⟩
      · exact ⟨_, h3⟩
      · rw [hS1fat, hS1sb, hfull] at hd5
        have hnew2 : new2.length = 0 := by omega
        have hcount2 : count2 = 0 := by
          rcases hd6 with ⟨hl2, _⟩ | ⟨_, _, hcn2⟩
          · have := hstep (ceilBlocks (s.Root idx).fileSize + k)
            rw [hS1size] at hl2
            omega
          · rw [hcn2, hnew2, hS1size, ceilBlocks_mul]
            simp
        rw [hcount2] at e2
        exact ⟨_, e2⟩

theorem fs_write_disk_full_witness :
    WellFormed twoFreeFS ∧ OpenHandle twoFreeFS 0 0 (twoFreeFS.Root 0).fileSize
    ∧ FileChain twoFreeFS 0 []
    ∧ freeCount twoFreeFS.FAT twoFreeFS.Superblock.numberOfDataBlocks = 2
    ∧ 2 < ceilBlocks ((twoFreeFS.Root 0).fileSize + 12288) - ceilBlocks (twoFreeFS.Root 0).fileSize
    ∧ ∃ s1, fs_write 3 twoFreeFS ((0 : Nat) : Int) (fun i => i % 251) 12288
        = some (s1, ((ceilBlocks (twoFreeFS.Root 0).fileSize * BLOCK_SIZE
                      - (twoFreeFS.Root 0).fileSize + 2 * BLOCK_SIZE : Nat) : Int))
      ∧ (s1.Root 0).fileSize = (ceilBlocks (twoFreeFS.Root 0).fileSize + 2) * BLOCK_SIZE
      ∧ (∀ i, 1 ≤ i → i < twoFreeFS.Superblock.numberOfDataBlocks → s1.FAT i ≠ 0)
      ∧ ∃ s2, fs_write 3 s1 ((0 : Nat) : Int) (fun _ => 1) 1 = some (s2, 0) :=
  ⟨twoFreeFS_wellFormed, twoFreeFS_handle, twoFreeFS_chain, by decide, by decide,
    fs_write_disk_full twoFreeFS 0 0 [] (fun i => i % 251) (fun _ => 1) 12288 2 3
      twoFreeFS_wellFormed twoFreeFS_handle twoFreeFS_chain (by decide) (by decide) (by decide)
      (by decide) (by decide)⟩

/-! ## Writes that miss the file size -/

theorem fiveByteFS_wellFormed : WellFormed fiveByteFS :=
  exampleFS_wellFormed _ _ _ _ (by decide) (by decide)
    (fun _ => ⟨[1], IsChain.cons (by decide) IsChain.nil, by decide,
      fun c hc => by rw [List.mem_singleton.mp hc]; decide⟩)

theorem fullDiskFS_wellFormed : WellFormed fullDiskFS :=
  exampleFS_wellFormed _ _ _ _ (by decide) (by decide)
    (fun _ => ⟨[1], IsChain.cons (by decide) IsChain.nil, by decide,
      fun c hc => by rw [List.mem_singleton.mp hc]; decide⟩)

/-- C1 (write-then-read), evaluated where it fails.  `fiveByteFS` is mounted
and well formed, handle 0 is open on a 5-byte file with its cursor at 5, and
two FAT entries are free.  A write of 10 bytes stays inside the one block of
the file, so no block is allocated: the call returns 10 and moves the cursor
to 15, but `fileSize` is still 5, not `max 5 (5 + 10)`; `fs_lseek(fd, 5)`
then returns 0 and `fs_read` of 10 bytes returns 0 and copies nothing. -/
theorem fs_write_inside_last_block_keeps_fileSize :
    WellFormed fiveByteFS ∧ OpenHandle fiveByteFS 0 0 5
    ∧ freeCount fiveByteFS.FAT fiveByteFS.Superblock.numberOfDataBlocks = 2
    ∧ (fs_write 4 fiveByteFS 0 (fun i => i + 1) 10).map
        (fun r => (r.2, (r.1.Root 0).fileSize, (r.1.fdTable 0).fileOffset))
        = some (10, 5, 15)
    ∧ (fs_write 4 fiveByteFS 0 (fun i => i + 1) 10).bind
        (fun r => (fs_read 4 (fs_lseek r.1 0 5).1 0 (fun _ => 0) 10).map
          (fun q => ((fs_lseek r.1 0 5).2, q.2.2, (List.range 10).map q.2.1)))
        = some (0, 0, [0, 0, 0, 0, 0, 0, 0, 0, 0, 0]) := by
  refine ⟨fiveByteFS_wellFormed, ⟨by decide, rfl, by decide, by decide⟩, by decide, ?_, ?_⟩
  · set_option maxRecDepth 100000 in decide
  · set_option maxRecDepth 100000 in decide

/-- C5 (a write never shrinks a file), evaluated where it fails.
`fullDiskFS` is mounted and well formed, its disk is full, and handle 0 is
open on a 4096-byte file with its cursor at 4000.  A write of 4096 bytes needs
a second block; none is free, `count` becomes
`(1 * 4096 - 4096) + 0 * 4096 = 0` and `fileSize` becomes
`fileOffset + count = 4000`: the call returns 0 and the file has shrunk from
4096 to 4000 bytes. -/
theorem fs_write_on_full_disk_shrinks_file :
    WellFormed fullDiskFS ∧ OpenHandle fullDiskFS 0 0 4000
    ∧ (fullDiskFS.Root 0).fileSize = 4096
    ∧ freeCount fullDiskFS.FAT fullDiskFS.Superblock.numberOfDataBlocks = 0
    ∧ (fs_write 2 fullDiskFS 0 (fun i => i + 1) 4096).map
        (fun r => (r.2, (r.1.Root 0).fileSize))
        = some (0, 4000) := by
  refine ⟨fullDiskFS_wellFormed, ⟨by decide, rfl, by decide, by decide⟩, rfl, by decide, ?_⟩
  set_option maxRecDepth 100000 in decide

/-! ## Names -/

/-- C9 (name length limit), evaluated where it fails.  On a freshly formatted,
mounted filesystem `fs_create` of the 16-byte name `"abcdefghijklmnop"`
passes the test `strlen(filename) > FS_FILENAME_LEN`, returns 0 and fills the
whole 16-byte field of root slot 0 with the name, leaving no NUL in it; a
name of 17 bytes is rejected. -/
theorem fs_create_accepts_16_byte_name :
    strlen name16 = 16
    ∧ (fs_create (freshFS 4) name16).2 = 0
    ∧ ((fs_create (freshFS 4) name16).1.Root 0).filename = name16
    ∧ ((freshFS 4).Root 0).filename = List.replicate 16 0
    ∧ (fs_create (freshFS 4) (name16 ++ [113])).2 = -1 := by
  refine ⟨by decide, ?_, ?_, rfl, ?_⟩
  · set_option maxRecDepth 100000 in decide
  · set_option maxRecDepth 100000 in decide
  · set_option maxRecDepth 100000 in decide

/-- C10 (missing file is an error), evaluated where it fails.  On a freshly
formatted, mounted filesystem no root slot is in use, yet for the empty name
`strcmp` matches the free slot 0: `fs_delete("")` returns 0 and sets FAT
entry 0 to 0, and `fs_open("")` returns handle 0 and binds it to slot 0. -/
theorem fs_delete_and_fs_open_match_free_slot :
    (∀ i, i < FS_FILE_MAX_COUNT → ¬ slotUsed ((freshFS 4).Root i))
    ∧ (freshFS 4).FAT 0 = FAT_EOC
    ∧ (fs_delete 4 (freshFS 4) []).map (fun r => (r.2, r.1.FAT 0)) = some (0, 0)
    ∧ (fs_open (freshFS 4) []).2 = 0
    ∧ ((freshFS 4).fdTable 0).fileIndex = -1
    ∧ ((fs_open (freshFS 4) []).1.fdTable 0).fileIndex = 0 := by
  refine ⟨?_, rfl, ?_, ?_, rfl, ?_⟩
  · intro i _
    by_cases hi : i = 0
    · subst hi; decide
    · have hz : (freshFS 4).Root i = zeroEntry := by
        simp only [freshFS, exampleFS, if_neg hi]
      rw [hz]; decide
  · set_option maxRecDepth 100000 in decide
  · set_option maxRecDepth 100000 in decide
  · set_option maxRecDepth 100000 in decide

/-! ## Creating a file -/

theorem streq_iff (e : rootEntry) (name : List Nat) :
    streq (nameBytes e) name = true ↔ slotHolds e name := by
  simp [streq, slotHolds]

theorem cstr_nameBytes_of_free {e : rootEntry} (hlen : e.filename.length = FS_FILENAME_LEN)
    (hfree : ¬ slotUsed e) : cstr (nameBytes e) = [] := by
  unfold slotUsed at hfree
  cases hf : e.filename with
  | nil => rw [hf] at hlen; simp at hlen
  | cons c cs =>
    rw [hf] at hfree
    simp only [List.getD_cons_zero, ne_eq, not_not] at hfree
    subst hfree
    simp [cstr, nameBytes, hf]

theorem not_slotHolds_of_free {e : rootEntry} {name : List Nat}
    (hlen : e.filename.length = FS_FILENAME_LEN) (hfree : ¬ slotUsed e) (h1 : 1 ≤ strlen name) :
    ¬ slotHolds e name := by
  intro h
  unfold slotHolds at h
  rw [cstr_nameBytes_of_free hlen hfree] at h
  unfold strlen at h1
  rw [← h] at h1
  simp at h1

theorem fs_create_scan_none (Root : Nat → rootEntry) (name : List Nat) (n : Nat) :
    ∀ i free, fs_create_scan Root name n i free = none
      ↔ ∃ j, i ≤ j ∧ j < i + n ∧ slotHolds (Root j) name := by
  induction n with
  | zero =>
    intro i free
    simp only [fs_create_scan]
    constructor
    · intro h; cases h
    · rintro ⟨j, h1, h2, _⟩
      omega
  | succ n ih =>
    intro i free
    by_cases hm : streq (nameBytes (Root i)) name = true
    · simp only [fs_create_scan, if_pos hm, true_iff]
      exact ⟨i, le_refl _, by omega, (streq_iff _ _).mp hm⟩
    · simp only [fs_create_scan, if_neg hm]
      rw [ih]
      constructor
      · rintro ⟨j, h1, h2, h3⟩
        exact ⟨j, by omega, by omega, h3⟩
      · rintro ⟨j, h1, h2, h3⟩
        have hji : j ≠ i := by
          intro e; subst e
          exact hm ((streq_iff _ _).mpr h3)
        exact ⟨j, by omega, by omega, h3⟩

theorem fs_create_scan_kept (Root : Nat → rootEntry) (name : List Nat) (n : Nat) :
    ∀ i (free r : Int), free ≠ -1 → fs_create_scan Root name n i free = some r → r = free := by
  induction n with
  | zero =>
    intro i free r _ h
    simp only [fs_create_scan, Option.some.injEq] at h
    exact h.symm
  | succ n ih =>
    intro i free r hf h
    by_cases hm : streq (nameBytes (Root i)) name = true
    · simp [fs_create_scan, hm] at h
    · simp only [fs_create_scan, if_neg hm] at h
      rw [if_neg (fun hc => hf hc.2)] at h
      exact ih _ _ _ hf h

theorem fs_create_scan_first (Root : Nat → rootEntry) (name : List Nat) (n : Nat) :
    ∀ i (r : Int), fs_create_scan Root name n i (-1) = some r →
      (r = -1 ∧ ∀ j, i ≤ j → j < i + n → slotUsed (Root j))
      ∨ ∃ k : Nat, r = (k : Int) ∧ i ≤ k ∧ k < i + n ∧ ¬ slotUsed (Root k)
          ∧ ∀ j, i ≤ j → j < k → slotUsed (Root j) := by
  induction n with
  | zero =>
    intro i r h
    simp only [fs_create_scan, Option.some.injEq] at h
    left
    refine ⟨h.symm, ?_⟩
    intro j h1 h2
    omega
  | succ n ih =>
    intro i r h
    by_cases hm : streq (nameBytes (Root i)) name = true
    · simp [fs_create_scan, hm] at h
    · by_cases hu : slotUsed (Root i)
      · have hz : ¬ ((Root i).filename.getD 0 0 = 0) := hu
        simp only [fs_create_scan, if_neg hm, hz, false_and, if_false] at h
        rcases ih _ _ h with ⟨h1, h2⟩ | ⟨k, h1, h2, h3, h4, h5⟩
        · left
          refine ⟨h1, ?_⟩
          intro j hj1 hj2
          by_cases hji : j = i
          · subst hji; exact hu
          · exact h2 j (by omega) (by omega)
        · right
          refine ⟨k, h1, by omega, by omega, h4, ?_⟩
          intro j hj1 hj2
          by_cases hji : j = i
          · subst hji; exact hu
          · exact h5 j (by omega) hj2
      · have hz : (Root i).filename.getD 0 0 = 0 := by
          unfold slotUsed at hu; simpa using hu
        simp only [fs_create_scan, if_neg hm, hz, true_and, if_true] at h
        have hr := fs_create_scan_kept Root name n (i + 1) (i : Int) r (by omega) h
        right
        refine ⟨i, hr, le_refl _, by omega, hu, ?_⟩
        intro j h1 h2
        omega

theorem cstr_cstr (l : List Nat) : cstr (cstr l) = cstr l := by
  unfold cstr
  induction l with
  | nil => rfl
  | cons a l ih =>
    by_cases h : (a != 0) = true
    · simp only [List.takeWhile_cons, h, if_true]
      rw [ih]
    · simp [List.takeWhile_cons, h]

theorem cstr_append_zero (l rest : List Nat) : cstr (cstr l ++ 0 :: rest) = cstr l := by
  unfold cstr
  induction l with
  | nil => simp
  | cons a l ih =>
    by_cases h : (a != 0) = true
    · simp only [List.takeWhile_cons, h, if_true, List.cons_append]
      rw [ih]
    · simp [List.takeWhile_cons, h]

theorem slotHolds_after_strcpy (e : rootEntry) (name : List Nat) (fsz first : Nat)
    (h15 : strlen name ≤ 15) :
    slotHolds
      { e with
        filename := strcpyField e.filename name
        fileSize := fsz
        firstDataBlockIndex := first } name := by
  unfold slotHolds nameBytes strcpyField
  simp only
  unfold strlen at h15
  have htake : (cstr name ++ [0] ++ List.drop (strlen name + 1) e.filename).take FS_FILENAME_LEN
      = cstr name ++ 0 :: (List.drop (strlen name + 1) e.filename).take
          (FS_FILENAME_LEN - (cstr name).length - 1) := by
    rw [List.append_assoc, List.take_append_eq_append_take,
      List.take_of_length_le (by simp only [FS_FILENAME_LEN]; omega)]
    congr 1
    have : FS_FILENAME_LEN - (cstr name).length
        = (FS_FILENAME_LEN - (cstr name).length - 1) + 1 := by
      simp only [FS_FILENAME_LEN]; omega
    rw [this]
    simp
  rw [htake]
  simp only [List.append_assoc, List.cons_append]
  exact cstr_append_zero _ _

theorem freshFS_typed (dbc : Nat) :
    ∀ i, i < FS_FILE_MAX_COUNT → ((freshFS dbc).Root i).filename.length = FS_FILENAME_LEN := by
  intro i _
  have hz : (freshFS dbc).Root i = zeroEntry := by
    simp only [freshFS, exampleFS, ite_self]
  rw [hz]; decide

/-- C8 (create).  In a mounted state whose root entries have 16-byte filename
fields, for a name of 1 to 15 bytes: `fs_create` returns 0 if and only if some
root slot is free and no used slot holds the name; when it returns 0, the
lowest-indexed free slot `i` now holds the name with `fileSize = 0` and
`firstDataBlockIndex = 0xFFFF`, and every other root slot, the FAT and the
handle table are unchanged; otherwise it returns -1 and the state is
unchanged. -/
theorem fs_create_spec (s : FS) (name : List Nat)
    (hst : s.diskStatus = 1)
    (hty : ∀ i, i < FS_FILE_MAX_COUNT → (s.Root i).filename.length = FS_FILENAME_LEN)
    (h1 : 1 ≤ strlen name) (h15 : strlen name ≤ 15) :
    ((fs_create s name).2 = 0 ↔
        (∃ i, i < FS_FILE_MAX_COUNT ∧ ¬ slotUsed (s.Root i))
        ∧ ∀ i, i < FS_FILE_MAX_COUNT → slotUsed (s.Root i) → ¬ slotHolds (s.Root i) name)
    ∧ ((fs_create s name).2 = 0 →
        ∃ i, i < FS_FILE_MAX_COUNT ∧ ¬ slotUsed (s.Root i)
          ∧ (∀ j, j < i → slotUsed (s.Root j))
          ∧ slotHolds ((fs_create s name).1.Root i) name
          ∧ ((fs_create s name).1.Root i).fileSize = 0
          ∧ ((fs_create s name).1.Root i).firstDataBlockIndex = FAT_EOC
          ∧ (∀ j, j ≠ i → (fs_create s name).1.Root j = s.Root j)
          ∧ (fs_create s name).1.FAT = s.FAT
          ∧ (fs_create s name).1.fdTable = s.fdTable)
    ∧ ((fs_create s name).2 ≠ 0 → (fs_create s name).2 = -1 ∧ (fs_create s name).1 = s) := by
  have hlen : ¬ (strlen name > FS_FILENAME_LEN ∨ s.diskStatus ≠ 1) := by
    simp only [FS_FILENAME_LEN]
    intro h
    rcases h with h | h
    · omega
    · exact h hst
  cases hscan : fs_create_scan s.Root name FS_FILE_MAX_COUNT 0 (-1) with
  | none =>
    have e : fs_create s name = (s, -1) := by
      unfold fs_create
      rw [if_neg hlen, hscan]
    obtain ⟨j, _, hj2, hj3⟩ := (fs_create_scan_none s.Root name _ 0 (-1)).mp hscan
    have hjlt : j < FS_FILE_MAX_COUNT := by omega
    have hju : slotUsed (s.Root j) := by
      by_contra hfree
      exact not_slotHolds_of_free (hty j hjlt) hfree h1 hj3
    rw [e]
    refine ⟨?_, ?_, ?_⟩
    · constructor
      · intro h; simp at h
      · rintro ⟨_, h⟩
        exact absurd hj3 (h j hjlt hju)
    · intro h; simp at h
    · intro _; exact ⟨rfl, rfl⟩
  | some r =>
    have hno : ∀ j, j < FS_FILE_MAX_COUNT → ¬ slotHolds (s.Root j) name := by
      intro j hj hh
      have : fs_create_scan s.Root name FS_FILE_MAX_COUNT 0 (-1) = none :=
        (fs_create_scan_none s.Root name _ 0 (-1)).mpr ⟨j, Nat.zero_le _, by omega, hh⟩
      rw [this] at hscan
      cases hscan
    rcases fs_create_scan_first s.Root name _ 0 r hscan with ⟨hr, hall⟩ | ⟨k, hr, _, hk2, hk3, hk4⟩
    · have e : fs_create s name = (s, -1) := by
        unfold fs_create
        rw [if_neg hlen, hscan]
        simp only [hr, if_true]
      rw [e]
      refine ⟨?_, ?_, ?_⟩
      · constructor
        · intro h; simp at h
        · rintro ⟨⟨i, hi, hfree⟩, _⟩
          exact absurd (hall i (Nat.zero_le _) (by omega)) hfree
      · intro h; simp at h
      · intro _; exact ⟨rfl, rfl⟩
    · have hklt : k < FS_FILE_MAX_COUNT := by omega
      have hrne : r ≠ -1 := by omega
      have e : fs_create s name
          = ({ s with
                Root := setAt s.Root k
                  { s.Root k with
                    filename := strcpyField (s.Root k).filename name
                    fileSize := 0
                    firstDataBlockIndex := FAT_EOC } }, 0) := by
        unfold fs_create
        rw [if_neg hlen, hscan]
        have hk1 : ¬ ((k : Int) = -1) := by omega
        simp only [hr, Int.toNat_ofNat]
        rw [if_neg hk1]
      rw [e]
      refine ⟨?_, ?_, ?_⟩
      · constructor
        · intro _
          exact ⟨⟨k, hklt, hk3⟩, fun i hi _ => hno i hi⟩
        · intro _; rfl
      · intro _
        refine ⟨k, hklt, hk3, fun j hj => hk4 j (Nat.zero_le _) hj, ?_, ?_, ?_, ?_, rfl, rfl⟩
        · simp only [setAt_same]
          exact slotHolds_after_strcpy _ _ _ _ h15
        · simp only [setAt_same]
        · simp only [setAt_same]
        · intro j hj
          simp only
          rw [setAt_other _ _ hj]
      · intro h; simp at h

theorem fs_create_spec_witness :
    (freshFS 4).diskStatus = 1
    ∧ (∀ i, i < FS_FILE_MAX_COUNT → ((freshFS 4).Root i).filename.length = FS_FILENAME_LEN)
    ∧ 1 ≤ strlen [102, 111, 111] ∧ strlen [102, 111, 111] ≤ 15
    ∧ (((fs_create (freshFS 4) [102, 111, 111]).2 = 0 ↔
        (∃ i, i < FS_FILE_MAX_COUNT ∧ ¬ slotUsed ((freshFS 4).Root i))
        ∧ ∀ i, i < FS_FILE_MAX_COUNT → slotUsed ((freshFS 4).Root i) →
            ¬ slotHolds ((freshFS 4).Root i) [102, 111, 111])
      ∧ ((fs_create (freshFS 4) [102, 111, 111]).2 = 0 →
        ∃ i, i < FS_FILE_MAX_COUNT ∧ ¬ slotUsed ((freshFS 4).Root i)
          ∧ (∀ j, j < i → slotUsed ((freshFS 4).Root j))
          ∧ slotHolds ((fs_create (freshFS 4) [102, 111, 111]).1.Root i) [102, 111, 111]
          ∧ ((fs_create (freshFS 4) [102, 111, 111]).1.Root i).fileSize = 0
          ∧ ((fs_create (freshFS 4) [102, 111, 111]).1.Root i).firstDataBlockIndex = FAT_EOC
          ∧ (∀ j, j ≠ i → (fs_create (freshFS 4) [102, 111, 111]).1.Root j = (freshFS 4).Root j)
          ∧ (fs_create (freshFS 4) [102, 111, 111]).1.FAT = (freshFS 4).FAT
          ∧ (fs_create (freshFS 4) [102, 111, 111]).1.fdTable = (freshFS 4).fdTable)
      ∧ ((fs_create (freshFS 4) [102, 111, 111]).2 ≠ 0 →
          (fs_create (freshFS 4) [102, 111, 111]).2 = -1
          ∧ (fs_create (freshFS 4) [102, 111, 111]).1 = freshFS 4)) :=
  ⟨rfl, freshFS_typed 4, by decide, by decide,
    fs_create_spec (freshFS 4) [102, 111, 111] rfl (freshFS_typed 4) (by decide) (by decide)⟩

/-! ## Byte layout round trips -/

theorem block_disk_open_ok {d : BlockDisk} {img : Option BlockDisk}
    (h : (block_disk_open d img).2 ≠ -1) : (block_disk_open d img).1.opened = true := by
  unfold block_disk_open at h ⊢
  split
  · rename_i ho; simp [ho] at h
  · cases img with
    | none => simp at h
    | some i => rfl

theorem fs_mount_success (s : FS) (img : Option BlockDisk) (h : (fs_mount s img).2 = 0) :
    (fs_mount s img).1.diskStatus = 1
    ∧ (fs_mount s img).1.disk.opened = true
    ∧ (fs_mount s img).1.Superblock.signature = expectedSignature
    ∧ ((fs_mount s img).1.Superblock.numberOfBlocks : Int) = ((fs_mount s img).1.disk.count : Int)
    ∧ (fs_mount s img).1.FAT 0 = FAT_EOC
    ∧ ∀ i, i < FS_OPEN_MAX_COUNT → ((fs_mount s img).1.fdTable i).fileIndex = -1 := by
  unfold fs_mount at h ⊢
  by_cases h1 : s.diskStatus = 1
  · simp [h1] at h
  · rw [if_neg h1] at h ⊢
    by_cases h2 : (block_disk_open s.disk img).2 = -1
    · simp [h2] at h
    · have ho := block_disk_open_ok h2
      simp only [if_neg h2] at h ⊢
      split_ifs at h ⊢ with h3 h4 h5
      · simp at h
      · simp at h
      · simp at h
      · refine ⟨rfl, ho, ?_, ?_, ?_, ?_⟩
        · simpa using h3
        · simp only [block_disk_count, ho, if_true] at h4
          simpa using h4
        · simpa using h5
        · intro i hi
          simp only [if_pos hi]

/-! ## Looking up a name that no slot holds -/

theorem findFile_none (Root : Nat → rootEntry) (name : List Nat) (n : Nat) :
    ∀ i, (∀ j, i ≤ j → j < i + n → ¬ slotHolds (Root j) name) → findFile Root name n i = -1 := by
  induction n with
  | zero => intro i _; rfl
  | succ n ih =>
    intro i h
    have hi : ¬ streq (nameBytes (Root i)) name = true :=
      fun hm => h i (le_refl _) (by omega) ((streq_iff _ _).mp hm)
    simp only [findFile, if_neg hi]
    exact ih (i + 1) (fun j h1 h2 => h j (by omega) (by omega))

theorem fs_delete_not_held (fuel : Nat) (s : FS) (name : List Nat)
    (h : ∀ i, i < FS_FILE_MAX_COUNT → ¬ slotHolds (s.Root i) name) :
    fs_delete fuel s name = some (s, -1) := by
  unfold fs_delete
  split
  · rfl
  · rw [findFile_none s.Root name _ 0 (fun j _ hj => h j (by omega))]
    simp

theorem fs_open_not_held (s : FS) (name : List Nat)
    (h : ∀ i, i < FS_FILE_MAX_COUNT → ¬ slotHolds (s.Root i) name) :
    fs_open s name = (s, -1) := by
  unfold fs_open
  split
  · rfl
  · rw [findFile_none s.Root name _ 0 (fun j _ hj => h j (by omega))]
    simp

theorem fs_create_too_long (s : FS) (name : List Nat) (h : 17 ≤ strlen name) :
    fs_create s name = (s, -1) := by
  unfold fs_create
  rw [if_pos (Or.inl (by simp only [FS_FILENAME_LEN]; omega))]

/-! ## Deleting does not clear the freed blocks -/

theorem filledFS_chain : FileChain filledFS 0 [1, 2] := by
  refine ⟨IsChain.cons (by decide) (IsChain.cons (by decide) IsChain.nil), by decide, ?_⟩
  intro c hc
  simp only [List.mem_cons, List.mem_singleton, List.not_mem_nil, or_false] at hc
  rcases hc with rfl | rfl <;> decide

theorem filledFS_wellFormed : WellFormed filledFS := by
  refine ⟨⟨rfl, rfl, ⟨by decide, by decide, by decide, by decide⟩, by decide, by decide⟩, ?_⟩
  intro idx _ hu
  by_cases hi : idx = 0
  · subst hi; exact ⟨_, filledFS_chain⟩
  · have hz : filledFS.Root idx = zeroEntry := by
      simp only [filledFS, closedFS, exampleFS, if_neg hi]
    rw [hz] at hu
    exact absurd hu (by decide)

/-- C12 (delete zero-fills the freed data blocks), evaluated where it fails.
`filledFS` is mounted and well formed; the file `"f"` has the chain 1, 2, so
its data are in the disk blocks 4 and 5, and every byte of the disk is 7.
`fs_delete("f")` returns 0; the block it zero-fills, twice, is
`FAT[clearedBlock] + dataBlockStartIndex` read after `FAT[clearedBlock] = 0`,
that is block 3; the blocks 4 and 5 of the freed chain still hold 7. -/
theorem fs_delete_zero_fills_block_of_index_0 :
    WellFormed filledFS ∧ FileChain filledFS 0 [1, 2] ∧ slotHolds (filledFS.Root 0) [102]
    ∧ filledFS.Superblock.dataBlockStartIndex = 3
    ∧ (fs_delete 4 filledFS [102]).map
        (fun r => (r.2, r.1.disk.data 3 0, r.1.disk.data 4 0, r.1.disk.data 5 0))
        = some (0, 0, 7, 7) := by
  refine ⟨filledFS_wellFormed, filledFS_chain, by decide, rfl, ?_⟩
  set_option maxRecDepth 100000 in decide

/-! ## A write on a full disk breaks the chain length -/

theorem fullTwoBlockFS_chain : FileChain fullTwoBlockFS 0 [1, 2] := by
  refine ⟨IsChain.cons (by decide) (IsChain.cons (by decide) IsChain.nil), by decide, ?_⟩
  intro c hc
  simp only [List.mem_cons, List.mem_singleton, List.not_mem_nil, or_false] at hc
  rcases hc with rfl | rfl <;> decide

theorem fullTwoBlockFS_wellFormed : WellFormed fullTwoBlockFS :=
  exampleFS_wellFormed _ _ _ _ (by decide) (by decide) (fun _ => ⟨_, fullTwoBlockFS_chain⟩)

/-- C18 (chain integrity is an invariant of every operation), evaluated where
it fails.  `fullTwoBlockFS` is mounted and well formed: its only file has
8192 bytes and the chain 1, 2, the disk is full, and handle 0 is open on the
file with its cursor at 0.  A write of 12288 bytes needs a third block and
finds none: `count` becomes `(2 * 4096 - 8192) + 0 * 4096 = 0` and `fileSize`
becomes `fileOffset + count = 0`.  The call returns 0 and leaves a used entry
with `fileSize = 0` whose `firstDataBlockIndex` is 1, not `0xFFFF`, and whose
chain still has two entries. -/
theorem fs_write_on_full_disk_breaks_chain_length :
    WellFormed fullTwoBlockFS ∧ OpenHandle fullTwoBlockFS 0 0 0
    ∧ FileChain fullTwoBlockFS 0 [1, 2]
    ∧ (fs_write 3 fullTwoBlockFS 0 (fun i => i + 1) 12288).map
        (fun r => (r.2, decide (slotUsed (r.1.Root 0)), (r.1.Root 0).fileSize,
          (r.1.Root 0).firstDataBlockIndex, r.1.FAT 1, r.1.FAT 2))
        = some (0, true, 0, 1, 2, FAT_EOC) := by
  refine ⟨fullTwoBlockFS_wellFormed, ⟨by decide, rfl, by decide, by decide⟩,
    fullTwoBlockFS_chain, ?_⟩
  set_option maxRecDepth 100000 in decide

/-! ## Mounting and the mounted status -/

/-- C16 (a failed mount leaves the filesystem unmounted), evaluated where it
fails.  From the initial, unmounted state `fs_mount` of a formatted disk
returns 0.  `fs_mount` of a disk without the signature returns -1, but
`diskStatus` was set to 1 before the check and stays 1, and the disk stays
open: a following `fs_mount` of the formatted disk returns -1, and
`fs_create` called instead returns 0. -/
theorem fs_mount_failure_keeps_diskStatus_1 :
    initialFS.diskStatus = 0
    ∧ (fs_mount initialFS (some (formattedDisk 4))).2 = 0
    ∧ (fs_mount initialFS (some blankDisk)).2 = -1
    ∧ (fs_mount initialFS (some blankDisk)).1.diskStatus = 1
    ∧ (fs_mount (fs_mount initialFS (some blankDisk)).1 (some (formattedDisk 4))).2 = -1
    ∧ (fs_create (fs_mount initialFS (some blankDisk)).1 [102]).2 = 0 := by
  refine ⟨rfl, ?_, ?_, ?_, ?_, ?_⟩
  · set_option maxRecDepth 100000 in decide
  · set_option maxRecDepth 100000 in decide
  · set_option maxRecDepth 100000 in decide
  · set_option maxRecDepth 100000 in decide
  · set_option maxRecDepth 100000 in decide

/-- C17 (every operation other than mount requires the mounted state),
evaluated where it fails.  `fs_info` never tests `diskStatus` and returns 0 in
every state, in particular in the initial, unmounted one, where `fs_umount`
and `fs_ls` return -1. -/
theorem fs_info_returns_0_when_unmounted :
    (∀ s : FS, (fs_info s).2 = 0)
    ∧ initialFS.diskStatus = 0
    ∧ (fs_info initialFS).2 = 0
    ∧ (fs_umount initialFS).2 = -1
    ∧ (fs_ls initialFS).2 = -1 :=
  ⟨fun _ => rfl, rfl, rfl, by decide, by decide⟩

/-- C20 (FAT entry 0 stays the end-of-chain sentinel), evaluated where it
fails.  `fs_mount` of a freshly formatted disk returns 0 and loads
`FAT[0] = 0xFFFF`.  `fs_delete("")` then matches the free root slot 0, whose
`firstDataBlockIndex` is 0, takes index 0 for a chain of one block, returns 0
and leaves `FAT[0] = 0`. -/
theorem fs_delete_empty_name_clears_FAT_0 :
    (fs_mount initialFS (some (formattedDisk 4))).2 = 0
    ∧ (fs_mount initialFS (some (formattedDisk 4))).1.FAT 0 = FAT_EOC
    ∧ (fs_delete 4 (fs_mount initialFS (some (formattedDisk 4))).1 []).map
        (fun r => (r.2, r.1.FAT 0)) = some (0, 0) := by
  refine ⟨?_, ?_, ?_⟩
  · set_option maxRecDepth 100000 in decide
  · set_option maxRecDepth 100000 in decide
  · set_option maxRecDepth 100000 in decide

/-! ## The first-fit search -/

/-- C13 (first-fit allocator).  For every FAT and every number of data blocks:
when some index in `[1, numberOfDataBlocks)` has a zero entry, `findEmptyFAT`
returns the smallest such index; it returns 0 exactly when there is none,
whatever entry 0 holds; and an index it returns other than 0 has a zero
entry. -/
theorem findEmptyFAT_first_fit (FAT : Nat → Nat) (dbc : Nat) :
    ((∃ i, 1 ≤ i ∧ i < dbc ∧ FAT i = 0) →
        1 ≤ findEmptyFAT FAT dbc ∧ findEmptyFAT FAT dbc < dbc
        ∧ FAT (findEmptyFAT FAT dbc) = 0
        ∧ ∀ j, 1 ≤ j → j < findEmptyFAT FAT dbc → FAT j ≠ 0)
    ∧ (findEmptyFAT FAT dbc = 0 ↔ ¬ ∃ i, 1 ≤ i ∧ i < dbc ∧ FAT i = 0)
    ∧ (findEmptyFAT FAT dbc ≠ 0 →
        1 ≤ findEmptyFAT FAT dbc ∧ findEmptyFAT FAT dbc < dbc
        ∧ FAT (findEmptyFAT FAT dbc) = 0) := by
  rcases findEmptyFAT_spec FAT dbc with ⟨h0, hfree⟩ | ⟨h1, h2, h3, h4⟩
  · have hnone : ¬ ∃ i, 1 ≤ i ∧ i < dbc ∧ FAT i = 0 := by
      rintro ⟨i, hi1, hi2, hi3⟩
      exact (freeCount_zero_iff FAT dbc).mp hfree i hi1 hi2 hi3
    refine ⟨fun h => absurd h hnone, ⟨fun _ => hnone, fun _ => h0⟩, fun h => absurd h0 h⟩
  · refine ⟨fun _ => ⟨h1, h2, h3, h4⟩, ⟨fun h => ?_, fun h => ?_⟩, fun _ => ⟨h1, h2, h3⟩⟩
    · omega
    · exact absurd ⟨_, h1, h2, h3⟩ h

theorem findEmptyFAT_first_fit_witness :
    findEmptyFAT (fatOfList [0, 2, FAT_EOC, 0, 0]) 5 = 3
    ∧ (((∃ i, 1 ≤ i ∧ i < 5 ∧ fatOfList [0, 2, FAT_EOC, 0, 0] i = 0) →
        1 ≤ findEmptyFAT (fatOfList [0, 2, FAT_EOC, 0, 0]) 5
        ∧ findEmptyFAT (fatOfList [0, 2, FAT_EOC, 0, 0]) 5 < 5
        ∧ fatOfList [0, 2, FAT_EOC, 0, 0] (findEmptyFAT (fatOfList [0, 2, FAT_EOC, 0, 0]) 5) = 0
        ∧ ∀ j, 1 ≤ j → j < findEmptyFAT (fatOfList [0, 2, FAT_EOC, 0, 0]) 5 →
            fatOfList [0, 2, FAT_EOC, 0, 0] j ≠ 0)
      ∧ (findEmptyFAT (fatOfList [0, 2, FAT_EOC, 0, 0]) 5 = 0
          ↔ ¬ ∃ i, 1 ≤ i ∧ i < 5 ∧ fatOfList [0, 2, FAT_EOC, 0, 0] i = 0)
      ∧ (findEmptyFAT (fatOfList [0, 2, FAT_EOC, 0, 0]) 5 ≠ 0 →
          1 ≤ findEmptyFAT (fatOfList [0, 2, FAT_EOC, 0, 0]) 5
          ∧ findEmptyFAT (fatOfList [0, 2, FAT_EOC, 0, 0]) 5 < 5
          ∧ fatOfList [0, 2, FAT_EOC, 0, 0]
              (findEmptyFAT (fatOfList [0, 2, FAT_EOC, 0, 0]) 5) = 0)) :=
  ⟨by decide, findEmptyFAT_first_fit (fatOfList [0, 2, FAT_EOC, 0, 0]) 5⟩

/-! ## Seeking -/

/-- C15 (seek bound).  In a mounted state, for a handle `fd` open on root slot
`idx` whose file size is below 2^31 (the filesystem holds at most 65534
blocks) and every offset `k`: `fs_lseek` returns 0 if and only if
`k ≤ fileSize`; when it returns 0 the cursor of `fd` is `k`; otherwise it
returns -1 and the state, the cursor included, is unchanged; in both cases the
handle still refers to `idx` and the other handles, the FAT, the root
directory, the superblock and the disk are unchanged. -/
theorem fs_lseek_bound (s : FS) (fd idx k : Nat)
    (hst : s.diskStatus = 1) (hlt : fd < FS_OPEN_MAX_COUNT)
    (hfd : (s.fdTable fd).fileIndex = (idx : Int))
    (hfs : (s.Root idx).fileSize < 2147483648) :
    ((fs_lseek s (fd : Int) k).2 = 0 ↔ k ≤ (s.Root idx).fileSize)
    ∧ ((fs_lseek s (fd : Int) k).2 = 0 →
        ((fs_lseek s (fd : Int) k).1.fdTable fd).fileOffset = (k : Int))
    ∧ ((fs_lseek s (fd : Int) k).2 ≠ 0 →
        (fs_lseek s (fd : Int) k).2 = -1 ∧ (fs_lseek s (fd : Int) k).1 = s)
    ∧ ((fs_lseek s (fd : Int) k).1.fdTable fd).fileIndex = (idx : Int)
    ∧ (∀ j, j ≠ fd → (fs_lseek s (fd : Int) k).1.fdTable j = s.fdTable j)
    ∧ (fs_lseek s (fd : Int) k).1.FAT = s.FAT
    ∧ (fs_lseek s (fd : Int) k).1.Root = s.Root
    ∧ (fs_lseek s (fd : Int) k).1.Superblock = s.Superblock
    ∧ (fs_lseek s (fd : Int) k).1.disk = s.disk
    ∧ (fs_lseek s (fd : Int) k).1.diskStatus = s.diskStatus := by
  have hbad : ¬ badHandle s (fd : Int) := by
    unfold badHandle
    simp only [Int.toNat_ofNat, hfd, hst]
    simp only [FS_OPEN_MAX_COUNT] at hlt ⊢
    omega
  by_cases hk : k ≤ (s.Root idx).fileSize
  · have e : fs_lseek s (fd : Int) k
        = ({ s with
              fdTable := setAt s.fdTable fd { s.fdTable fd with fileOffset := (k : Int) } }, 0) := by
      unfold fs_lseek
      simp only [Int.toNat_ofNat, hfd, hbad, false_or]
      rw [if_neg (by omega), toInt_of_lt (by omega)]
    rw [e]
    refine ⟨⟨fun _ => hk, fun _ => rfl⟩, fun _ => ?_, fun h => absurd rfl h, ?_, ?_,
      rfl, rfl, rfl, rfl, rfl⟩
    · simp only [setAt_same]
    · simp only [setAt_same]; exact hfd
    · intro j hj
      simp only
      rw [setAt_other _ _ hj]
  · have e : fs_lseek s (fd : Int) k = (s, -1) := by
      unfold fs_lseek
      simp only [Int.toNat_ofNat, hfd, hbad, false_or]
      rw [if_pos (by omega)]
    rw [e]
    refine ⟨⟨fun h => ?_, fun h => absurd h hk⟩, fun h => ?_, fun _ => ⟨rfl, rfl⟩, hfd,
      fun _ _ => rfl, rfl, rfl, rfl, rfl, rfl⟩
    · simp at h
    · simp at h

theorem fs_lseek_bound_witness :
    twoBlockFS.diskStatus = 1
    ∧ (twoBlockFS.fdTable 0).fileIndex = ((0 : Nat) : Int)
    ∧ (twoBlockFS.Root 0).fileSize < 2147483648
    ∧ (((fs_lseek twoBlockFS ((0 : Nat) : Int) 8192).2 = 0 ↔ 8192 ≤ (twoBlockFS.Root 0).fileSize)
      ∧ ((fs_lseek twoBlockFS ((0 : Nat) : Int) 8192).2 = 0 →
          ((fs_lseek twoBlockFS ((0 : Nat) : Int) 8192).1.fdTable 0).fileOffset = ((8192 : Nat) : Int))
      ∧ ((fs_lseek twoBlockFS ((0 : Nat) : Int) 8192).2 ≠ 0 →
          (fs_lseek twoBlockFS ((0 : Nat) : Int) 8192).2 = -1
          ∧ (fs_lseek twoBlockFS ((0 : Nat) : Int) 8192).1 = twoBlockFS)
      ∧ ((fs_lseek twoBlockFS ((0 : Nat) : Int) 8192).1.fdTable 0).fileIndex = ((0 : Nat) : Int)
      ∧ (∀ j, j ≠ 0 → (fs_lseek twoBlockFS ((0 : Nat) : Int) 8192).1.fdTable j = twoBlockFS.fdTable j)
      ∧ (fs_lseek twoBlockFS ((0 : Nat) : Int) 8192).1.FAT = twoBlockFS.FAT
      ∧ (fs_lseek twoBlockFS ((0 : Nat) : Int) 8192).1.Root = twoBlockFS.Root
      ∧ (fs_lseek twoBlockFS ((0 : Nat) : Int) 8192).1.Superblock = twoBlockFS.Superblock
      ∧ (fs_lseek twoBlockFS ((0 : Nat) : Int) 8192).1.disk = twoBlockFS.disk
      ∧ (fs_lseek twoBlockFS ((0 : Nat) : Int) 8192).1.diskStatus = twoBlockFS.diskStatus) :=
  ⟨rfl, rfl, by decide,
    fs_lseek_bound twoBlockFS 0 0 8192 rfl (by decide) rfl (by decide)⟩

/-! ## Deleting a file -/

theorem findFile_first (Root : Nat → rootEntry) (name : List Nat) (idx : Nat)
    (hidx : slotHolds (Root idx) name) :
    ∀ n i, i ≤ idx → idx < i + n → (∀ j, i ≤ j → j < idx → ¬ slotHolds (Root j) name) →
      findFile Root name n i = (idx : Int) := by
  intro n
  induction n with
  | zero => intro i h1 h2 _; omega
  | succ n ih =>
    intro i h1 h2 hfirst
    by_cases hi : i = idx
    · subst hi
      simp only [findFile, if_pos ((streq_iff _ _).mpr hidx)]
    · have hne : ¬ streq (nameBytes (Root i)) name = true :=
        fun hm => hfirst i (le_refl _) (by omega) ((streq_iff _ _).mp hm)
      simp only [findFile, if_neg hne]
      exact ih (i + 1) (by omega) (by omega) (fun j h3 h4 => hfirst j (by omega) h4)

theorem cstr_append_of_mem (a b : List Nat) (h : 0 ∈ a) : cstr (a ++ b) = cstr a := by
  induction a with
  | nil => simp at h
  | cons c a ih =>
    by_cases hc : c = 0
    · subst hc; simp [cstr]
    · have hm : 0 ∈ a := by
        rcases List.mem_cons.mp h with h | h
        · exact absurd h.symm hc
        · exact h
      have := ih hm
      simp only [cstr] at this ⊢
      simp [List.takeWhile_cons, hc, this]

theorem cstr_length_lt (a : List Nat) (h : 0 ∈ a) : (cstr a).length < a.length := by
  induction a with
  | nil => simp at h
  | cons c a ih =>
    by_cases hc : c = 0
    · subst hc; simp [cstr]
    · have hm : 0 ∈ a := by
        rcases List.mem_cons.mp h with h | h
        · exact absurd h.symm hc
        · exact h
      have := ih hm
      simp only [cstr] at this ⊢
      simp [List.takeWhile_cons, hc, this]

theorem cstr_nameBytes (e : rootEntry) (h : 0 ∈ e.filename) :
    cstr (nameBytes e) = cstr e.filename := by
  unfold nameBytes
  rw [List.append_assoc, List.append_assoc]
  exact cstr_append_of_mem _ _ h

theorem cstr_ne_nil_of_used {e : rootEntry} (h : slotUsed e) : cstr e.filename ≠ [] := by
  unfold slotUsed at h
  cases hf : e.filename with
  | nil => rw [hf] at h; simp at h
  | cons c cs =>
    rw [hf] at h
    simp only [List.getD_cons_zero, ne_eq] at h
    simp [cstr, List.takeWhile_cons, h]

/-- In a root directory with well-formed names, a name held by the used slot
`idx` has at most 15 bytes, and `findFile` yields `idx` for it. -/
theorem RootNamesOK.lookup {s : FS} (hn : RootNamesOK s) {idx : Nat} {name : List Nat}
    (hidx : idx < FS_FILE_MAX_COUNT) (hused : slotUsed (s.Root idx))
    (hholds : slotHolds (s.Root idx) name) :
    strlen name < FS_FILENAME_LEN
    ∧ findFile s.Root name FS_FILE_MAX_COUNT 0 = (idx : Int) := by
  obtain ⟨hterm, huniq⟩ := hn
  have hname : cstr name = cstr (s.Root idx).filename := by
    unfold slotHolds at hholds
    rw [← hholds, cstr_nameBytes _ (hterm idx hidx).2]
  refine ⟨?_, ?_⟩
  · unfold strlen
    rw [hname, ← (hterm idx hidx).1]
    exact cstr_length_lt _ (hterm idx hidx).2
  · refine findFile_first s.Root name idx hholds _ 0 (Nat.zero_le _) (by omega) ?_
    intro j _ hj hh
    have hj128 : j < FS_FILE_MAX_COUNT := by omega
    unfold slotHolds at hh
    rw [cstr_nameBytes _ (hterm j hj128).2, hname] at hh
    by_cases hu : slotUsed (s.Root j)
    · have := huniq j idx hj128 hidx hu hused hh
      omega
    · have h0 := cstr_nameBytes_of_free (hterm j hj128).1 hu
      rw [cstr_nameBytes _ (hterm j hj128).2, hh] at h0
      exact cstr_ne_nil_of_used hused h0

/-- The chain-clearing loop on a chain `b :: cs`: with fuel for the chain it
ends at the last block of the chain, has set the FAT entry of every block
before that one to 0, has kept all other FAT entries, and has written no
device block other than `dataBlockStartIndex`. -/
theorem fs_delete_loop_spec (ds : Nat) :
    ∀ (cs : List Nat) (fuel : Nat) (FAT : Nat → Nat) (d : BlockDisk) (b : Nat),
      IsChain FAT b (b :: cs) → cs.length ≤ fuel →
      ∃ FAT1 d1 last, fs_delete_loop ds fuel FAT d b = some (FAT1, d1, last)
        ∧ last ∈ b :: cs
        ∧ (∀ j, j ∈ b :: cs → j ≠ last → FAT1 j = 0)
        ∧ (∀ j, j ∉ b :: cs → FAT1 j = FAT j)
        ∧ d1.opened = d.opened ∧ d1.count = d.count
        ∧ (∀ blk, blk ≠ ds → d1.data blk = d.data blk) := by
  intro cs
  induction cs with
  | nil =>
    intro fuel FAT d b h _
    obtain ⟨_, _, ht⟩ := IsChain.cons_iff.mp h
    have he : FAT b = FAT_EOC := IsChain.nil_iff.mp ht
    refine ⟨FAT, d, b, ?_, List.mem_cons_self _ _, ?_, fun _ _ => rfl, rfl, rfl, fun _ _ => rfl⟩
    · cases fuel <;> simp only [fs_delete_loop, if_pos he]
    · intro j hj hne
      simp at hj
      exact absurd hj hne
  | cons c cs ih =>
    intro fuel FAT d b h hfuel
    have hnd := h.nodup
    obtain ⟨_, hb, ht⟩ := IsChain.cons_iff.mp h
    obtain ⟨hc, hcne, _⟩ := IsChain.cons_iff.mp ht
    have hne : FAT b ≠ FAT_EOC := hc ▸ hcne
    have hbn : b ∉ c :: cs := (List.nodup_cons.mp hnd).1
    cases fuel with
    | zero => simp at hfuel
    | succ fuel =>
      have hch : IsChain (setAt FAT b 0) c (c :: cs) := by
        have h2 : IsChain FAT c (c :: cs) := hc ▸ ht
        refine h2.congr (fun x hx => setAt_other _ _ ?_)
        intro e; exact hbn (e ▸ hx)
      obtain ⟨FAT1, d1, last, hrun, hlast, hzero, hkeep, hop, hcnt, hdata⟩ :=
        ih fuel (setAt FAT b 0)
          (block_write d (setAt FAT b 0 b + ds) (fun _ => 0)) c hch
          (by simp at hfuel; omega)
      refine ⟨FAT1, d1, last, ?_, List.mem_cons_of_mem _ hlast, ?_, ?_, ?_, ?_, ?_⟩
      · simp only [fs_delete_loop, if_neg hne]
        rw [← hc]
        exact hrun
      · intro j hj hjl
        rcases List.mem_cons.mp hj with rfl | hj
        · rw [hkeep j hbn, setAt_same]
        · exact hzero j hj hjl
      · intro j hj
        have hjb : j ≠ b := fun e => hj (e ▸ List.mem_cons_self _ _)
        rw [hkeep j (fun hm => hj (List.mem_cons_of_mem _ hm)), setAt_other _ _ hjb]
      · rw [hop, block_write_opened]
      · rw [hcnt, block_write_count]
      · intro blk hblk
        rw [hdata blk hblk]
        refine block_write_other d _ ?_
        rw [setAt_same]
        omega

/-- What `fs_delete` does to a state in which `findFile` yields slot `idx`
with chain `cs` for a name of at most 16 bytes: it returns 0, every FAT entry
of the chain is 0 and all others are kept, the slot is cleared and the others
are kept, and no device block other than `dataBlockStartIndex` is written. -/
theorem fs_delete_chain (fuel : Nat) (s : FS) (name : List Nat) (idx : Nat) (cs : List Nat)
    (hst : s.diskStatus = 1) (hlen : strlen name ≤ FS_FILENAME_LEN)
    (hfind : findFile s.Root name FS_FILE_MAX_COUNT 0 = (idx : Int))
    (hch : IsChain s.FAT (s.Root idx).firstDataBlockIndex cs) (hfuel : cs.length ≤ fuel + 1) :
    ∃ s2, fs_delete fuel s name = some (s2, 0)
      ∧ (∀ c ∈ cs, s2.FAT c = 0)
      ∧ (∀ j, j ∉ cs → s2.FAT j = s.FAT j)
      ∧ s2.Root idx = { s.Root idx with
            filename := List.replicate FS_FILENAME_LEN 0, fileSize := 0, firstDataBlockIndex := 0 }
      ∧ (∀ j, j ≠ idx → s2.Root j = s.Root j)
      ∧ s2.fdTable = s.fdTable ∧ s2.Superblock = s.Superblock ∧ s2.diskStatus = s.diskStatus
      ∧ s2.disk.opened = s.disk.opened ∧ s2.disk.count = s.disk.count
      ∧ (∀ blk, blk ≠ s.Superblock.dataBlockStartIndex → s2.disk.data blk = s.disk.data blk) := by
  have hguard : ¬ (strlen name > FS_FILENAME_LEN ∨ s.diskStatus ≠ 1) := by
    rw [hst]; simp only [ne_eq, not_true_eq_false, or_false]; omega
  have hidx : ¬ ((idx : Int) = -1) := by omega
  cases cs with
  | nil =>
    have he : (s.Root idx).firstDataBlockIndex = FAT_EOC := IsChain.nil_iff.mp hch
    refine ⟨{ s with
        Root := setAt s.Root idx
          { s.Root idx with
            filename := List.replicate FS_FILENAME_LEN 0, fileSize := 0, firstDataBlockIndex := 0 } },
      ?_, ?_, fun _ _ => rfl, ?_, ?_, rfl, rfl, rfl, rfl, rfl, fun _ _ => rfl⟩
    · unfold fs_delete
      simp only [if_neg hguard, hfind, if_neg hidx, Int.toNat_ofNat, if_pos he]
    · intro c hc; simp at hc
    · simp only [setAt_same]
    · intro j hj
      simp only
      rw [setAt_other _ _ hj]
  | cons c cs =>
    obtain ⟨hc, hb, _⟩ := IsChain.cons_iff.mp hch
    subst hc
    obtain ⟨FAT1, d1, last, hrun, hlast, hzero, hkeep, hop, hcnt, hdata⟩ :=
      fs_delete_loop_spec s.Superblock.dataBlockStartIndex cs fuel s.FAT s.disk _ hch
        (by simp at hfuel; omega)
    refine ⟨{ s with
        Root := setAt s.Root idx
          { s.Root idx with
            filename := List.replicate FS_FILENAME_LEN 0, fileSize := 0, firstDataBlockIndex := 0 }
        FAT := setAt FAT1 last 0
        disk := block_write d1 (setAt FAT1 last 0 last + s.Superblock.dataBlockStartIndex)
          (fun _ => 0) },
      ?_, ?_, ?_, ?_, ?_, rfl, rfl, rfl, ?_, ?_, ?_⟩
    · unfold fs_delete
      simp only [if_neg hguard, hfind, if_neg hidx, Int.toNat_ofNat, if_neg hb, hrun]
    · intro j hj
      simp only
      by_cases hjl : j = last
      · rw [hjl, setAt_same]
      · rw [setAt_other _ _ hjl]
        exact hzero j hj hjl
    · intro j hj
      simp only
      have hjl : j ≠ last := fun e => hj (e ▸ hlast)
      rw [setAt_other _ _ hjl]
      exact hkeep j hj
    · simp only [setAt_same]
    · intro j hj
      simp only
      rw [setAt_other _ _ hj]
    · simp only
      rw [block_write_opened, hop]
    · simp only
      rw [block_write_count, hcnt]
    · intro blk hblk
      simp only
      rw [block_write_other d1 _ (by rw [setAt_same]; omega)]
      exact hdata blk hblk

/-- C11 (delete frees the chain).  In a mounted, well-formed state whose root
directory has well-formed names, for a name held by the used root slot `idx`
with chain `cs`, `fs_delete` (with fuel for the chain) returns 0; afterwards
every FAT entry of `cs` is 0 and every other FAT entry is unchanged; slot `idx`
is cleared, its filename starting with NUL, its size 0 and its first block 0;
and all other root slots are unchanged. -/
theorem fs_delete_frees_chain (fuel : Nat) (s : FS) (name : List Nat) (idx : Nat) (cs : List Nat)
    (hwf : WellFormed s) (hnames : RootNamesOK s)
    (hidx : idx < FS_FILE_MAX_COUNT) (hused : slotUsed (s.Root idx))
    (hholds : slotHolds (s.Root idx) name) (hcs : FileChain s idx cs)
    (hfuel : s.Superblock.numberOfDataBlocks ≤ fuel) :
    ∃ s2, fs_delete fuel s name = some (s2, 0)
      ∧ (∀ c ∈ cs, s2.FAT c = 0)
      ∧ (∀ j, j ∉ cs → s2.FAT j = s.FAT j)
      ∧ (s2.Root idx).filename.getD 0 0 = 0
      ∧ ¬ slotUsed (s2.Root idx)
      ∧ (s2.Root idx).fileSize = 0
      ∧ (s2.Root idx).firstDataBlockIndex = 0
      ∧ (∀ j, j ≠ idx → s2.Root j = s.Root j) := by
  obtain ⟨hlen, hfind⟩ := hnames.lookup hidx hused hholds
  have hl : cs.length ≤ fuel + 1 := by
    have := hcs.fuel_le hfuel
    omega
  obtain ⟨s2, hrun, h1, h2, h3, h4, _⟩ :=
    fs_delete_chain fuel s name idx cs hwf.1.1 (by omega) hfind hcs.1 hl
  refine ⟨s2, hrun, h1, h2, ?_, ?_, ?_, ?_, h4⟩
  · rw [h3]; rfl
  · rw [h3]; unfold slotUsed; simp [FS_FILENAME_LEN]
  · rw [h3]
  · rw [h3]

theorem exampleFS_namesOK (dbc : Nat) (FAT : Nat → Nat) (e : rootEntry) (h : fileDescriptor)
    (hlen : e.filename.length = FS_FILENAME_LEN) (hz : 0 ∈ e.filename) :
    RootNamesOK (exampleFS dbc FAT e h) := by
  have hfree : ∀ i, i ≠ 0 → (exampleFS dbc FAT e h).Root i = zeroEntry := by
    intro i hi
    simp only [exampleFS, if_neg hi]
  refine ⟨?_, ?_⟩
  · intro i _
    by_cases hi : i = 0
    · subst hi; exact ⟨hlen, hz⟩
    · rw [hfree i hi]; decide
  · intro i j _ _ hui huj _
    have hi : i = 0 := by
      by_contra hi
      rw [hfree i hi] at hui
      exact absurd hui (by decide)
    have hj : j = 0 := by
      by_contra hj
      rw [hfree j hj] at huj
      exact absurd huj (by decide)
    omega

theorem closedFS_chain : FileChain closedFS 0 [1, 2] := by
  refine ⟨IsChain.cons (by decide) (IsChain.cons (by decide) IsChain.nil), by decide, ?_⟩
  intro c hc
  simp only [List.mem_cons, List.mem_singleton, List.not_mem_nil, or_false] at hc
  rcases hc with rfl | rfl <;> decide

theorem closedFS_wellFormed : WellFormed closedFS :=
  exampleFS_wellFormed _ _ _ _ (by decide) (by decide) (fun _ => ⟨_, closedFS_chain⟩)

theorem closedFS_namesOK : RootNamesOK closedFS :=
  exampleFS_namesOK _ _ _ _ (by decide) (by decide)

theorem fs_delete_frees_chain_witness :
    WellFormed closedFS ∧ RootNamesOK closedFS ∧ slotUsed (closedFS.Root 0)
    ∧ slotHolds (closedFS.Root 0) [102] ∧ FileChain closedFS 0 [1, 2]
    ∧ ∃ s2, fs_delete 4 closedFS [102] = some (s2, 0)
      ∧ (∀ c ∈ [1, 2], s2.FAT c = 0)
      ∧ (∀ j, j ∉ [1, 2] → s2.FAT j = closedFS.FAT j)
      ∧ (s2.Root 0).filename.getD 0 0 = 0
      ∧ ¬ slotUsed (s2.Root 0)
      ∧ (s2.Root 0).fileSize = 0
      ∧ (s2.Root 0).firstDataBlockIndex = 0
      ∧ (∀ j, j ≠ 0 → s2.Root j = closedFS.Root j) :=
  ⟨closedFS_wellFormed, closedFS_namesOK, by decide, by decide, closedFS_chain,
    fs_delete_frees_chain 4 closedFS [102] 0 [1, 2] closedFS_wellFormed closedFS_namesOK
      (by decide) (by decide) (by decide) closedFS_chain (by decide)⟩

/-! ## The handle table along sequences of calls -/

theorem findEmptyFD_loop_spec (fdTable : Nat → fileDescriptor) (n : Nat) :
    ∀ i, (findEmptyFD_loop fdTable n i = -1
          ∧ ∀ j, i ≤ j → j < i + n → (fdTable j).fileIndex ≠ -1)
      ∨ ∃ k : Nat, findEmptyFD_loop fdTable n i = (k : Int) ∧ i ≤ k ∧ k < i + n
          ∧ (fdTable k).fileIndex = -1 ∧ ∀ j, i ≤ j → j < k → (fdTable j).fileIndex ≠ -1 := by
  induction n with
  | zero => intro i; left; exact ⟨rfl, fun j h1 h2 => by omega⟩
  | succ n ih =>
    intro i
    by_cases hi : (fdTable i).fileIndex = -1
    · right
      refine ⟨i, ?_, le_refl _, by omega, hi, fun j h1 h2 => by omega⟩
      simp only [findEmptyFD_loop, if_pos hi]
    · simp only [findEmptyFD_loop, if_neg hi]
      rcases ih (i + 1) with ⟨h1, h2⟩ | ⟨k, h1, h2, h3, h4, h5⟩
      · left
        refine ⟨h1, fun j hj1 hj2 => ?_⟩
        by_cases hj : j = i
        · rw [hj]; exact hi
        · exact h2 j (by omega) (by omega)
      · right
        refine ⟨k, h1, by omega, by omega, h4, fun j hj1 hj2 => ?_⟩
        by_cases hj : j = i
        · rw [hj]; exact hi
        · exact h5 j (by omega) hj2

theorem findFile_spec (Root : Nat → rootEntry) (name : List Nat) (n : Nat) :
    ∀ i, findFile Root name n i = -1
      ∨ ∃ idx : Nat, findFile Root name n i = (idx : Int) ∧ i ≤ idx ∧ idx < i + n
          ∧ slotHolds (Root idx) name ∧ ∀ j, i ≤ j → j < idx → ¬ slotHolds (Root j) name := by
  induction n with
  | zero => intro i; left; rfl
  | succ n ih =>
    intro i
    by_cases hi : streq (nameBytes (Root i)) name = true
    · right
      refine ⟨i, ?_, le_refl _, by omega, (streq_iff _ _).mp hi, fun j h1 h2 => by omega⟩
      simp only [findFile, if_pos hi]
    · simp only [findFile, if_neg hi]
      rcases ih (i + 1) with h1 | ⟨k, h1, h2, h3, h4, h5⟩
      · left; exact h1
      · right
        refine ⟨k, h1, by omega, by omega, h4, fun j hj1 hj2 => ?_⟩
        by_cases hj : j = i
        · rw [hj]; exact fun hh => hi ((streq_iff _ _).mpr hh)
        · exact h5 j (by omega) hj2

theorem fs_mount_fdTable (s : FS) (img : Option BlockDisk) :
    (fs_mount s img).1.fdTable = s.fdTable
    ∨ (fs_mount s img).1.fdTable
        = fun i => if i < FS_OPEN_MAX_COUNT then { fileIndex := -1, fileOffset := 0 } else s.fdTable i := by
  unfold fs_mount
  simp only
  split_ifs
  all_goals first
    | exact Or.inl rfl
    | exact Or.inr rfl

theorem fs_mount_tidy (s : FS) (img : Option BlockDisk) (h : (fs_mount s img).2 = 0) :
    HandlesTidy (fs_mount s img).1 := by
  intro i hi _
  unfold fs_mount at h ⊢
  simp only at h ⊢
  split_ifs at h ⊢
  all_goals first
    | (exfalso; simp at h; done)
    | simp only [if_pos hi]

theorem fs_write_extend_frame {fuel : Nat} {s : FS} {fd : Int} {count : Nat} {x : Extended}
    (h : fs_write_extend fuel s fd count = some x) :
    (∀ s1 r, x = Extended.returned s1 r →
        s1.fdTable = s.fdTable ∧ s1.Superblock = s.Superblock ∧ s1.disk = s.disk
        ∧ s1.diskStatus = s.diskStatus)
    ∧ (∀ s1 c, x = Extended.goesOn s1 c →
        s1.fdTable = s.fdTable ∧ s1.Superblock = s.Superblock ∧ s1.disk = s.disk
        ∧ s1.diskStatus = s.diskStatus) := by
  unfold fs_write_extend at h
  simp only at h
  split at h
  · split at h
    · cases h
    · split at h
      · split at h
        · cases h
          exact ⟨fun s1 r e => by cases e; exact ⟨rfl, rfl, rfl, rfl⟩, fun s1 c e => by cases e⟩
        · cases h
          exact ⟨fun s1 r e => (by cases e), fun s1 c e => by cases e; exact ⟨rfl, rfl, rfl, rfl⟩⟩
      · cases h
        exact ⟨fun s1 r e => (by cases e), fun s1 c e => by cases e; exact ⟨rfl, rfl, rfl, rfl⟩⟩
  · cases h
    exact ⟨fun s1 r e => (by cases e), fun s1 c e => by cases e; exact ⟨rfl, rfl, rfl, rfl⟩⟩

theorem fs_write_splice_fdTable {fuel : Nat} {s s2 : FS} {fd : Int} {buf : Nat → Nat} {count : Nat}
    {r : Int} (h : fs_write_splice fuel s fd buf count = some (s2, r)) :
    ∃ off, s2.fdTable = setAt s.fdTable fd.toNat { s.fdTable fd.toNat with fileOffset := off } := by
  unfold fs_write_splice at h
  simp only at h
  split at h
  · cases h
  · split at h
    · cases h
    · cases h
      exact ⟨_, rfl⟩

theorem HandlesTidy.setOffset {s : FS} (ht : HandlesTidy s) {fd : Int} (hb : ¬ badHandle s fd)
    {t : Nat → fileDescriptor} {off : Int}
    (he : t = setAt s.fdTable fd.toNat { s.fdTable fd.toNat with fileOffset := off }) :
    ∀ i, i < FS_OPEN_MAX_COUNT → (t i).fileIndex = -1 → (t i).fileOffset = 0 := by
  intro i hi h1
  have hne : (s.fdTable fd.toNat).fileIndex ≠ -1 := fun e => hb (Or.inr (Or.inr (Or.inr e)))
  subst he
  by_cases hf : i = fd.toNat
  · subst hf
    rw [setAt_same] at h1
    exact absurd h1 hne
  · rw [setAt_other _ _ hf] at h1 ⊢
    exact ht i hi h1

theorem fs_write_tidy {fuel : Nat} {s s2 : FS} {fd : Int} {buf : Nat → Nat} {count : Nat} {r : Int}
    (h : fs_write fuel s fd buf count = some (s2, r)) (ht : HandlesTidy s) : HandlesTidy s2 := by
  unfold fs_write at h
  split at h
  · cases h; exact ht
  · rename_i hg
    have hb : ¬ badHandle s fd := fun e => hg (Or.inl e)
    split at h
    · cases h; exact ht
    · split at h
      · cases h
      · rename_i s1 r1 hx
        cases h
        have := (fs_write_extend_frame hx).1 _ _ rfl
        intro i hi
        rw [this.1]
        exact ht i hi
      · rename_i s1 c1 hx
        obtain ⟨hfd, _, _, hds⟩ := (fs_write_extend_frame hx).2 _ _ rfl
        obtain ⟨off, ho⟩ := fs_write_splice_fdTable h
        rw [hfd] at ho
        exact ht.setOffset hb ho

theorem fs_read_tidy {fuel : Nat} {s s2 : FS} {fd : Int} {buf out : Nat → Nat} {count : Nat}
    {r : Int} (h : fs_read fuel s fd buf count = some (s2, out, r)) (ht : HandlesTidy s) :
    HandlesTidy s2 := by
  unfold fs_read at h
  split at h
  · cases h; exact ht
  · rename_i hg
    have hb : ¬ badHandle s fd := fun e => hg (Or.inl e)
    simp only at h
    split at h
    · cases h; exact ht
    · split at h
      · cases h
      · cases h
        exact ht.setOffset hb rfl

theorem fs_delete_fdTable {fuel : Nat} {s s2 : FS} {name : List Nat} {r : Int}
    (h : fs_delete fuel s name = some (s2, r)) : s2.fdTable = s.fdTable := by
  unfold fs_delete at h
  split at h
  · cases h; rfl
  · simp only at h
    split at h
    · cases h; rfl
    · split at h
      · cases h; rfl
      · split at h
        · cases h
        · cases h; rfl

theorem fs_create_fdTable (s : FS) (name : List Nat) : (fs_create s name).1.fdTable = s.fdTable := by
  unfold fs_create
  split
  · rfl
  · split
    · rfl
    · split <;> rfl

theorem fs_umount_fdTable (s : FS) : (fs_umount s).1.fdTable = s.fdTable := by
  unfold fs_umount
  simp only
  split_ifs <;> rfl

theorem fs_open_tidy (s : FS) (name : List Nat) (ht : HandlesTidy s) :
    HandlesTidy (fs_open s name).1 := by
  unfold fs_open
  simp only
  split_ifs with h1 h2 h3
  · exact ht
  · exact ht
  · exact ht
  · intro i hi hx
    simp only at hx ⊢
    by_cases hf : i = (findEmptyFD s.fdTable).toNat
    · subst hf
      rw [setAt_same] at hx
      exact absurd hx h3
    · rw [setAt_other _ _ hf] at hx ⊢
      exact ht i hi hx

theorem fs_close_tidy (s : FS) (fd : Int) (ht : HandlesTidy s) : HandlesTidy (fs_close s fd).1 := by
  unfold fs_close
  split_ifs with h1
  · exact ht
  · intro i hi hx
    simp only at hx ⊢
    by_cases hf : i = fd.toNat
    · subst hf
      rw [setAt_same]
    · rw [setAt_other _ _ hf] at hx ⊢
      exact ht i hi hx

theorem fs_lseek_tidy (s : FS) (fd : Int) (offset : Nat) (ht : HandlesTidy s) :
    HandlesTidy (fs_lseek s fd offset).1 := by
  unfold fs_lseek
  split_ifs with h1
  · exact ht
  · exact ht.setOffset (fun e => h1 (Or.inl e)) rfl

theorem Step.keeps_tidy {s s2 : FS} (st : Step s s2) (ht : HandlesTidy s) : HandlesTidy s2 := by
  cases st with
  | mount s img =>
    rcases fs_mount_fdTable s img with h | h
    · intro i hi; rw [h]; exact ht i hi
    · intro i hi _; rw [h]; simp only [if_pos hi]
  | umount s => intro i hi; rw [fs_umount_fdTable]; exact ht i hi
  | query s => exact ht
  | create s name => intro i hi; rw [fs_create_fdTable]; exact ht i hi
  | delete h => intro i hi; rw [fs_delete_fdTable h]; exact ht i hi
  | openFile s name => exact fs_open_tidy s name ht
  | close s fd => exact fs_close_tidy s fd ht
  | lseek s fd offset => exact fs_lseek_tidy s fd offset ht
  | write h => exact fs_write_tidy h ht
  | read h => exact fs_read_tidy h ht

/-- In every state reachable from a successful mount the unused handles have
their cursor at 0. -/
theorem Reachable.handles_tidy {s : FS} (hr : Reachable s) : HandlesTidy s := by
  induction hr with
  | mounted s0 img h => exact fs_mount_tidy s0 img h
  | step _ st ih => exact st.keeps_tidy ih

/-- C14 (open yields the lowest free handle at offset 0).  In every state
reachable from a successful `fs_mount` by a sequence of API calls: when
`fs_open` returns a value other than -1, the value is the smallest `k` in
`[0, 32)` whose handle was unused; afterwards handle `k` refers to the first root
slot `idx` whose name compares equal to the name, with its cursor at 0; every
other handle and the rest of the state are unchanged; and `fs_open` returns -1
and changes nothing when all 32 handles are in use. -/
theorem fs_open_lowest_free_handle (s : FS) (name : List Nat) (hr : Reachable s) :
    ((fs_open s name).2 ≠ -1 →
      ∃ k idx : Nat, (fs_open s name).2 = (k : Int)
        ∧ k < FS_OPEN_MAX_COUNT ∧ (s.fdTable k).fileIndex = -1
        ∧ (∀ j, j < k → (s.fdTable j).fileIndex ≠ -1)
        ∧ idx < FS_FILE_MAX_COUNT ∧ slotHolds (s.Root idx) name
        ∧ (∀ j, j < idx → ¬ slotHolds (s.Root j) name)
        ∧ (fs_open s name).1.fdTable k = { fileIndex := (idx : Int), fileOffset := 0 }
        ∧ (∀ j, j ≠ k → (fs_open s name).1.fdTable j = s.fdTable j)
        ∧ (fs_open s name).1.Root = s.Root ∧ (fs_open s name).1.FAT = s.FAT
        ∧ (fs_open s name).1.Superblock = s.Superblock ∧ (fs_open s name).1.disk = s.disk
        ∧ (fs_open s name).1.diskStatus = s.diskStatus)
    ∧ ((∀ j, j < FS_OPEN_MAX_COUNT → (s.fdTable j).fileIndex ≠ -1) → fs_open s name = (s, -1)) := by
  have ht := hr.handles_tidy
  refine ⟨?_, ?_⟩
  · intro hne
    unfold fs_open at hne ⊢
    simp only at hne ⊢
    split_ifs at hne ⊢ with h1 h2 h3
    · exact absurd rfl hne
    · exact absurd rfl hne
    · exact absurd rfl hne
    · rcases findEmptyFD_loop_spec s.fdTable FS_OPEN_MAX_COUNT 0 with ⟨e, _⟩ | ⟨k, e, _, hk, hfree, hlow⟩
      · exact absurd e h2
      · rcases findFile_spec s.Root name FS_FILE_MAX_COUNT 0 with e2 | ⟨idx, e2, _, hidx, hholds, hfirst⟩
        · exact absurd e2 h3
        · have ek : findEmptyFD s.fdTable = (k : Int) := e
          refine ⟨k, idx, ek, by omega, hfree, fun j hj => hlow j (Nat.zero_le _) hj, by omega,
            hholds, fun j hj => hfirst j (Nat.zero_le _) hj, ?_, ?_, rfl, rfl, rfl, rfl, rfl⟩
          · simp only [ek, e2, Int.toNat_ofNat, setAt_same]
            rw [ht k (by omega) hfree]
          · intro j hj
            simp only [ek, Int.toNat_ofNat]
            rw [setAt_other _ _ hj]
  · intro hall
    unfold fs_open
    simp only
    split_ifs with h1 h2 h3
    · rfl
    · rfl
    · rfl
    · exfalso
      rcases findEmptyFD_loop_spec s.fdTable FS_OPEN_MAX_COUNT 0 with ⟨e, _⟩ | ⟨k, _, _, hk, hfree, _⟩
      · exact h2 e
      · exact hall k (by omega) hfree

theorem createdFS_reachable : Reachable createdFS :=
  Reachable.step (Reachable.mounted initialFS (some (formattedDisk 4))
    (by set_option maxRecDepth 100000 in decide)) (Step.create _ [102])

theorem fs_open_lowest_free_handle_witness :
    Reachable createdFS
    ∧ (fs_open createdFS [102]).2 = 0
    ∧ (((fs_open createdFS [102]).2 ≠ -1 →
        ∃ k idx : Nat, (fs_open createdFS [102]).2 = (k : Int)
          ∧ k < FS_OPEN_MAX_COUNT ∧ (createdFS.fdTable k).fileIndex = -1
          ∧ (∀ j, j < k → (createdFS.fdTable j).fileIndex ≠ -1)
          ∧ idx < FS_FILE_MAX_COUNT ∧ slotHolds (createdFS.Root idx) [102]
          ∧ (∀ j, j < idx → ¬ slotHolds (createdFS.Root j) [102])
          ∧ (fs_open createdFS [102]).1.fdTable k = { fileIndex := (idx : Int), fileOffset := 0 }
          ∧ (∀ j, j ≠ k → (fs_open createdFS [102]).1.fdTable j = createdFS.fdTable j)
          ∧ (fs_open createdFS [102]).1.Root = createdFS.Root
          ∧ (fs_open createdFS [102]).1.FAT = createdFS.FAT
          ∧ (fs_open createdFS [102]).1.Superblock = createdFS.Superblock
          ∧ (fs_open createdFS [102]).1.disk = createdFS.disk
          ∧ (fs_open createdFS [102]).1.diskStatus = createdFS.diskStatus)
      ∧ ((∀ j, j < FS_OPEN_MAX_COUNT → (createdFS.fdTable j).fileIndex ≠ -1) →
          fs_open createdFS [102] = (createdFS, -1))) :=
  ⟨createdFS_reachable, by set_option maxRecDepth 100000 in decide,
    fs_open_lowest_free_handle createdFS [102] createdFS_reachable⟩

/-! ## Ownership of blocks -/

theorem fs_write_alloc_shape (dbc : Nat) (hdbc : dbc ≤ 65535) (n : Nat) :
    ∀ (FAT : Nat → Nat) (first cur : Nat) (pre : List Nat),
      IsChain FAT first (pre ++ [cur]) → (∀ c ∈ pre ++ [cur], c ≠ 0) →
      ∃ new : List Nat,
        IsChain (fs_write_alloc dbc n FAT cur).1 first (pre ++ [cur] ++ new)
        ∧ (∀ c ∈ new, 1 ≤ c ∧ c < dbc ∧ FAT c = 0)
        ∧ (∀ j, j ∉ pre ++ [cur] → j ∉ new → (fs_write_alloc dbc n FAT cur).1 j = FAT j) := by
  induction n with
  | zero =>
    intro FAT first cur pre h _
    refine ⟨[], ?_, ?_, ?_⟩
    · simpa [fs_write_alloc] using h
    · simp
    · intro j _ _; rfl
  | succ n ih =>
    intro FAT first cur pre h hz
    have hcur : FAT cur = FAT_EOC := h.last_eoc
    rcases findEmptyFAT_spec FAT dbc with ⟨h0, _⟩ | ⟨h1, h2, h3, _⟩
    · rw [fs_write_alloc_full n h0 hcur]
      refine ⟨[], ?_, ?_, ?_⟩
      · simpa using h
      · simp
      · intro j _ _; rfl
    · rw [fs_write_alloc_step n (by omega) (by omega)]
      generalize findEmptyFAT FAT dbc = f at h1 h2 h3
      have hfz : f ≠ 0 := by omega
      have hfe : f ≠ FAT_EOC := by simp only [FAT_EOC]; omega
      have hnot : f ∉ pre ++ [cur] := fun hm => h.entry_ne_zero hz f hm h3
      have hfc : f ≠ cur := by
        intro e; apply hnot; simp [e]
      have hchain := h.snoc hnot hfe
      have hz2 : ∀ c ∈ pre ++ [cur] ++ [f], c ≠ 0 := by
        intro c hc
        rcases List.mem_append.mp hc with hc | hc
        · exact hz c hc
        · rw [List.mem_singleton.mp hc]; exact hfz
      obtain ⟨new, hc1, hc2, hc3⟩ := ih _ first f (pre ++ [cur]) hchain hz2
      refine ⟨f :: new, ?_, ?_, ?_⟩
      · simpa using hc1
      · intro c hc
        rcases List.mem_cons.mp hc with rfl | hc
        · exact ⟨h1, h2, h3⟩
        · obtain ⟨r1, r2, r3⟩ := hc2 c hc
          refine ⟨r1, r2, ?_⟩
          have hcf : c ≠ f := by
            intro e
            rw [e, setAt_same] at r3
            exact absurd r3 (by decide)
          rw [setAt_other _ _ hcf] at r3
          have hcc : c ≠ cur := by
            intro e
            rw [e, setAt_same] at r3
            exact hfz r3
          rw [setAt_other _ _ hcc] at r3
          exact r3
      · intro j hj1 hj2
        have hjf : j ≠ f := fun e => hj2 (by simp [e])
        have hjn : j ∉ new := fun hm => hj2 (List.mem_cons_of_mem _ hm)
        have hjc : j ≠ cur := fun e => hj1 (by simp [e])
        have hj3 : j ∉ pre ++ [cur] ++ [f] := by
          intro hm
          rcases List.mem_append.mp hm with hm | hm
          · exact hj1 hm
          · exact hjf (List.mem_singleton.mp hm)
        rw [hc3 j hj3 hjn, setAt_other _ _ hjf, setAt_other _ _ hjc]

theorem loadChain_total {d : BlockDisk} {FAT : Nat → Nat} {ds b : Nat} {cs : List Nat}
    (h : IsChain FAT b cs) :
    ∀ fuel di mem, cs.length ≤ fuel → ∃ mem2, loadChain d FAT ds fuel b di mem = some mem2 := by
  induction h with
  | nil =>
    intro fuel di mem _
    exact ⟨mem, by cases fuel <;> simp [loadChain]⟩
  | @cons b cs hb _ ih =>
    intro fuel di mem hf
    cases fuel with
    | zero => simp at hf
    | succ f =>
      obtain ⟨mem2, e⟩ := ih f (di + BLOCK_SIZE) (readInto d (b + ds) mem di) (by simpa using hf)
      exact ⟨mem2, by simp only [loadChain, if_neg hb]; exact e⟩

theorem storeChain_others {FAT : Nat → Nat} {ds b : Nat} {cs : List Nat} (h : IsChain FAT b cs)
    (mem : Nat → Nat) :
    ∀ fuel di (d : BlockDisk), cs.length ≤ fuel →
      ∃ d2, storeChain FAT ds mem fuel b di d = some d2
        ∧ ∀ blk, (∀ c ∈ cs, blk ≠ c + ds) → d2.data blk = d.data blk := by
  induction h with
  | nil =>
    intro fuel di d _
    exact ⟨d, by cases fuel <;> simp [storeChain], fun _ _ => rfl⟩
  | @cons b cs hb _ ih =>
    intro fuel di d hf
    cases fuel with
    | zero => simp at hf
    | succ f =>
      obtain ⟨d2, e, hother⟩ :=
        ih f (di + BLOCK_SIZE) (writeFrom d (b + ds) mem di) (by simpa using hf)
      refine ⟨d2, by simp only [storeChain, if_neg hb]; exact e, ?_⟩
      intro blk hblk
      rw [hother blk (fun c hc => hblk c (List.mem_cons_of_mem _ hc)), writeFrom,
        block_write_other _ _ (hblk b (List.mem_cons_self _ _))]

/-- The first part of `fs_write` on a file whose chain `cs` has its entries
above 0: with fuel for the chain it ends, either in the early `return 0` or by
going on, and the state it leaves has the chain of the file extended by free
entries and nothing else of the other files changed. -/
theorem fs_write_extend_shape {s : FS} {fd : Int} {cs : List Nat} (count fuel : Nat)
    (hdbc : s.Superblock.numberOfDataBlocks ≤ 65535)
    (hch : IsChain s.FAT (s.Root (s.fdTable fd.toNat).fileIndex.toNat).firstDataBlockIndex cs)
    (hr : ∀ c ∈ cs, 1 ≤ c) (hfuel : cs.length ≤ fuel) :
    ∃ x s1 new, fs_write_extend fuel s fd count = some x
      ∧ (x = Extended.returned s1 0 ∨ ∃ c1, x = Extended.goesOn s1 c1)
      ∧ s1.fdTable = s.fdTable ∧ s1.disk = s.disk
      ∧ Grown s s1 (s.fdTable fd.toNat).fileIndex.toNat cs new := by
  generalize hA : (s.fdTable fd.toNat).fileIndex.toNat = A at hch
  have hnz : ∀ c ∈ cs, c ≠ 0 := fun c hc => by have := hr c hc; omega
  unfold fs_write_extend
  simp only [hA]
  split
  · rw [walkToEnd_chain hch fuel 0 hfuel]
    simp only
    rcases List.eq_nil_or_concat cs with rfl | ⟨pre, cur, hcs⟩
    · have hfirst : (s.Root A).firstDataBlockIndex = FAT_EOC := IsChain.nil_iff.mp hch
      simp only [List.getLastD_nil, if_true]
      rcases findEmptyFAT_spec s.FAT s.Superblock.numberOfDataBlocks with ⟨h0, _⟩ | ⟨h1, h2, h3, _⟩
      · have hu : u16 (findEmptyFAT s.FAT s.Superblock.numberOfDataBlocks) = 0 := by
          rw [h0]; rfl
        simp only [hu, if_true]
        refine ⟨_, _, [], rfl, Or.inl rfl, rfl, rfl, rfl, rfl, ?_, ?_, ?_, ?_, ?_, ?_⟩
        · intro j hj
          simp only
          rw [setAt_other _ _ hj]
        · simp only [setAt_same]
        · simp only [setAt_same, List.append_nil]
          exact IsChain.nil
        · simp
        · intro j hj _ _
          simp only
          rw [setAt_other _ _ hj]
        · intro _ _; rfl
      · generalize hf : findEmptyFAT s.FAT s.Superblock.numberOfDataBlocks = f at h1 h2 h3
        have hu : u16 f = f := u16_of_lt (by omega)
        have hfz : f ≠ 0 := by omega
        have hfe : f ≠ FAT_EOC := by simp only [FAT_EOC]; omega
        simp only [hu, if_neg hfz]
        have hch1 : IsChain (setAt s.FAT f FAT_EOC) f ([] ++ [f]) := by
          refine IsChain.cons hfe ?_
          rw [setAt_same]
          exact IsChain.nil
        obtain ⟨new, hc1, hc2, hc3⟩ :=
          fs_write_alloc_shape s.Superblock.numberOfDataBlocks hdbc
            (toInt (neededBlocks (s.fdTable fd.toNat).fileOffset count
              - fileBlocks (s.Root A).fileSize) - 1).toNat
            (setAt s.FAT f FAT_EOC) f f [] hch1 (by simpa using hfz)
        refine ⟨_, _, f :: new, rfl, Or.inr ⟨_, rfl⟩, rfl, rfl, rfl, rfl, ?_, ?_, ?_, ?_, ?_, ?_⟩
        · intro j hj
          simp only
          rw [setAt_other _ _ hj]
        · simp only [setAt_same]
        · simp only [setAt_same, List.nil_append]
          simpa using hc1
        · intro c hc
          rcases List.mem_cons.mp hc with rfl | hc
          · exact ⟨h1, h2, h3⟩
          · obtain ⟨r1, r2, r3⟩ := hc2 c hc
            refine ⟨r1, r2, ?_⟩
            have hcf : c ≠ f := by
              intro e
              rw [e, setAt_same] at r3
              exact absurd r3 (by decide)
            rw [setAt_other _ _ hcf] at r3
            exact r3
        · intro j _ _ hj
          simp only
          have hjf : j ≠ f := fun e => hj (by simp [e])
          rw [hc3 j (by simpa using hjf) (fun hm => hj (List.mem_cons_of_mem _ hm)),
            setAt_other _ _ hjf]
        · intro _ _; rfl
    · rw [List.concat_eq_append] at hcs
      subst hcs
      have hcur : cur ≠ 0 := hnz cur (by simp)
      simp only [List.getLastD_concat, if_neg hcur]
      obtain ⟨new, hc1, hc2, hc3⟩ :=
        fs_write_alloc_shape s.Superblock.numberOfDataBlocks hdbc
          (toInt (neededBlocks (s.fdTable fd.toNat).fileOffset count
            - fileBlocks (s.Root A).fileSize)).toNat
          s.FAT (s.Root A).firstDataBlockIndex cur pre hch hnz
      refine ⟨_, _, new, rfl, Or.inr ⟨_, rfl⟩, rfl, rfl, rfl, rfl, ?_, ?_, ?_, hc2, ?_, ?_⟩
      · intro j hj
        simp only
        rw [setAt_other _ _ hj]
      · simp only [setAt_same]
      · simp only [setAt_same]
        exact hc1
      · intro j _ h1 h2
        exact hc3 j h1 h2
      · intro _ _; rfl
  · refine ⟨_, s, [], rfl, Or.inr ⟨_, rfl⟩, rfl, rfl, rfl, rfl, fun _ _ => rfl, rfl, ?_, ?_,
      fun _ _ _ _ => rfl, fun _ _ => rfl⟩
    · simpa using hch
    · simp

theorem Grown.refl {s : FS} {A : Nat} {cs : List Nat}
    (hch : IsChain s.FAT (s.Root A).firstDataBlockIndex cs) : Grown s s A cs [] :=
  ⟨rfl, rfl, fun _ _ => rfl, rfl, by simpa using hch, by simp, fun _ _ _ _ => rfl, fun _ _ => rfl⟩

/-- What `fs_write` does to the structure of the filesystem, for a handle whose
file has the well-formed chain `cs`: with fuel for the data blocks it returns,
and the state it leaves has the chain of the file extended by free entries and
nothing else of the other files changed. -/
theorem fs_write_shape {s : FS} {fd : Int} {cs : List Nat} (buf : Nat → Nat) (count fuel : Nat)
    (hdbc : s.Superblock.numberOfDataBlocks ≤ 65535)
    (hch : IsChain s.FAT (s.Root (s.fdTable fd.toNat).fileIndex.toNat).firstDataBlockIndex cs)
    (hr : ∀ c ∈ cs, 1 ≤ c ∧ c < s.Superblock.numberOfDataBlocks)
    (hfuel : s.Superblock.numberOfDataBlocks ≤ fuel) :
    ∃ s2 r new, fs_write fuel s fd buf count = some (s2, r)
      ∧ Grown s s2 (s.fdTable fd.toNat).fileIndex.toNat cs new := by
  have hlen : cs.length ≤ fuel := by
    have := chain_length_le hch.nodup hr
    omega
  unfold fs_write
  split
  · exact ⟨s, -1, [], rfl, Grown.refl hch⟩
  · split
    · exact ⟨s, 0, [], rfl, Grown.refl hch⟩
    · obtain ⟨x, s1, new, hx, hform, hfd, hdisk, hg⟩ :=
        fs_write_extend_shape count fuel hdbc hch (fun c hc => (hr c hc).1) hlen
      rw [hx]
      rcases hform with rfl | ⟨c1, rfl⟩
      · exact ⟨s1, 0, new, rfl, hg⟩
      · obtain ⟨hsb, hds, hroot, hname, hchain, hnew, hfat, hdata⟩ := hg
        have hlen2 : (cs ++ new).length ≤ fuel := by
          have := @chain_length_le (cs ++ new) s.Superblock.numberOfDataBlocks hchain.nodup (by
            intro c hc
            rcases List.mem_append.mp hc with hc | hc
            · exact hr c hc
            · exact ⟨(hnew c hc).1, (hnew c hc).2.1⟩)
          omega
        simp only
        unfold fs_write_splice
        simp only [hfd]
        obtain ⟨mem2, hload⟩ :=
          @loadChain_total s1.disk s1.FAT s1.Superblock.dataBlockStartIndex _ _
            hchain fuel 0 (fun _ => 0) hlen2
        rw [hload]
        simp only
        obtain ⟨d2, hstore, hother⟩ :=
          @storeChain_others s1.FAT s1.Superblock.dataBlockStartIndex _ _ hchain
            (memcpyInto mem2 (s.fdTable fd.toNat).fileOffset.toNat buf c1) fuel 0 s1.disk hlen2
        rw [hstore]
        refine ⟨_, _, new, rfl, hsb, hds, hroot, hname, hchain, hnew, hfat, ?_⟩
        intro blk hblk
        simp only
        rw [hother blk (by rw [hsb]; exact hblk), hdisk]

/-- Extending the chain of the used slot `A` by free entries keeps the chains
of all used slots well formed and disjoint, and leaves the root entry, the
chain and the data blocks of every other used slot as they were. -/
theorem Grown.preserves {s s2 : FS} {A : Nat} {cs new : List Nat} (hg : Grown s s2 A cs new)
    (hok : ChainsOK s) (hna : NoAliasing s) (hA : A < FS_FILE_MAX_COUNT)
    (hu : slotUsed (s.Root A))
    (hch : IsChain s.FAT (s.Root A).firstDataBlockIndex cs)
    (hr : ∀ c ∈ cs, 1 ≤ c ∧ c < s.Superblock.numberOfDataBlocks) :
    ChainsOK s2 ∧ NoAliasing s2
    ∧ ∀ B, B < FS_FILE_MAX_COUNT → B ≠ A → slotUsed (s.Root B) →
        s2.Root B = s.Root B
        ∧ ∀ csB, IsChain s.FAT (s.Root B).firstDataBlockIndex csB →
            IsChain s2.FAT (s2.Root B).firstDataBlockIndex csB
            ∧ ∀ c ∈ csB, s2.disk.data (c + s.Superblock.dataBlockStartIndex)
                = s.disk.data (c + s.Superblock.dataBlockStartIndex) := by
  obtain ⟨hsb, _, hroot, hname, hchain, hnew, hfat, hdata⟩ := hg
  have hused : ∀ i, slotUsed (s2.Root i) ↔ slotUsed (s.Root i) := by
    intro i
    by_cases hi : i = A
    · subst hi; unfold slotUsed; rw [hname]
    · rw [hroot i hi]
  have hrange2 : ∀ c ∈ cs ++ new, 1 ≤ c ∧ c < s2.Superblock.numberOfDataBlocks := by
    intro c hc
    rw [hsb]
    rcases List.mem_append.mp hc with hc | hc
    · exact hr c hc
    · exact ⟨(hnew c hc).1, (hnew c hc).2.1⟩
  have key : ∀ B, B < FS_FILE_MAX_COUNT → B ≠ A → slotUsed (s.Root B) →
      ∀ csB, IsChain s.FAT (s.Root B).firstDataBlockIndex csB →
        (∀ c ∈ csB, 1 ≤ c ∧ c < s.Superblock.numberOfDataBlocks)
        ∧ (∀ c ∈ csB, c ∉ cs ++ new)
        ∧ IsChain s2.FAT (s2.Root B).firstDataBlockIndex csB := by
    intro B hB hBA huB csB hcB
    obtain ⟨cs0, h0, hr0⟩ := hok B hB huB
    have e := IsChain.unique hcB h0
    subst e
    have hdis : ∀ c ∈ csB, c ∉ cs ++ new := by
      intro c hc hm
      rcases List.mem_append.mp hm with hm | hm
      · exact hna B A hB hA hBA huB hu csB cs hcB hch c hc hm
      · exact hcB.entry_ne_zero (fun x hx => by have := hr0 x hx; omega) c hc (hnew c hm).2.2
    refine ⟨hr0, hdis, ?_⟩
    rw [hroot B hBA]
    refine hcB.congr (fun c hc => hfat c ?_ ?_ ?_)
    · have := hr0 c hc; omega
    · exact fun hm => hdis c hc (List.mem_append_left _ hm)
    · exact fun hm => hdis c hc (List.mem_append_right _ hm)
  refine ⟨?_, ?_, ?_⟩
  · intro i hi hui
    by_cases hiA : i = A
    · subst hiA; exact ⟨cs ++ new, hchain, hrange2⟩
    · obtain ⟨cs0, h0, _⟩ := hok i hi ((hused i).mp hui)
      obtain ⟨k1, _, k3⟩ := key i hi hiA ((hused i).mp hui) cs0 h0
      exact ⟨cs0, k3, fun c hc => by rw [hsb]; exact k1 c hc⟩
  · intro i j hi hj hij hui huj ci cj hci hcj c hc1 hc2
    by_cases hiA : i = A
    · subst hiA
      have hjA : j ≠ i := fun e => hij e.symm
      obtain ⟨cs0, h0, _⟩ := hok j hj ((hused j).mp huj)
      obtain ⟨_, k2, k3⟩ := key j hj hjA ((hused j).mp huj) cs0 h0
      have e1 := IsChain.unique hci hchain
      have e2 := IsChain.unique hcj k3
      subst e1; subst e2
      exact k2 c hc2 hc1
    · obtain ⟨cs0, h0, _⟩ := hok i hi ((hused i).mp hui)
      obtain ⟨_, k2, k3⟩ := key i hi hiA ((hused i).mp hui) cs0 h0
      have e1 := IsChain.unique hci k3
      subst e1
      by_cases hjA : j = A
      · subst hjA
        have e2 := IsChain.unique hcj hchain
        subst e2
        exact k2 c hc1 hc2
      · obtain ⟨cs1, h1, _⟩ := hok j hj ((hused j).mp huj)
        obtain ⟨_, _, k5⟩ := key j hj hjA ((hused j).mp huj) cs1 h1
        have e2 := IsChain.unique hcj k5
        subst e2
        exact hna i j hi hj hij ((hused i).mp hui) ((hused j).mp huj) ci cj h0 h1 c hc1 hc2
  · intro B hB hBA huB
    refine ⟨hroot B hBA, fun csB hcB => ?_⟩
    obtain ⟨_, k2, k3⟩ := key B hB hBA huB csB hcB
    refine ⟨k3, fun c hc => ?_⟩
    rw [hdata]
    intro c2 hc2 e
    have : c = c2 := by omega
    exact k2 c hc (this ▸ hc2)

theorem fs_create_shape (s : FS) (name : List Nat) :
    (fs_create s name).1 = s
    ∨ ∃ fr e, (fs_create s name).1 = { s with Root := setAt s.Root fr e }
        ∧ e.firstDataBlockIndex = FAT_EOC := by
  unfold fs_create
  split
  · exact Or.inl rfl
  · split
    · exact Or.inl rfl
    · split
      · exact Or.inl rfl
      · exact Or.inr ⟨_, _, rfl, rfl⟩

theorem fs_create_no_aliasing (s : FS) (name : List Nat) (hok : ChainsOK s) (hna : NoAliasing s) :
    ChainsOK (fs_create s name).1 ∧ NoAliasing (fs_create s name).1 := by
  rcases fs_create_shape s name with e | ⟨fr, e, he, hfirst⟩
  · rw [e]; exact ⟨hok, hna⟩
  · rw [he]
    refine ⟨?_, ?_⟩
    · intro i hi hui
      simp only at hui ⊢
      by_cases hif : i = fr
      · subst hif
        rw [setAt_same, hfirst]
        exact ⟨[], IsChain.nil, by simp⟩
      · rw [setAt_other _ _ hif] at hui ⊢
        exact hok i hi hui
    · intro i j hi hj hij hui huj ci cj hci hcj c hc1 hc2
      simp only at hui huj hci hcj
      by_cases hif : i = fr
      · subst hif
        rw [setAt_same, hfirst] at hci
        rw [IsChain.eoc_nil hci] at hc1
        simp at hc1
      · by_cases hjf : j = fr
        · subst hjf
          rw [setAt_same, hfirst] at hcj
          rw [IsChain.eoc_nil hcj] at hc2
          simp at hc2
        · rw [setAt_other _ _ hif] at hui hci
          rw [setAt_other _ _ hjf] at huj hcj
          exact hna i j hi hj hij hui huj ci cj hci hcj c hc1 hc2

theorem fs_delete_no_aliasing (fuel : Nat) (s : FS) (name : List Nat)
    (hok : ChainsOK s) (hna : NoAliasing s)
    (hfuel : s.Superblock.numberOfDataBlocks ≤ fuel)
    (hname : ∀ idx : Nat, findFile s.Root name FS_FILE_MAX_COUNT 0 = (idx : Int) →
      slotUsed (s.Root idx)) :
    ∃ s2 r, fs_delete fuel s name = some (s2, r) ∧ ChainsOK s2 ∧ NoAliasing s2 := by
  by_cases hguard : strlen name > FS_FILENAME_LEN ∨ s.diskStatus ≠ 1
  · refine ⟨s, -1, ?_, hok, hna⟩
    unfold fs_delete
    rw [if_pos hguard]
  · rcases findFile_spec s.Root name FS_FILE_MAX_COUNT 0 with e | ⟨idx, e, _, hidx, _, _⟩
    · refine ⟨s, -1, ?_, hok, hna⟩
      unfold fs_delete
      rw [if_neg hguard]
      simp only [e, if_true]
    · have hidx2 : idx < FS_FILE_MAX_COUNT := by omega
      have hu := hname idx e
      obtain ⟨cs, hch, hr⟩ := hok idx hidx2 hu
      have hlen : cs.length ≤ fuel + 1 := by
        have := chain_length_le hch.nodup hr
        omega
      obtain ⟨s2, hrun, hzero, hkeep, hslot, hroot, _, hsb, _⟩ :=
        fs_delete_chain fuel s name idx cs (by
          by_contra h; exact hguard (Or.inr h)) (by
          by_contra h; exact hguard (Or.inl (by omega))) e hch hlen
      have hfree : ¬ slotUsed (s2.Root idx) := by
        rw [hslot]; unfold slotUsed; simp [FS_FILENAME_LEN]
      have key : ∀ i, i < FS_FILE_MAX_COUNT → slotUsed (s2.Root i) →
          i ≠ idx ∧ slotUsed (s.Root i)
          ∧ ∀ ci, IsChain s.FAT (s.Root i).firstDataBlockIndex ci →
              IsChain s2.FAT (s2.Root i).firstDataBlockIndex ci := by
        intro i hi hui
        have hne : i ≠ idx := fun e => hfree (e ▸ hui)
        have hui2 : slotUsed (s.Root i) := by rw [← hroot i hne]; exact hui
        refine ⟨hne, hui2, fun ci hci => ?_⟩
        rw [hroot i hne]
        refine hci.congr (fun c hc => hkeep c ?_)
        exact hna i idx hi hidx2 hne hui2 hu ci cs hci hch c hc
      refine ⟨s2, 0, hrun, ?_, ?_⟩
      · intro i hi hui
        obtain ⟨_, hui2, k⟩ := key i hi hui
        obtain ⟨ci, hci, hri⟩ := hok i hi hui2
        exact ⟨ci, k ci hci, fun c hc => by rw [hsb]; exact hri c hc⟩
      · intro i j hi hj hij hui huj ci cj hci hcj c hc1 hc2
        obtain ⟨_, hui2, ki⟩ := key i hi hui
        obtain ⟨_, huj2, kj⟩ := key j hj huj
        obtain ⟨ci0, hci0, _⟩ := hok i hi hui2
        obtain ⟨cj0, hcj0, _⟩ := hok j hj huj2
        have e1 := IsChain.unique hci (ki ci0 hci0)
        have e2 := IsChain.unique hcj (kj cj0 hcj0)
        subst e1; subst e2
        exact hna i j hi hj hij hui2 huj2 ci cj hci0 hcj0 c hc1 hc2

/-- For the calls that keep their accesses inside the bounce buffer, no
aliasing is preserved.  In a state whose number of data blocks is at most 65535
and in which the FAT chains of all used root entries are well formed and
pairwise disjoint: every `fs_write` through a handle on a used file `A` whose
accesses to `fullFile` stay inside the buffer (with fuel for the data blocks)
returns, every `fs_create` returns, and every `fs_delete` of a name that the
lookup resolves to a used slot returns, and in the state each of them leaves
the chains of the used root entries are still well formed and pairwise
disjoint; moreover the write leaves the root entry, the chain and the data
blocks of every other used file `B` unchanged. -/
theorem no_aliasing_preserved_in_bounds (s : FS)
    (hdbc : s.Superblock.numberOfDataBlocks ≤ 65535) (hok : ChainsOK s) (hna : NoAliasing s) :
    (∀ (fuel fd A : Nat) (buf : Nat → Nat) (count : Nat),
        s.Superblock.numberOfDataBlocks ≤ fuel → fd < FS_OPEN_MAX_COUNT →
        (s.fdTable fd).fileIndex = (A : Int) → A < FS_FILE_MAX_COUNT → slotUsed (s.Root A) →
        fs_write_inBounds fuel s (fd : Int) count = true →
        ∃ s2 r, fs_write fuel s (fd : Int) buf count = some (s2, r)
          ∧ ChainsOK s2 ∧ NoAliasing s2
          ∧ ∀ B, B < FS_FILE_MAX_COUNT → B ≠ A → slotUsed (s.Root B) →
              s2.Root B = s.Root B
              ∧ ∀ csB, IsChain s.FAT (s.Root B).firstDataBlockIndex csB →
                  IsChain s2.FAT (s2.Root B).firstDataBlockIndex csB
                  ∧ ∀ c ∈ csB, s2.disk.data (c + s.Superblock.dataBlockStartIndex)
                      = s.disk.data (c + s.Superblock.dataBlockStartIndex))
    ∧ (∀ name : List Nat, ChainsOK (fs_create s name).1 ∧ NoAliasing (fs_create s name).1)
    ∧ (∀ (fuel : Nat) (name : List Nat),
        s.Superblock.numberOfDataBlocks ≤ fuel →
        (∀ idx : Nat, findFile s.Root name FS_FILE_MAX_COUNT 0 = (idx : Int) →
          slotUsed (s.Root idx)) →
        ∃ s2 r, fs_delete fuel s name = some (s2, r) ∧ ChainsOK s2 ∧ NoAliasing s2) := by
  refine ⟨?_, fun name => fs_create_no_aliasing s name hok hna,
    fun fuel name hfuel hname => fs_delete_no_aliasing fuel s name hok hna hfuel hname⟩
  intro fuel fd A buf count hfuel _ hfd hA hu _
  obtain ⟨cs, hch, hr⟩ := hok A hA hu
  have hA2 : (s.fdTable ((fd : Int)).toNat).fileIndex.toNat = A := by
    simp only [Int.toNat_ofNat, hfd]
  obtain ⟨s2, r, new, hrun, hg⟩ :=
    @fs_write_shape s (fd : Int) cs buf count fuel hdbc (by rw [hA2]; exact hch) hr hfuel
  rw [hA2] at hg
  exact ⟨s2, r, hrun, hg.preserves hok hna hA hu hch hr⟩

theorem twoFilesFS_root (i : Nat) (h0 : i ≠ 0) (h1 : i ≠ 1) : twoFilesFS.Root i = zeroEntry := by
  simp only [twoFilesFS, if_neg h0, if_neg h1]

theorem twoFilesFS_used {i : Nat} (h : slotUsed (twoFilesFS.Root i)) : i = 0 ∨ i = 1 := by
  by_contra hn
  rw [twoFilesFS_root i (fun e => hn (Or.inl e)) (fun e => hn (Or.inr e))] at h
  exact absurd h (by decide)

theorem twoFilesFS_chain0 : IsChain twoFilesFS.FAT (twoFilesFS.Root 0).firstDataBlockIndex [1, 2] :=
  IsChain.cons (by decide) (IsChain.cons (by decide) IsChain.nil)

theorem twoFilesFS_chain1 : IsChain twoFilesFS.FAT (twoFilesFS.Root 1).firstDataBlockIndex [3] :=
  IsChain.cons (by decide) IsChain.nil

theorem twoFilesFS_chainsOK : ChainsOK twoFilesFS := by
  intro i _ hu
  rcases twoFilesFS_used hu with rfl | rfl
  · refine ⟨[1, 2], twoFilesFS_chain0, ?_⟩
    intro c hc
    simp only [List.mem_cons, List.mem_singleton, List.not_mem_nil, or_false] at hc
    rcases hc with rfl | rfl <;> decide
  · refine ⟨[3], twoFilesFS_chain1, ?_⟩
    intro c hc
    simp only [List.mem_singleton] at hc
    subst hc
    decide

theorem twoFilesFS_noAliasing : NoAliasing twoFilesFS := by
  intro i j _ _ hij hui huj ci cj hci hcj c hc1 hc2
  rcases twoFilesFS_used hui with rfl | rfl <;> rcases twoFilesFS_used huj with rfl | rfl
  · exact hij rfl
  · rw [IsChain.unique hci twoFilesFS_chain0] at hc1
    rw [IsChain.unique hcj twoFilesFS_chain1] at hc2
    simp only [List.mem_cons, List.mem_singleton, List.not_mem_nil, or_false] at hc1 hc2
    omega
  · rw [IsChain.unique hci twoFilesFS_chain1] at hc1
    rw [IsChain.unique hcj twoFilesFS_chain0] at hc2
    simp only [List.mem_cons, List.mem_singleton, List.not_mem_nil, or_false] at hc1 hc2
    omega
  · exact hij rfl

theorem no_aliasing_preserved_in_bounds_example :
    twoFilesFS.diskStatus = 1 ∧ ChainsOK twoFilesFS ∧ NoAliasing twoFilesFS
    ∧ (twoFilesFS.fdTable 0).fileIndex = ((0 : Nat) : Int)
    ∧ slotUsed (twoFilesFS.Root 0) ∧ slotUsed (twoFilesFS.Root 1)
    ∧ fs_write_inBounds 5 twoFilesFS ((0 : Nat) : Int) 100 = true
    ∧ (fs_write 5 twoFilesFS 0 (fun _ => 1) 100).map
        (fun r => (r.2, r.1.FAT 1, r.1.FAT 2, r.1.FAT 3, r.1.FAT 4))
        = some (100, 2, 4, FAT_EOC, FAT_EOC)
    ∧ ∃ s2 r, fs_write 5 twoFilesFS ((0 : Nat) : Int) (fun _ => 1) 100 = some (s2, r)
        ∧ ChainsOK s2 ∧ NoAliasing s2
        ∧ ∀ B, B < FS_FILE_MAX_COUNT → B ≠ 0 → slotUsed (twoFilesFS.Root B) →
            s2.Root B = twoFilesFS.Root B
            ∧ ∀ csB, IsChain twoFilesFS.FAT (twoFilesFS.Root B).firstDataBlockIndex csB →
                IsChain s2.FAT (s2.Root B).firstDataBlockIndex csB
                ∧ ∀ c ∈ csB, s2.disk.data (c + twoFilesFS.Superblock.dataBlockStartIndex)
                    = twoFilesFS.disk.data (c + twoFilesFS.Superblock.dataBlockStartIndex) :=
  ⟨rfl, twoFilesFS_chainsOK, twoFilesFS_noAliasing, rfl, by decide, by decide,
    by set_option maxRecDepth 100000 in decide,
    by set_option maxRecDepth 100000 in decide,
    (no_aliasing_preserved_in_bounds twoFilesFS (by decide) twoFilesFS_chainsOK
      twoFilesFS_noAliasing).1 5 0 0 (fun _ => 1) 100 (by decide) (by decide) rfl (by decide)
      (by decide) (by set_option maxRecDepth 100000 in decide)⟩

/-! ## A write that overruns its bounce buffer -/

theorem fullTwoFilesFS_used {i : Nat} (h : slotUsed (fullTwoFilesFS.Root i)) : i = 0 ∨ i = 1 := by
  by_contra hn
  have hz : fullTwoFilesFS.Root i = zeroEntry := by
    simp only [fullTwoFilesFS, if_neg (fun e => hn (Or.inl e)), if_neg (fun e => hn (Or.inr e))]
  rw [hz] at h
  exact absurd h (by decide)

theorem fullTwoFilesFS_chain0 :
    IsChain fullTwoFilesFS.FAT (fullTwoFilesFS.Root 0).firstDataBlockIndex [1, 2] :=
  IsChain.cons (by decide) (IsChain.cons (by decide) IsChain.nil)

theorem fullTwoFilesFS_chain1 :
    IsChain fullTwoFilesFS.FAT (fullTwoFilesFS.Root 1).firstDataBlockIndex [3] :=
  IsChain.cons (by decide) IsChain.nil

theorem fullTwoFilesFS_chainsOK : ChainsOK fullTwoFilesFS := by
  intro i _ hu
  rcases fullTwoFilesFS_used hu with rfl | rfl
  · refine ⟨[1, 2], fullTwoFilesFS_chain0, ?_⟩
    intro c hc
    simp only [List.mem_cons, List.mem_singleton, List.not_mem_nil, or_false] at hc
    rcases hc with rfl | rfl <;> decide
  · refine ⟨[3], fullTwoFilesFS_chain1, ?_⟩
    intro c hc
    simp only [List.mem_singleton] at hc
    subst hc
    decide

theorem fullTwoFilesFS_noAliasing : NoAliasing fullTwoFilesFS := by
  intro i j _ _ hij hui huj ci cj hci hcj c hc1 hc2
  rcases fullTwoFilesFS_used hui with rfl | rfl <;> rcases fullTwoFilesFS_used huj with rfl | rfl
  · exact hij rfl
  · rw [IsChain.unique hci fullTwoFilesFS_chain0] at hc1
    rw [IsChain.unique hcj fullTwoFilesFS_chain1] at hc2
    simp only [List.mem_cons, List.mem_singleton, List.not_mem_nil, or_false] at hc1 hc2
    omega
  · rw [IsChain.unique hci fullTwoFilesFS_chain1] at hc1
    rw [IsChain.unique hcj fullTwoFilesFS_chain0] at hc2
    simp only [List.mem_cons, List.mem_singleton, List.not_mem_nil, or_false] at hc1 hc2
    omega
  · exact hij rfl

/-- C19 (no aliasing is preserved), evaluated where it fails.  `fullTwoFilesFS`
is mounted; its two used root entries `"f"` (chain 1, 2) and `"g"` (chain 3)
have well-formed, disjoint chains, no FAT entry is free, and handle 0 is open
on `"f"` with its cursor at 0.  A write of 12288 bytes through handle 0 needs a
third block and finds none: the first part of `fs_write` goes on with
`count = 0` and has set `fileSize = 0`, so `fullFile` is allocated with 0
bytes, while the loading loop stores the two blocks of the chain, 8192 bytes,
into it.  The accesses of the call do not stay inside the buffer. -/
theorem fs_write_on_full_disk_overruns_fullFile :
    fullTwoFilesFS.diskStatus = 1
    ∧ ChainsOK fullTwoFilesFS ∧ NoAliasing fullTwoFilesFS
    ∧ fullTwoFilesFS.fdTable 0 = { fileIndex := 0, fileOffset := 0 }
    ∧ slotUsed (fullTwoFilesFS.Root 0) ∧ slotUsed (fullTwoFilesFS.Root 1)
    ∧ freeCount fullTwoFilesFS.FAT fullTwoFilesFS.Superblock.numberOfDataBlocks = 0
    ∧ (fs_write_extend 4 fullTwoFilesFS 0 12288).map
        (fun x => match x with
          | Extended.returned _ _ => none
          | Extended.goesOn s1 count1 =>
            some (count1, (s1.Root 0).fileSize, fullFileSize (s1.Root 0).fileSize,
              loadChainEnd s1.FAT 4 (s1.Root 0).firstDataBlockIndex 0))
        = some (some (0, 0, 0, some 8192))
    ∧ fs_write_inBounds 4 fullTwoFilesFS 0 12288 = false := by
  refine ⟨rfl, fullTwoFilesFS_chainsOK, fullTwoFilesFS_noAliasing, rfl, by decide, by decide,
    by decide, ?_, ?_⟩
  · set_option maxRecDepth 100000 in decide
  · set_option maxRecDepth 100000 in decide

end LibFS
